import Mathlib

/-! # TinyOS process and thread lifecycle core

A shallow embedding of `kernel_proc.c` and `kernel_threads.c`.

* A `PCB*` is an index into the process table `PT` (`none` is `NULL`).
* A `PTCB*` is an address into a heap of thread control records; `malloc`
  hands out an address and leaves the record's old contents in place.
* A `TCB*` (a `Tid_t`) is a natural number, `NOTHREAD` being `0`.
* A call that has to wait on a condition variable reports that it is blocked;
  the state it then leaves behind is the one other threads continue from.
-/

namespace TinyOS

/-! ## Data model -/

/-- The `pid_state` enumeration of a process slot. -/
inductive pid_state where
  | FREE
  | ALIVE
  | ZOMBIE
  deriving DecidableEq, Repr

/-- Modelled from the spec: `tinyos.h`, which defines `NOPROC`, is not part of
the sources. Pids are the indices of the process table; `NOPROC`, the spec's
"NoChild" and "no parent" result, is the value `-1` outside of them. -/
def NOPROC : Int := -1

/-- Modelled from the spec: `tinyos.h`, which defines `NOTHREAD`, is not part
of the sources. A thread id is the thread handle itself; `NOTHREAD` is the
null handle. -/
def NOTHREAD : Nat := 0

/-- Process control block. `parent` doubles as the free-list link, as in the
source. The three `rlnode` rings headed in a PCB are kept as the sequence of
their members, head (`.next` of the ring head) first. -/
structure PCB where
  pstate : pid_state
  parent : Option Nat
  exitval : Int
  exitflag : Int
  argl : Int
  args : Option Nat
  FIDT : Nat → Option Nat
  children_list : List Nat
  exited_list : List Nat
  threads_list : List Nat
  main_thread : Nat

/-- Thread control block of the process layer (`PTCB`). -/
structure PTCB where
  thread : Nat
  task : Option Nat
  argl : Int
  args : Option Nat
  joinable : Int
  done : Int
  joiners : Int
  interrupted : Int
  exitval : Int

/-- The kernel state touched by the process and thread managers.
`heap` holds the `PTCB` records by address, `owner_ptcb` is the field of that
name of each `TCB`, `refcount` is the reference count of each `FCB`, and
`freed` logs the non-null arguments of `free`, most recent first. -/
structure Kernel where
  PT : Nat → PCB
  process_count : Nat
  pcb_freelist : Option Nat
  heap : Nat → PTCB
  owner_ptcb : Nat → Nat
  refcount : Nat → Nat
  freed : List Nat

/-- Run-time faults of the C program that the embedding makes explicit. -/
inductive Fault where
  | null_deref
  | assertion
  | fatal
  deriving DecidableEq, Repr

/-- How a system call ends for the thread that made it. -/
inductive Outcome (α : Type) where
  /-- The call returned `v`, leaving state `s`. -/
  | ret (s : Kernel) (v : α)
  /-- The caller is suspended (condition wait or yield) and left state `s`. -/
  | blocked (s : Kernel)
  /-- The calling thread entered its terminal sleep, leaving state `s`. -/
  | exited (s : Kernel)
  /-- The C program faults. -/
  | fault (f : Fault)
  /-- The loop bound given to the model was used up. -/
  | out_of_fuel

/-- Store `pcb` in slot `p` of the process table. -/
def set_pcb (s : Kernel) (p : Nat) (pcb : PCB) : Kernel :=
  { s with PT := fun q => if q = p then pcb else s.PT q }

/-- Store `t` at address `a` of the heap of thread records. -/
def set_ptcb (s : Kernel) (a : Nat) (t : PTCB) : Kernel :=
  { s with heap := fun b => if b = a then t else s.heap b }

/-- Function `get_pcb`: the PCB of a pid, `NULL` for a FREE slot. -/
def get_pcb (s : Kernel) (pid : Nat) : Option Nat :=
  if (s.PT pid).pstate = pid_state.FREE then none else some pid

/-- Function `get_pid`: the pid of a PCB pointer, `NOPROC` for `NULL`. -/
def get_pid (pcb : Option Nat) : Int :=
  match pcb with
  | none => NOPROC
  | some p => (p : Int)

/-! ## The control-block pool -/

/-- Function `initialize_PCB`. The fields it does not assign (`parent`, `exitval`,
`main_thread`) keep their previous contents. -/
def initialize_PCB (pcb : PCB) : PCB :=
  { pcb with
    pstate := pid_state.FREE
    argl := 0
    args := none
    exitflag := 0
    FIDT := fun _ => none
    children_list := []
    exited_list := []
    threads_list := [] }

/-- First loop of `initialize_processes`: `initialize_PCB` on slots `0 .. n-1`. -/
def init_PCBs (n : Nat) (s : Kernel) : Kernel :=
  (List.range n).foldl (fun st p => set_pcb st p (initialize_PCB (st.PT p))) s

/-- Second loop of `initialize_processes`, with `pcbiter = PT + k` on entry:
walk down to `PT`, threading the free list through the `parent` fields. -/
def build_freelist : Nat → Kernel → Kernel
  | 0, s => s
  | k + 1, s =>
    build_freelist k
      { set_pcb s k { s.PT k with parent := s.pcb_freelist } with pcb_freelist := some k }

/-- The pool part of `initialize_processes`: everything before the call that
creates the idle process. -/
def initialize_pool (MAX_PROC : Nat) (s : Kernel) : Kernel :=
  { build_freelist MAX_PROC { init_PCBs MAX_PROC s with pcb_freelist := none } with
    process_count := 0 }

/-- Width of `unsigned int`. -/
def UINT_MOD : Nat := 2 ^ 32

/-- Function `acquire_PCB`: pop the head of the free list, `NULL` when it is empty. -/
def acquire_PCB (s : Kernel) : Kernel × Option Nat :=
  match s.pcb_freelist with
  | none => (s, none)
  | some p =>
    ({ set_pcb s p { s.PT p with pstate := pid_state.ALIVE } with
        pcb_freelist := (s.PT p).parent
        process_count := (s.process_count + 1) % UINT_MOD }, some p)

/-- Function `release_PCB`: push a slot back onto the free list. -/
def release_PCB (s : Kernel) (p : Nat) : Kernel :=
  { set_pcb s p { s.PT p with pstate := pid_state.FREE, parent := s.pcb_freelist } with
    pcb_freelist := some p
    process_count := (s.process_count + UINT_MOD - 1) % UINT_MOD }

/-- The state after `k` successive calls of `acquire_PCB`. -/
def acquire_n : Nat → Kernel → Kernel
  | 0, s => s
  | k + 1, s => (acquire_PCB (acquire_n k s)).1

/-- A kernel image with zeroed globals, as the loader provides it. -/
def zero_PCB : PCB :=
  { pstate := pid_state.FREE, parent := none, exitval := 0, exitflag := 0, argl := 0,
    args := none, FIDT := fun _ => none, children_list := [], exited_list := [],
    threads_list := [], main_thread := 0 }

/-- A zeroed thread record. -/
def zero_PTCB : PTCB :=
  { thread := 0, task := none, argl := 0, args := none, joinable := 0, done := 0,
    joiners := 0, interrupted := 0, exitval := 0 }

/-- The zeroed kernel image. -/
def zero_Kernel : Kernel :=
  { PT := fun _ => zero_PCB, process_count := 0, pcb_freelist := none,
    heap := fun _ => zero_PTCB, owner_ptcb := fun _ => 0, refcount := fun _ => 0,
    freed := [] }


/-! ## Resource lists and file handles -/

/-- Modelled from the spec: `util.h` with the `rlnode` ring primitives is not
part of the sources. A ring is the sequence of its members starting at the
node `list.next`, which is the node the wait and the traversal loops of the
sources read first; `rlist_push_front` links a node in at that head. -/
def rlist_push_front (l : List Nat) (n : Nat) : List Nat := n :: l

/-- Modelled from the spec: `util.h` is not part of the sources.
`rlist_push_back` links a node in at the tail ("appended to the process's
thread collection"). -/
def rlist_push_back (l : List Nat) (n : Nat) : List Nat := l ++ [n]

/-- Modelled from the spec: `util.h` is not part of the sources.
`is_rlist_empty` tells whether the ring has no member. -/
def is_rlist_empty (l : List Nat) : Bool := l.isEmpty

/-- Modelled from the spec: `util.h` is not part of the sources.
`rlist_remove` unlinks a node from the ring it is in ("unlink it from both
the children and exited collections"); a node is linked into one ring at most,
so it is taken out wherever it occurs. -/
def rlist_remove (l : List Nat) (n : Nat) : List Nat := l.filter (fun m => m ≠ n)

/-- The call `rlist_remove(& pcb->children_node)`. -/
def remove_children_node (s : Kernel) (p : Nat) : Kernel :=
  { s with PT := fun q =>
      { s.PT q with children_list := rlist_remove (s.PT q).children_list p } }

/-- The call `rlist_remove(& pcb->exited_node)`. -/
def remove_exited_node (s : Kernel) (p : Nat) : Kernel :=
  { s with PT := fun q =>
      { s.PT q with exited_list := rlist_remove (s.PT q).exited_list p } }

/-- The call `rlist_remove(& ptcb->ptcb_node)`. -/
def remove_ptcb_node (s : Kernel) (a : Nat) : Kernel :=
  { s with PT := fun q =>
      { s.PT q with threads_list := rlist_remove (s.PT q).threads_list a } }

/-- Modelled from the spec: `kernel_streams.c` is not part of the sources.
`FCB_incref` is the collaborator's "increment-reference" on a handle. -/
def FCB_incref (s : Kernel) (f : Nat) : Kernel :=
  { s with refcount := fun g => if g = f then s.refcount g + 1 else s.refcount g }

/-- Modelled from the spec: `kernel_streams.c` is not part of the sources.
`FCB_decref` is the collaborator's "decrement-reference" on a handle; closing
at zero is the collaborator's own business. -/
def FCB_decref (s : Kernel) (f : Nat) : Kernel :=
  { s with refcount := fun g => if g = f then s.refcount g - 1 else s.refcount g }

/-- The call `free(p)`: a no-op on `NULL`, logged otherwise. -/
def free (s : Kernel) (p : Option Nat) : Kernel :=
  match p with
  | none => s
  | some a => { s with freed := a :: s.freed }

/-! ## Process creation -/

/-- One round of the inheritance loop of `Exec`, for file id `i`. -/
def inherit_step (cur new : Nat) (s : Kernel) (i : Nat) : Kernel :=
  let s1 := set_pcb s new
    { s.PT new with FIDT := fun j => if j = i then (s.PT cur).FIDT i else (s.PT new).FIDT j }
  match (s1.PT new).FIDT i with
  | none => s1
  | some f => FCB_incref s1 f

/-- The loop `for(int i=0; i<MAX_FILEID; i++)` of `Exec`. -/
def inherit_FIDT (MAX_FILEID cur new : Nat) (s : Kernel) : Kernel :=
  (List.range MAX_FILEID).foldl (inherit_step cur new) s

/-- The stores of the block `if(call != NULL)` of `Exec`, once its allocations
are made. `mainthread` is what `spawn_thread` returns, `ptcb` and `argsptr`
what the two `malloc` calls return. The record's `joiners` and `exitval` are
not assigned and keep what the heap held. -/
def Exec_spawn (s : Kernel) (newproc : Nat) (call : Option Nat) (argl : Int)
    (args : Option Nat) (mainthread ptcb argsptr : Nat) : Kernel :=
  match call with
  | none => s
  | some task =>
    let argsptr1 : Option Nat := if args.isSome then some argsptr else none
    let s1 := set_ptcb s ptcb
      { s.heap ptcb with
        thread := mainthread, task := some task, argl := argl, args := argsptr1,
        joinable := 1, interrupted := 0, done := 0 }
    let s2 := { s1 with owner_ptcb := fun t => if t = mainthread then ptcb else s1.owner_ptcb t }
    set_pcb s2 newproc
      { s2.PT newproc with
        threads_list := rlist_push_back (s2.PT newproc).threads_list ptcb
        main_thread := mainthread }

/-- The block `if(call != NULL)` of `Exec`. With `args` not `NULL` and `argl`
negative, `malloc(argl)` is asked for a size no allocation can meet and
returns `NULL`, and `memcpy(argsptr, args, argl)` writes through it. A
request that can be met (`argl` is an `int`, so a non-negative one is below
2^31 bytes; the record is `sizeof(PTCB)` bytes) is taken to succeed, as it is
for `CreateThread`. -/
def Exec_main_thread (s : Kernel) (newproc : Nat) (call : Option Nat) (argl : Int)
    (args : Option Nat) (mainthread ptcb argsptr : Nat) : Except Fault Kernel :=
  if call.isSome ∧ args.isSome ∧ argl < 0 then Except.error Fault.null_deref
  else Except.ok (Exec_spawn s newproc call argl args mainthread ptcb argsptr)

/-- The hierarchy block of `Exec`: pids 0 and 1 stay parentless, any other new
process becomes a child of the caller and inherits its file table. -/
def Exec_link (MAX_FILEID : Nat) (s : Kernel) (CURPROC newproc : Nat) : Kernel :=
  if get_pid (some newproc) ≤ 1 then
    set_pcb s newproc { s.PT newproc with parent := none }
  else
    let s1 := set_pcb s newproc { s.PT newproc with parent := some CURPROC }
    let s2 := set_pcb s1 CURPROC
      { s1.PT CURPROC with
        children_list := rlist_push_front (s1.PT CURPROC).children_list newproc }
    inherit_FIDT MAX_FILEID CURPROC newproc s2

/-- Function `Exec`. The store `newproc->exitflag = 0` comes before the test
`newproc == NULL`, so a `NULL` from `acquire_PCB` is dereferenced. -/
def Exec (MAX_FILEID : Nat) (s : Kernel) (CURPROC : Nat) (call : Option Nat) (argl : Int)
    (args : Option Nat) (mainthread ptcb argsptr : Nat) : Except Fault (Kernel × Int) :=
  match (acquire_PCB s).2 with
  | none => Except.error Fault.null_deref
  | some n =>
    let s2 := set_pcb (acquire_PCB s).1 n { (acquire_PCB s).1.PT n with exitflag := 0 }
    let s3 := Exec_link MAX_FILEID s2 CURPROC n
    match Exec_main_thread s3 n call argl args mainthread ptcb argsptr with
    | Except.error f => Except.error f
    | Except.ok s4 => Except.ok (s4, get_pid (some n))

/-- Function `GetPid`. -/
def GetPid (CURPROC : Nat) : Int := get_pid (some CURPROC)

/-- Function `GetPPid`. -/
def GetPPid (s : Kernel) (CURPROC : Nat) : Int := get_pid (s.PT CURPROC).parent

/-! ## Waiting for children -/

/-- Function `cleanup_zombie`. `status` is `none` for a `NULL` pointer and holds the
pointed-to value otherwise. -/
def cleanup_zombie (s : Kernel) (pcb : Nat) (status : Option Int) : Kernel × Option Int :=
  let status1 := status.map (fun _ => (s.PT pcb).exitval)
  let s1 := remove_children_node s pcb
  let s2 := remove_exited_node s1 pcb
  (release_PCB s2 pcb, status1)

/-- The tail of `wait_for_specific_child` from its `while` loop on; this is
also where a caller woken from `Cond_Wait` continues. -/
def wait_specific_loop (s : Kernel) (child : Nat) (cpid : Int) (status : Option Int) :
    Outcome (Int × Option Int) :=
  if (s.PT child).pstate = pid_state.ALIVE then Outcome.blocked s
  else
    let r := cleanup_zombie s child status
    Outcome.ret r.1 (cpid, r.2)

/-- Function `wait_for_specific_child`. -/
def wait_for_specific_child (MAX_PROC : Nat) (s : Kernel) (CURPROC : Nat) (cpid : Int)
    (status : Option Int) : Outcome (Int × Option Int) :=
  if cpid < 0 ∨ cpid ≥ (MAX_PROC : Int) then Outcome.ret s (NOPROC, status)
  else
    match get_pcb s cpid.toNat with
    | none => Outcome.ret s (NOPROC, status)
    | some child =>
      if (s.PT child).parent ≠ some CURPROC then Outcome.ret s (NOPROC, status)
      else wait_specific_loop s child cpid status

/-- The tail of `wait_for_any_child` from its `while` loop on. -/
def wait_any_loop (s : Kernel) (CURPROC : Nat) (status : Option Int) :
    Outcome (Int × Option Int) :=
  match (s.PT CURPROC).exited_list with
  | [] => Outcome.blocked s
  | child :: _ =>
    if (s.PT child).pstate ≠ pid_state.ZOMBIE then Outcome.fault Fault.assertion
    else
      let cpid := get_pid (some child)
      let r := cleanup_zombie s child status
      Outcome.ret r.1 (cpid, r.2)

/-- Function `wait_for_any_child`. -/
def wait_for_any_child (s : Kernel) (CURPROC : Nat) (status : Option Int) :
    Outcome (Int × Option Int) :=
  if is_rlist_empty (s.PT CURPROC).children_list then Outcome.ret s (NOPROC, status)
  else wait_any_loop s CURPROC status

/-- Function `WaitChild`. -/
def WaitChild (MAX_PROC : Nat) (s : Kernel) (CURPROC : Nat) (cpid : Int)
    (status : Option Int) : Outcome (Int × Option Int) :=
  if cpid ≠ NOPROC then wait_for_specific_child MAX_PROC s CURPROC cpid status
  else wait_for_any_child s CURPROC status

/-! ## Thread management -/

/-- Function `CreateThread`. `newthread` is what `spawn_thread` returns and `ptcb` what
`malloc` returns; `exitval` is not assigned and keeps what the heap held. -/
def CreateThread (s : Kernel) (CURPROC : Nat) (task : Option Nat) (argl : Int)
    (args : Option Nat) (newthread ptcb : Nat) : Kernel × Nat :=
  let s1 := set_ptcb s ptcb
    { s.heap ptcb with
      thread := newthread, task := task, argl := argl, args := args,
      joinable := 1, interrupted := 0, joiners := 0, done := 0 }
  let s2 := { s1 with owner_ptcb := fun t => if t = newthread then ptcb else s1.owner_ptcb t }
  (set_pcb s2 CURPROC
    { s2.PT CURPROC with
      threads_list := rlist_push_back (s2.PT CURPROC).threads_list ptcb }, newthread)

/-- Function `ThreadSelf`. -/
def ThreadSelf (CURTHREAD : Nat) : Nat := CURTHREAD

/-- The search loop shared by `ThreadJoin`, `ThreadDetach` and
`ThreadInterrupt`: the first record of the process whose thread is `tid`. -/
def find_ptcb (s : Kernel) (CURPROC : Nat) (tid : Nat) : Option Nat :=
  (s.PT CURPROC).threads_list.find? (fun a => decide ((s.heap a).thread = tid))

/-- Function `ThreadJoin` from the label `acquireexitval` on. `exitval` is `none` for a
`NULL` pointer and holds the pointed-to value otherwise. -/
def ThreadJoin_acquireexitval (s : Kernel) (owner : Nat) (exitval : Option Int) :
    Outcome (Int × Option Int) :=
  let exitval1 := exitval.map (fun _ => (s.heap owner).exitval)
  let s1 :=
    if (s.heap owner).joiners = 0 then
      set_ptcb s owner { s.heap owner with joinable := 0 }
    else s
  Outcome.ret s1 (0, exitval1)

/-- Function `ThreadJoin` from its `while` loop on; this is also where a joiner woken
from `Cond_Wait` continues. -/
def ThreadJoin_wait (s : Kernel) (owner : Nat) (exitval : Option Int) :
    Outcome (Int × Option Int) :=
  if (s.heap owner).joinable = 1 ∧ (s.heap owner).done = 0 then Outcome.blocked s
  else if (s.heap owner).joiners = 0 then Outcome.ret s (-1, exitval)
  else
    let s1 := set_ptcb s owner { s.heap owner with joiners := (s.heap owner).joiners - 1 }
    ThreadJoin_acquireexitval s1 owner exitval

/-- Function `ThreadJoin`. -/
def ThreadJoin (s : Kernel) (CURPROC CURTHREAD : Nat) (tid : Nat) (exitval : Option Int) :
    Outcome (Int × Option Int) :=
  if tid = NOTHREAD ∨ tid = ThreadSelf CURTHREAD then Outcome.ret s (-1, exitval)
  else
    match find_ptcb s CURPROC tid with
    | none => Outcome.ret s (-1, exitval)
    | some owner =>
      if (s.heap owner).joinable = 1 ∧ (s.heap owner).done = 1 then
        ThreadJoin_acquireexitval s owner exitval
      else if (s.heap owner).joinable = 0 ∧ (s.heap owner).done = 1 then
        Outcome.ret s (-1, exitval)
      else
        let s1 := set_ptcb s owner { s.heap owner with joiners := (s.heap owner).joiners + 1 }
        ThreadJoin_wait s1 owner exitval

/-- Function `ThreadDetach`. The broadcast goes to `tcb->owner_ptcb->joincv`; condition
variables carry no state here. -/
def ThreadDetach (s : Kernel) (CURPROC : Nat) (tid : Nat) : Kernel × Int :=
  match find_ptcb s CURPROC tid with
  | none => (s, -1)
  | some owner =>
    if (s.heap owner).joinable ≠ 0 then
      (set_ptcb s owner { s.heap owner with joinable := 0, joiners := 0 }, 0)
    else (s, -1)

/-- Function `ThreadIsInterrupted`. -/
def ThreadIsInterrupted (s : Kernel) (CURTHREAD : Nat) : Int :=
  (s.heap (s.owner_ptcb CURTHREAD)).interrupted

/-- Function `ThreadClearInterrupt`. -/
def ThreadClearInterrupt (s : Kernel) (CURTHREAD : Nat) : Kernel :=
  set_ptcb s (s.owner_ptcb (ThreadSelf CURTHREAD))
    { s.heap (s.owner_ptcb (ThreadSelf CURTHREAD)) with interrupted := 0 }

/-! ## Process termination -/

/-- The counting loop of `ThreadExit`: records of the process not yet done. -/
def count_not_done (s : Kernel) (CURPROC : Nat) : Nat :=
  (s.PT CURPROC).threads_list.countP (fun a => decide ((s.heap a).done = 0))

/-- The counting loop of the barrier of `Exit`: records not yet done, or the
caller's own. -/
def count_barrier (s : Kernel) (CURPROC CURTHREAD : Nat) : Nat :=
  (s.PT CURPROC).threads_list.countP
    (fun a => decide ((s.heap a).done = 0 ∨ (s.heap a).thread = CURTHREAD))

/-- One round of the reclaim loop of `Exit`, at the record `a`. -/
def reclaim_step (CURPROC CURTHREAD : Nat) (s : Kernel) (a : Nat) : Kernel :=
  if (s.heap a).done ≠ 0 ∧ (s.heap a).thread ≠ CURTHREAD then
    let s1 :=
      if (s.heap a).thread = (s.PT CURPROC).main_thread then
        set_ptcb (free s (s.heap a).args) a { s.heap a with args := none }
      else s
    free (remove_ptcb_node s1 a) (some a)
  else s

/-- The reclaim loop of `Exit`; `tmp2` keeps the traversal on the members the
list had on entry. -/
def reclaim_threads (CURPROC CURTHREAD : Nat) (s : Kernel) : Kernel :=
  (s.PT CURPROC).threads_list.foldl (reclaim_step CURPROC CURTHREAD) s

/-- One round of the loop "Clean up FIDT" of `Exit`. -/
def close_step (curproc : Nat) (s : Kernel) (i : Nat) : Kernel :=
  match (s.PT curproc).FIDT i with
  | none => s
  | some f =>
    let s1 := FCB_decref s f
    set_pcb s1 curproc
      { s1.PT curproc with FIDT := fun j => if j = i then none else (s1.PT curproc).FIDT j }

/-- The loop "Clean up FIDT" of `Exit`. -/
def close_FIDT (MAX_FILEID curproc : Nat) (s : Kernel) : Kernel :=
  (List.range MAX_FILEID).foldl (close_step curproc) s

/-- The reparenting loop of `Exit`, bounded by `fuel` rounds. With `initpcb`
being `NULL` the push onto its children list is a null dereference. -/
def reparent_children (curproc : Nat) (initpcb : Option Nat) : Nat → Kernel → Outcome Unit
  | 0, s =>
    if is_rlist_empty (s.PT curproc).children_list then Outcome.ret s ()
    else Outcome.out_of_fuel
  | fuel + 1, s =>
    match (s.PT curproc).children_list with
    | [] => Outcome.ret s ()
    | child :: rest =>
      let s1 := set_pcb s curproc { s.PT curproc with children_list := rest }
      let s2 := set_pcb s1 child { s1.PT child with parent := initpcb }
      match initpcb with
      | none => Outcome.fault Fault.null_deref
      | some i =>
        reparent_children curproc initpcb fuel
          (set_pcb s2 i
            { s2.PT i with children_list := rlist_push_front (s2.PT i).children_list child })

/-- The step "Add exited children to the initial task's exited list" of `Exit`:
`rlist_append` moves the members of the source ring to the tail of the
destination and leaves the source empty. -/
def splice_exited (curproc : Nat) (initpcb : Option Nat) (s : Kernel) : Outcome Unit :=
  if is_rlist_empty (s.PT curproc).exited_list then Outcome.ret s ()
  else
    match initpcb with
    | none => Outcome.fault Fault.null_deref
    | some i =>
      let s1 := set_pcb s i
        { s.PT i with exited_list := (s.PT i).exited_list ++ (s.PT curproc).exited_list }
      Outcome.ret (set_pcb s1 curproc { s1.PT curproc with exited_list := [] }) ()

/-- The step "Put me into my parent's exited list" of `Exit`. -/
def notify_parent (curproc : Nat) (s : Kernel) : Kernel :=
  match (s.PT curproc).parent with
  | none => s
  | some par =>
    set_pcb s par
      { s.PT par with exited_list := rlist_push_front (s.PT par).exited_list curproc }

/-- The last steps of `Exit`: unlink and free the caller's record, mark the
process ZOMBIE, record the exit value. -/
def Exit_finish (s : Kernel) (curproc CURTHREAD : Nat) (exitval : Int) : Kernel :=
  let own := s.owner_ptcb CURTHREAD
  let s1 := free (remove_ptcb_node s own) (some own)
  set_pcb s1 curproc { s1.PT curproc with pstate := pid_state.ZOMBIE, exitval := exitval }

/-- The step of `Exit` that frees the argument buffer when the caller is the
main thread of the process. -/
def free_own_args (s : Kernel) (CURPROC CURTHREAD : Nat) : Kernel :=
  if CURTHREAD = (s.PT CURPROC).main_thread then
    set_ptcb (free s (s.heap (s.owner_ptcb CURTHREAD)).args) (s.owner_ptcb CURTHREAD)
      { s.heap (s.owner_ptcb CURTHREAD) with args := none }
  else s

/-- The part of `Exit` after the barrier, run without releasing the lock. -/
def Exit_teardown (MAX_FILEID fuel : Nat) (s : Kernel) (CURPROC CURTHREAD : Nat)
    (exitval : Int) : Outcome Unit :=
  let s1 := reclaim_threads CURPROC CURTHREAD s
  let s2 := free_own_args s1 CURPROC CURTHREAD
  let s3 := close_FIDT MAX_FILEID CURPROC s2
  let initpcb := get_pcb s3 1
  match reparent_children CURPROC initpcb fuel s3 with
  | Outcome.ret s4 _ =>
    match splice_exited CURPROC initpcb s4 with
    | Outcome.ret s5 _ =>
      Outcome.exited (Exit_finish (notify_parent CURPROC s5) CURPROC CURTHREAD exitval)
    | Outcome.blocked s5 => Outcome.blocked s5
    | Outcome.exited s5 => Outcome.exited s5
    | Outcome.fault f => Outcome.fault f
    | Outcome.out_of_fuel => Outcome.out_of_fuel
  | Outcome.blocked s4 => Outcome.blocked s4
  | Outcome.exited s4 => Outcome.exited s4
  | Outcome.fault f => Outcome.fault f
  | Outcome.out_of_fuel => Outcome.out_of_fuel

/-- The barrier of `Exit`: go on when the count is one, yield otherwise. -/
def Exit_barrier (MAX_FILEID fuel : Nat) (s : Kernel) (CURPROC CURTHREAD : Nat)
    (exitval : Int) : Outcome Unit :=
  if count_barrier s CURPROC CURTHREAD = 1 then
    Exit_teardown MAX_FILEID fuel s CURPROC CURTHREAD exitval
  else Outcome.blocked s

/-- The loop `while(WaitChild(NOPROC,NULL)!=NOPROC);` that the init process
runs in `Exit`, bounded by `n` rounds, followed by the barrier. -/
def Exit_drain (MAX_PROC MAX_FILEID fuel : Nat) (CURPROC CURTHREAD : Nat) (exitval : Int) :
    Nat → Kernel → Outcome Unit
  | 0, _ => Outcome.out_of_fuel
  | n + 1, s =>
    match WaitChild MAX_PROC s CURPROC NOPROC none with
    | Outcome.ret s1 r =>
      if r.1 ≠ NOPROC then Exit_drain MAX_PROC MAX_FILEID fuel CURPROC CURTHREAD exitval n s1
      else Exit_barrier MAX_FILEID fuel s1 CURPROC CURTHREAD exitval
    | Outcome.blocked s1 => Outcome.blocked s1
    | Outcome.exited s1 => Outcome.exited s1
    | Outcome.fault f => Outcome.fault f
    | Outcome.out_of_fuel => Outcome.out_of_fuel

/-- The second critical section of `Exit`: a caller that is still joinable
publishes its exit value and stops being joinable. -/
def Exit_publish (s : Kernel) (CURTHREAD : Nat) (exitval : Int) : Kernel :=
  if (s.heap (s.owner_ptcb CURTHREAD)).joinable = 1 then
    set_ptcb s (s.owner_ptcb (ThreadSelf CURTHREAD))
      { s.heap (s.owner_ptcb (ThreadSelf CURTHREAD)) with exitval := exitval, joinable := 0 }
  else s

/-- Function `Exit` from the second critical section on (after the guard on
`exitflag`): publish the exit value, drain as init, then barrier and
teardown. -/
def Exit_body (MAX_PROC MAX_FILEID fuel : Nat) (s : Kernel) (CURPROC CURTHREAD : Nat)
    (exitval : Int) : Outcome Unit :=
  if GetPid CURPROC = 1 then
    Exit_drain MAX_PROC MAX_FILEID fuel CURPROC CURTHREAD exitval fuel
      (Exit_publish s CURTHREAD exitval)
  else Exit_barrier MAX_FILEID fuel (Exit_publish s CURTHREAD exitval) CURPROC CURTHREAD exitval

/-- Function `ThreadExit` when the caller is not the last thread: publish the exit
value if joinable, set `done`, sleep for good. -/
def ThreadExit_body (s : Kernel) (CURTHREAD : Nat) (exitval : Int) : Outcome Unit :=
  let own := s.owner_ptcb CURTHREAD
  let s1 :=
    if (s.heap own).joinable = 1 then set_ptcb s own { s.heap own with exitval := exitval }
    else s
  let own1 := s1.owner_ptcb (ThreadSelf CURTHREAD)
  Outcome.exited (set_ptcb s1 own1 { s1.heap own1 with done := 1 })

mutual
/-- Function `Exit`; `fuel` bounds the chain of calls between `Exit` and `ThreadExit`
and the loops below. Neither callee returns, so nothing follows the calls. -/
def Exit (MAX_PROC MAX_FILEID : Nat) : Nat → Kernel → Nat → Nat → Int → Outcome Unit
  | 0, _, _, _, _ => Outcome.out_of_fuel
  | fuel + 1, s, CURPROC, CURTHREAD, exitval =>
    if (s.PT CURPROC).exitflag = 1 then
      ThreadExit MAX_PROC MAX_FILEID fuel s CURPROC CURTHREAD exitval
    else
      Exit_body MAX_PROC MAX_FILEID fuel
        (set_pcb s CURPROC { s.PT CURPROC with exitflag := 1 }) CURPROC CURTHREAD exitval
/-- Function `ThreadExit`. -/
def ThreadExit (MAX_PROC MAX_FILEID : Nat) : Nat → Kernel → Nat → Nat → Int → Outcome Unit
  | 0, _, _, _, _ => Outcome.out_of_fuel
  | fuel + 1, s, CURPROC, CURTHREAD, exitval =>
    if count_not_done s CURPROC = 1 then
      Exit MAX_PROC MAX_FILEID fuel s CURPROC CURTHREAD exitval
    else ThreadExit_body s CURTHREAD exitval
end

/-- Function `initialize_processes`: build the pool, then create the idle process,
which has to get pid 0. -/
def initialize_processes (MAX_PROC MAX_FILEID : Nat) (s : Kernel) (CURPROC : Nat) :
    Except Fault Kernel :=
  match Exec MAX_FILEID (initialize_pool MAX_PROC s) CURPROC none 0 none 0 0 0 with
  | Except.ok r => if r.2 ≠ 0 then Except.error Fault.fatal else Except.ok r.1
  | Except.error f => Except.error f

/-! ## Closed forms used in the proofs -/

/-- The state the reparenting loop of `Exit` ends in when the initial task is
slot `i`: every former child has parent `i` and sits in front of the children
of `i`, last-popped first. -/
def reparent_state (cur i : Nat) (s : Kernel) : Kernel :=
  { s with PT := fun q =>
      let b := if q ∈ (s.PT cur).children_list then { s.PT q with parent := some i } else s.PT q
      if q = cur then { b with children_list := [] }
      else if q = i then
        { b with children_list := (s.PT cur).children_list.reverse ++ b.children_list }
      else b }

/-- Two states agree on the pool and on the hierarchy fields of every slot. -/
def same_links (s t : Kernel) : Prop :=
  t.pcb_freelist = s.pcb_freelist ∧ t.process_count = s.process_count ∧
  ∀ q, (t.PT q).parent = (s.PT q).parent ∧
    (t.PT q).children_list = (s.PT q).children_list ∧
    (t.PT q).exited_list = (s.PT q).exited_list ∧
    (t.PT q).pstate = (s.PT q).pstate ∧
    (t.PT q).exitval = (s.PT q).exitval ∧
    (t.PT q).exitflag = (s.PT q).exitflag

/-- The state `splice_exited` ends in when the initial task is slot `i`. -/
def splice_state (cur i : Nat) (s : Kernel) : Kernel :=
  if is_rlist_empty (s.PT cur).exited_list then s
  else
    set_pcb
      (set_pcb s i
        { s.PT i with exited_list := (s.PT i).exited_list ++ (s.PT cur).exited_list })
      cur
      { (set_pcb s i
          { s.PT i with
            exited_list := (s.PT i).exited_list ++ (s.PT cur).exited_list }).PT cur with
        exited_list := [] }

/-! ## Concrete scenarios -/

/-- The state an `Exec` result carries (the zeroed image on a fault). -/
def Exec_state (r : Except Fault (Kernel × Int)) : Kernel :=
  match r with
  | Except.ok p => p.1
  | Except.error _ => zero_Kernel

/-- The state an outcome carries (the zeroed image when it carries none). -/
def Outcome.state {α : Type} (o : Outcome α) : Kernel :=
  match o with
  | Outcome.ret s _ => s
  | Outcome.blocked s => s
  | Outcome.exited s => s
  | Outcome.fault _ => zero_Kernel
  | Outcome.out_of_fuel => zero_Kernel

/-- Boot of a four-slot system with two file ids: the pool, then the idle
process (pid 0). -/
def boot_idle : Kernel :=
  Exec_state (Exec 2 (initialize_pool 4 zero_Kernel) 0 none 0 none 0 0 0)

/-- Then the init process (pid 1), with main thread 101 and record 201. -/
def boot_init : Kernel :=
  Exec_state (Exec 2 boot_idle 0 (some 1) 0 none 101 201 301)

/-- Then init creates pid 2, with main thread 102 and record 202. -/
def one_child : Kernel :=
  Exec_state (Exec 2 boot_init 1 (some 1) 0 none 102 202 302)

/-- Then init creates pid 3, with main thread 103 and record 203. -/
def two_children : Kernel :=
  Exec_state (Exec 2 one_child 1 (some 1) 0 none 103 203 303)

/-- Then pid 2 terminates with `Exit(7)` from its main thread. -/
def one_child_exited : Kernel := (Exit 4 2 5 one_child 2 102 7).state

/-- The state `boot_init` with init holding the handle 7 in both slots of its
file table, reference count 2. -/
def dup_table : Kernel :=
  { set_pcb boot_init 1 { boot_init.PT 1 with FIDT := fun j => if j < 2 then some 7 else none } with
    refcount := fun g => if g = 7 then 2 else 0 }

/-- The members of the free list, following `parent` from `head` for at most
`n` links. -/
def free_chain (s : Kernel) : Nat → Option Nat → List Nat
  | 0, _ => []
  | _ + 1, none => []
  | n + 1, some p => p :: free_chain s n (s.PT p).parent

/-- Then init terminates with `Exit(0)` from its main thread, reaping pid 2 on
the way. -/
def init_exited : Kernel := (Exit 4 2 5 one_child_exited 1 101 0).state

/-- A five-slot system in which init created pid 2 and pid 2 created pid 3. -/
def grandchild : Kernel :=
  Exec_state (Exec 2
    (Exec_state (Exec 2
      (Exec_state (Exec 2
        (Exec_state (Exec 2 (initialize_pool 5 zero_Kernel) 0 none 0 none 0 0 0))
        0 (some 1) 0 none 101 201 301))
      1 (some 1) 0 none 102 202 302))
    2 (some 1) 0 none 103 203 303)

/-- From `two_children`: pid 2 terminates with `Exit(7)`, then pid 3 with
`Exit(8)`, each from its main thread. -/
def both_exited : Kernel :=
  (Exit 4 2 5 (Exit 4 2 5 two_children 2 102 7).state 3 103 8).state

/-- The value a returned call delivered. -/
def Outcome.value {α : Type} (o : Outcome α) : Option α :=
  match o with
  | Outcome.ret _ v => some v
  | _ => none

/-- The state `boot_init` after init created a second thread, 111, whose
record `malloc` placed at address 211, where the heap still held 99 in the
`exitval` field. -/
def second_thread : Kernel :=
  (CreateThread (set_ptcb boot_init 211 { zero_PTCB with exitval := 99 }) 1 (some 5) 0 none
    111 211).1

/-- From `second_thread`: thread 111 is detached, then terminates with
`ThreadExit(7)` while the main thread 101 is still running. -/
def detached_done : Kernel :=
  (ThreadExit 4 2 5 (ThreadDetach second_thread 1 111).1 1 111 7).state

/-- The state `boot_init` with the heap word that `Exec` will get for the
`joiners` field of the next main-thread record holding 5. -/
def dirty_heap : Kernel :=
  set_ptcb boot_init 202 { zero_PTCB with joiners := 5 }

/-- The state a woken joiner of the record `owner` leaves behind when it runs
`ThreadJoin` from its `while` loop to the end. -/
def join_depart (owner : Nat) (ev : Option Int) (s : Kernel) : Kernel :=
  (ThreadJoin_wait s owner ev).state

/-- From `second_thread`: init creates a third thread, 112 with record 212. -/
def three_threads : Kernel := (CreateThread second_thread 1 (some 5) 0 none 112 212).1

/-- From `three_threads`: the threads 101 and 112 call `ThreadJoin` on thread
111 and block. -/
def two_joiners : Kernel :=
  (ThreadJoin (ThreadJoin three_threads 1 101 111 (some 0)).state 1 112 111 (some 0)).state

/-- Two states agree on the file tables and on the reference counts. -/
def same_files (s t : Kernel) : Prop :=
  t.refcount = s.refcount ∧ ∀ q, (t.PT q).FIDT = (s.PT q).FIDT

/-- Two states agree on the heap of thread records, the `free` log and the
thread lists. -/
def same_threads (s t : Kernel) : Prop :=
  t.freed = s.freed ∧ t.owner_ptcb = s.owner_ptcb ∧ t.heap = s.heap ∧
  ∀ q, (t.PT q).threads_list = (s.PT q).threads_list ∧
    (t.PT q).main_thread = (s.PT q).main_thread

/-- From `three_threads`: thread 111 terminates with `ThreadExit(7)`. Thread
112 is still running. -/
def one_running : Kernel := (ThreadExit 4 2 5 three_threads 1 111 7).state

/-- From `one_running`: thread 112 terminates with `ThreadExit(8)` as well, so
that only the main thread 101 of process 1 is not done. -/
def others_done : Kernel := (ThreadExit 4 2 5 one_running 1 112 8).state

/-- Whether the reclaim loop of `Exit` run by thread `T` takes the record `a`:
it is done and is not the caller's. -/
def reclaimable (s : Kernel) (T a : Nat) : Bool :=
  decide ((s.heap a).done ≠ 0 ∧ (s.heap a).thread ≠ T)

/-- The `free` calls of one round of the reclaim loop, most recent first: the
record, after the argument buffer when the record is the main thread's. -/
def reclaim_frees (s : Kernel) (P T a : Nat) : List Nat :=
  if reclaimable s T a then
    a :: (if (s.heap a).thread = (s.PT P).main_thread then (s.heap a).args.toList else [])
  else []

/-- The `free` calls of the reclaim loop over the list `l`, most recent first. -/
def reclaim_log (s : Kernel) (P T : Nat) : List Nat → List Nat
  | [] => []
  | a :: l => reclaim_log s P T l ++ reclaim_frees s P T a

/-- From `others_done`: the main thread 101 runs `Exit(0)` from the barrier on. -/
def all_reclaimed : Kernel := (Exit_barrier 2 5 others_done 1 101 0).state

/-! ## Sequences of pool operations -/

/-- A call on the pool: `acquire_PCB()` or `release_PCB(PT + p)`. -/
inductive pool_op where
  | acquire
  | release (p : Nat)
  deriving DecidableEq, Repr

/-- One pool call; `release_PCB` is only applied to a slot of the table that
is not FREE. -/
def pool_step (MAX_PROC : Nat) (s : Kernel) : pool_op → Option Kernel
  | pool_op.acquire => some (acquire_PCB s).1
  | pool_op.release p =>
    if p < MAX_PROC ∧ (s.PT p).pstate ≠ pid_state.FREE then some (release_PCB s p) else none

/-- A sequence of pool calls, first call first. -/
def pool_run (MAX_PROC : Nat) : List pool_op → Kernel → Option Kernel
  | [], s => some s
  | op :: ops, s =>
    match pool_step MAX_PROC s op with
    | none => none
    | some s1 => pool_run MAX_PROC ops s1

/-- The free list headed at `head` is exactly the sequence `L`, ending in
`NULL`. -/
def is_chain (s : Kernel) : Option Nat → List Nat → Prop
  | none, [] => True
  | some p, q :: L => p = q ∧ is_chain s (s.PT p).parent L
  | none, _ :: _ => False
  | some _, [] => False

/-- The pool invariant: the free list is a duplicate-free sequence of exactly
the FREE slots of the table, and `process_count` counts the others. -/
def pool_inv (MAX_PROC : Nat) (s : Kernel) : Prop :=
  ∃ L, is_chain s s.pcb_freelist L ∧ L.Nodup ∧
    (∀ p, p ∈ L ↔ p < MAX_PROC ∧ (s.PT p).pstate = pid_state.FREE) ∧
    s.process_count + L.length = MAX_PROC

/-- A pool of four slots after acquiring slots 0 and 1, releasing slot 0 and
acquiring again (which hands slot 0 out once more). -/
def pool_trace : Kernel :=
  (acquire_PCB (release_PCB (acquire_PCB (acquire_PCB (initialize_pool 4 zero_Kernel)).1).1 0)).1

/-! ## Sequences of system calls -/

/-- A step of the process layer, made by a thread of process `cur`: a call of
`Exec`, `WaitChild` or `Exit`, or the continuation of an `Exit` that was
suspended at its barrier. `fuel` bounds the loops of the model of `Exit`. -/
inductive sys_call where
  | exec (cur : Nat) (call : Option Nat) (argl : Int) (args : Option Nat)
      (mainthread ptcb argsptr : Nat)
  | wait (cur : Nat) (cpid : Int) (status : Option Int)
  | exit (cur CURTHREAD : Nat) (exitval : Int) (fuel : Nat)
  | resume (cur CURTHREAD : Nat) (exitval : Int) (fuel : Nat)

/-- The state a call leaves when it returns, suspends the caller or puts it to
its terminal sleep; no state when the C program faults or the bound of the
model is used up. -/
def Outcome.after {α : Type} (o : Outcome α) : Option Kernel :=
  match o with
  | Outcome.ret s _ => some s
  | Outcome.blocked s => some s
  | Outcome.exited s => some s
  | Outcome.fault _ => none
  | Outcome.out_of_fuel => none

/-- One step. The caller is an ALIVE process of the table. A `WaitChild` that
suspends the caller leaves the state as it found it, and so its continuation
is a `wait` step again. -/
def sys_step (MAX_PROC MAX_FILEID : Nat) (s : Kernel) : sys_call → Option Kernel
  | sys_call.exec cur call argl args mainthread ptcb argsptr =>
    if cur < MAX_PROC ∧ (s.PT cur).pstate = pid_state.ALIVE then
      match Exec MAX_FILEID s cur call argl args mainthread ptcb argsptr with
      | Except.ok r => some r.1
      | Except.error _ => none
    else none
  | sys_call.wait cur cpid status =>
    if cur < MAX_PROC ∧ (s.PT cur).pstate = pid_state.ALIVE then
      (WaitChild MAX_PROC s cur cpid status).after
    else none
  | sys_call.exit cur CURTHREAD exitval fuel =>
    if cur < MAX_PROC ∧ (s.PT cur).pstate = pid_state.ALIVE then
      (Exit MAX_PROC MAX_FILEID fuel s cur CURTHREAD exitval).after
    else none
  | sys_call.resume cur CURTHREAD exitval fuel =>
    if cur < MAX_PROC ∧ (s.PT cur).pstate = pid_state.ALIVE then
      (Exit_barrier MAX_FILEID fuel s cur CURTHREAD exitval).after
    else none

/-- A sequence of steps, first step first, each of which leaves the init
process (pid 1) ALIVE. -/
def sys_run (MAX_PROC MAX_FILEID : Nat) : List sys_call → Kernel → Option Kernel
  | [], s => some s
  | c :: cs, s =>
    match sys_step MAX_PROC MAX_FILEID s c with
    | none => none
    | some s1 =>
      if (s1.PT 1).pstate = pid_state.ALIVE then sys_run MAX_PROC MAX_FILEID cs s1 else none

/-- Boot: `initialize_processes`, which creates the idle process (pid 0), then
the `Exec` that creates the init process, which has to get pid 1. -/
def boot (MAX_PROC MAX_FILEID : Nat) (s : Kernel) (CURPROC : Nat) (call : Option Nat)
    (argl : Int) (args : Option Nat) (mainthread ptcb argsptr : Nat) : Option Kernel :=
  match initialize_processes MAX_PROC MAX_FILEID s CURPROC with
  | Except.error _ => none
  | Except.ok s1 =>
    match Exec MAX_FILEID s1 CURPROC call argl args mainthread ptcb argsptr with
    | Except.error _ => none
    | Except.ok r => if r.2 = 1 then some r.1 else none

/-- The hierarchy invariant, together with what keeps it: the init process is
ALIVE, a parent is ALIVE, the children and exited lists of a slot hold exactly
the non-FREE and the ZOMBIE processes whose parent it is, and the free list is
a chain of FREE slots from 2 up. -/
structure hier_inv (MAX_PROC : Nat) (s : Kernel) : Prop where
  two_le : 2 ≤ MAX_PROC
  idle : (s.PT 0).pstate ≠ pid_state.FREE
  init : (s.PT 1).pstate = pid_state.ALIVE
  roots : ∀ q, q ≤ 1 → (s.PT q).parent = none
  parent : ∀ q, q < MAX_PROC → 2 ≤ q → (s.PT q).pstate ≠ pid_state.FREE →
    ∃ p, p < MAX_PROC ∧ (s.PT q).parent = some p ∧ (s.PT p).pstate = pid_state.ALIVE ∧ p ≠ q
  children : ∀ p q, p < MAX_PROC →
    (q ∈ (s.PT p).children_list ↔
      q < MAX_PROC ∧ (s.PT q).pstate ≠ pid_state.FREE ∧ (s.PT q).parent = some p)
  children_nodup : ∀ p, p < MAX_PROC → (s.PT p).children_list.Nodup
  exited : ∀ p q, p < MAX_PROC →
    (q ∈ (s.PT p).exited_list ↔
      q < MAX_PROC ∧ (s.PT q).pstate = pid_state.ZOMBIE ∧ (s.PT q).parent = some p)
  pool : ∃ L, is_chain s s.pcb_freelist L ∧ L.Nodup ∧
    ∀ x, x ∈ L → x < MAX_PROC ∧ 2 ≤ x ∧ (s.PT x).pstate = pid_state.FREE

/-- From `one_child`: pid 2 creates pid 3 and then terminates with `Exit(7)`
from its main thread, which hands pid 3 over to init. -/
def orphan_adopted : Kernel :=
  (Exit 4 2 5 (Exec_state (Exec 2 one_child 2 (some 1) 0 none 103 203 303)) 2 102 7).state

/-- From `one_child`: init creates a second thread, 111 with record 211, so
that two threads of init can wait for pid 2. -/
def two_waiters : Kernel := (CreateThread one_child 1 (some 5) 0 none 111 211).1

/-- From `two_waiters`: pid 2 terminates with `Exit(7)` from its main thread. -/
def child_gone : Kernel := (Exit 4 2 5 two_waiters 2 102 7).state

/-- From `dirty_heap`: init creates pid 2, whose main thread 102 gets the
record at address 202. -/
def dirty_child : Kernel := Exec_state (Exec 2 dirty_heap 1 (some 1) 0 none 102 202 302)

/-- From `dirty_child`: pid 2 creates a second thread, 112 with record 212. -/
def dirty_threads : Kernel := (CreateThread dirty_child 2 (some 5) 0 none 112 212).1

/-- From `dirty_threads`: thread 112 calls `ThreadJoin` on the main thread 102
and blocks. -/
def dirty_joiner : Kernel := (ThreadJoin dirty_threads 2 112 102 (some 0)).state

/-- From `child_gone`: thread 111 of init, woken first, reaps pid 2. -/
def reaped_once : Kernel := (wait_specific_loop child_gone 2 2 (some 0)).state

/-- From `reaped_once`: init creates a process, which gets the pid 2 again
(main thread 103, record 203), and that process terminates with `Exit(42)`. -/
def pid_reused : Kernel :=
  (Exit 4 2 5 (Exec_state (Exec 2 reaped_once 1 (some 1) 0 none 103 203 303)) 2 103 42).state
/-! ## Pool: allocation order -/

@[simp] theorem set_pcb_PT (s : Kernel) (p : Nat) (pcb : PCB) (q : Nat) :
    (set_pcb s p pcb).PT q = if q = p then pcb else s.PT q := rfl

@[simp] theorem set_pcb_pcb_freelist (s : Kernel) (p : Nat) (pcb : PCB) :
    (set_pcb s p pcb).pcb_freelist = s.pcb_freelist := rfl

@[simp] theorem set_pcb_process_count (s : Kernel) (p : Nat) (pcb : PCB) :
    (set_pcb s p pcb).process_count = s.process_count := rfl

@[simp] theorem set_pcb_heap (s : Kernel) (p : Nat) (pcb : PCB) :
    (set_pcb s p pcb).heap = s.heap := rfl

@[simp] theorem set_pcb_refcount (s : Kernel) (p : Nat) (pcb : PCB) :
    (set_pcb s p pcb).refcount = s.refcount := rfl

@[simp] theorem set_pcb_owner_ptcb (s : Kernel) (p : Nat) (pcb : PCB) :
    (set_pcb s p pcb).owner_ptcb = s.owner_ptcb := rfl

@[simp] theorem set_pcb_freed (s : Kernel) (p : Nat) (pcb : PCB) :
    (set_pcb s p pcb).freed = s.freed := rfl

theorem init_PCBs_pstate (n : Nat) (s : Kernel) (p : Nat) (hp : p < n) :
    ((init_PCBs n s).PT p).pstate = pid_state.FREE := by
  unfold init_PCBs
  induction n with
  | zero => omega
  | succ n ih =>
    simp only [List.range_succ, List.foldl_append, List.foldl_cons, List.foldl_nil, set_pcb_PT]
    by_cases h : p = n
    · simp [h, initialize_PCB]
    · simp only [h, if_false]
      exact ih (by omega)

theorem build_freelist_spec (k : Nat) (s : Kernel) :
    (build_freelist k s).pcb_freelist = (if k = 0 then s.pcb_freelist else some 0) ∧
    (∀ p, p < k → ((build_freelist k s).PT p).parent =
      if p + 1 = k then s.pcb_freelist else some (p + 1)) ∧
    (∀ p, ((build_freelist k s).PT p).pstate = (s.PT p).pstate) ∧
    (∀ p, k ≤ p → (build_freelist k s).PT p = s.PT p) := by
  induction k generalizing s with
  | zero => simp [build_freelist]
  | succ k ih =>
    obtain ⟨h1, h2, h3, h4⟩ :=
      ih { set_pcb s k { s.PT k with parent := s.pcb_freelist } with pcb_freelist := some k }
    simp only [build_freelist]
    refine ⟨?_, ?_, ?_, ?_⟩
    · rw [h1]; by_cases hk : k = 0 <;> simp [hk]
    · intro p hp
      by_cases hpk : p = k
      · subst hpk
        rw [h4 p (le_refl p)]
        simp
      · rw [h2 p (by omega)]
        have : p + 1 ≠ k + 1 := by omega
        by_cases hq : p + 1 = k <;> simp [hq, this]
    · intro p
      rw [h3 p]
      by_cases hpk : p = k <;> simp [hpk]
    · intro p hp
      rw [h4 p (by omega)]
      have : p ≠ k := by omega
      simp [this]


theorem initialize_pool_spec (MAX_PROC : Nat) (s0 : Kernel) :
    (initialize_pool MAX_PROC s0).pcb_freelist = (if MAX_PROC = 0 then none else some 0) ∧
    (∀ p, p < MAX_PROC → ((initialize_pool MAX_PROC s0).PT p).parent =
      if p + 1 = MAX_PROC then none else some (p + 1)) ∧
    (∀ p, p < MAX_PROC → ((initialize_pool MAX_PROC s0).PT p).pstate = pid_state.FREE) := by
  obtain ⟨h1, h2, h3, _⟩ :=
    build_freelist_spec MAX_PROC { init_PCBs MAX_PROC s0 with pcb_freelist := none }
  refine ⟨?_, ?_, ?_⟩
  · simpa [initialize_pool] using h1
  · intro p hp
    simpa [initialize_pool] using h2 p hp
  · intro p hp
    have := h3 p
    simp only [initialize_pool]
    rw [this]
    exact init_PCBs_pstate MAX_PROC s0 p hp

theorem acquire_PCB_parent (s : Kernel) (p : Nat) :
    ((acquire_PCB s).1.PT p).parent = (s.PT p).parent := by
  unfold acquire_PCB
  cases h : s.pcb_freelist with
  | none => rfl
  | some q =>
    by_cases hq : p = q <;> simp [hq]

theorem acquire_n_parent (k : Nat) (s : Kernel) (p : Nat) :
    ((acquire_n k s).PT p).parent = (s.PT p).parent := by
  induction k with
  | zero => rfl
  | succ k ih => simp only [acquire_n]; rw [acquire_PCB_parent, ih]

theorem acquire_n_freelist (MAX_PROC : Nat) (s0 : Kernel) (k : Nat) (hk : k ≤ MAX_PROC) :
    (acquire_n k (initialize_pool MAX_PROC s0)).pcb_freelist =
      if k = MAX_PROC then none else some k := by
  obtain ⟨h1, h2, _⟩ := initialize_pool_spec MAX_PROC s0
  induction k with
  | zero =>
    simp only [acquire_n, h1]
    by_cases h : MAX_PROC = 0 <;> simp [h, eq_comm]
  | succ k ih =>
    have ih1 := ih (by omega)
    have hne : k ≠ MAX_PROC := by omega
    simp only [hne, if_false] at ih1
    simp only [acquire_n, acquire_PCB, ih1]
    show ((acquire_n k (initialize_pool MAX_PROC s0)).PT k).parent = _
    rw [acquire_n_parent, h2 k (by omega)]

/-! ## Process creation: what `Exec` changes -/

theorem inherit_FIDT_eq (F cur new : Nat) (s : Kernel) :
    inherit_FIDT F cur new s =
      { s with
        PT := fun q =>
          if q = new then
            { s.PT new with
              FIDT := fun j => if j < F then (s.PT cur).FIDT j else (s.PT new).FIDT j }
          else s.PT q
        refcount := fun g =>
          s.refcount g + (List.range F).countP (fun i => decide ((s.PT cur).FIDT i = some g)) } := by
  induction F with
  | zero =>
    simp only [inherit_FIDT, List.range_zero, List.foldl_nil, List.countP_nil, Nat.add_zero,
      Nat.not_lt_zero, if_false]
    cases s
    congr
    funext q
    by_cases h : q = new <;> simp [h]
  | succ n ih =>
    unfold inherit_FIDT at ih ⊢
    rw [List.range_succ, List.foldl_append, ih]
    simp only [List.foldl_cons, List.foldl_nil, inherit_step, set_pcb, List.countP_append,
      List.countP_cons, List.countP_nil]
    by_cases hc : cur = new
    · subst hc
      simp only [if_true, lt_irrefl, if_false]
      cases hf : (s.PT cur).FIDT n with
      | none =>
        simp only [hf]
        congr
        · funext q
          by_cases hq : q = cur
          · subst hq
            simp only [if_true]
            congr
            funext j
            by_cases hj : j = n
            · subst hj; simp [hf]
            · by_cases hj2 : j < n
              · have : j < n + 1 := by omega
                simp [hj, hj2, this]
              · have : ¬ j < n + 1 := by omega
                simp [hj, hj2, this]
          · simp [hq]
      | some f =>
        simp only [hf, FCB_incref]
        congr
        · funext q
          by_cases hq : q = cur
          · subst hq
            simp only [if_true]
            congr
            funext j
            by_cases hj : j = n
            · subst hj; simp [hf]
            · by_cases hj2 : j < n
              · have : j < n + 1 := by omega
                simp [hj, hj2, this]
              · have : ¬ j < n + 1 := by omega
                simp [hj, hj2, this]
          · simp [hq]
        · funext g
          by_cases hg : g = f
          · subst hg; simp; omega
          · have : f ≠ g := fun h => hg h.symm
            simp [hg, this]
    · simp only [hc, if_false, if_true]
      cases hf : (s.PT cur).FIDT n with
      | none =>
        simp only [hf]
        congr
        · funext q
          by_cases hq : q = new
          · subst hq
            simp only [if_true]
            congr
            funext j
            by_cases hj : j = n
            · subst hj; simp [hf]
            · by_cases hj2 : j < n
              · have : j < n + 1 := by omega
                simp [hj, hj2, this]
              · have : ¬ j < n + 1 := by omega
                simp [hj, hj2, this]
          · simp [hq]
      | some f =>
        simp only [hf, FCB_incref]
        congr
        · funext q
          by_cases hq : q = new
          · subst hq
            simp only [if_true]
            congr
            funext j
            by_cases hj : j = n
            · subst hj; simp [hf]
            · by_cases hj2 : j < n
              · have : j < n + 1 := by omega
                simp [hj, hj2, this]
              · have : ¬ j < n + 1 := by omega
                simp [hj, hj2, this]
          · simp [hq]
        · funext g
          by_cases hg : g = f
          · subst hg; simp; omega
          · have : f ≠ g := fun h => hg h.symm
            simp [hg, this]

/-! ## Process termination: the teardown phases -/

theorem reparent_children_eq (cur i : Nat) (hci : cur ≠ i) (fuel : Nat) (s : Kernel) :
    reparent_children cur (some i) fuel s =
      if (s.PT cur).children_list.length ≤ fuel then Outcome.ret (reparent_state cur i s) ()
      else Outcome.out_of_fuel := by
  have hnil : ∀ t : Kernel, (t.PT cur).children_list = [] → reparent_state cur i t = t := by
    intro t ht
    cases t with
    | mk PT pc fl hp ow rc fr =>
      simp only [reparent_state] at ht ⊢
      congr
      funext q
      simp only [ht, List.not_mem_nil, if_false, List.reverse_nil, List.nil_append]
      by_cases hq : q = cur
      · subst hq
        simp only [if_true]
        rw [← ht]
      · simp [hq]
  induction fuel generalizing s with
  | zero =>
    cases hL : (s.PT cur).children_list with
    | nil => simp [reparent_children, is_rlist_empty, hL, hnil s hL]
    | cons c rest => simp [reparent_children, is_rlist_empty, hL]
  | succ fuel ih =>
    cases hL : (s.PT cur).children_list with
    | nil => simp [reparent_children, hL, hnil s hL]
    | cons c rest =>
      simp only [reparent_children, hL]
      rw [ih]
      have hlen : (((set_pcb (set_pcb (set_pcb s cur { s.PT cur with children_list := rest }) c
          { (set_pcb s cur { s.PT cur with children_list := rest }).PT c with parent := some i }) i
          { (set_pcb (set_pcb s cur { s.PT cur with children_list := rest }) c
            { (set_pcb s cur { s.PT cur with children_list := rest }).PT c with
              parent := some i }).PT i with
            children_list := rlist_push_front
              ((set_pcb (set_pcb s cur { s.PT cur with children_list := rest }) c
                { (set_pcb s cur { s.PT cur with children_list := rest }).PT c with
                  parent := some i }).PT i).children_list c }).PT cur).children_list) = rest := by
        simp only [set_pcb_PT, hci, if_false]
        by_cases hc : cur = c <;> simp [hc]
      rw [hlen]
      simp only [List.length_cons, Nat.add_le_add_iff_right]
      by_cases hle : rest.length ≤ fuel
      · simp only [hle, if_true]
        congr 1
        simp only [reparent_state, hlen, hL]
        cases s with
        | mk PT pc fl hp ow rc fr =>
          simp only [set_pcb]
          congr
          funext q
          by_cases hq : q = cur
          · subst hq
            by_cases hc : q = c
            · subst hc; simp [hci, rlist_push_front]
            · by_cases hr : q ∈ rest <;> simp [hci, hc, hr, rlist_push_front]
          · by_cases hqi : q = i
            · subst hqi
              by_cases hc : q = c
              · subst hc; simp [hq, rlist_push_front]
              · by_cases hr : q ∈ rest <;> simp [hq, hc, hr, rlist_push_front, Ne.symm hci]
            · by_cases hc : q = c
              · subst hc; simp [hq, hqi, rlist_push_front]
              · by_cases hr : q ∈ rest <;> simp [hq, hqi, hc, hr, rlist_push_front]
      · simp [hle]

theorem same_links_refl (s : Kernel) : same_links s s :=
  ⟨rfl, rfl, fun _ => ⟨rfl, rfl, rfl, rfl, rfl, rfl⟩⟩

theorem same_links_trans {s t u : Kernel} (h1 : same_links s t) (h2 : same_links t u) :
    same_links s u := by
  obtain ⟨a1, b1, c1⟩ := h1
  obtain ⟨a2, b2, c2⟩ := h2
  refine ⟨a2.trans a1, b2.trans b1, fun q => ?_⟩
  obtain ⟨p1, p2, p3, p4, p5, p6⟩ := c1 q
  obtain ⟨q1, q2, q3, q4, q5, q6⟩ := c2 q
  exact ⟨q1.trans p1, q2.trans p2, q3.trans p3, q4.trans p4, q5.trans p5, q6.trans p6⟩

theorem reclaim_step_links (c t : Nat) (s : Kernel) (a : Nat) :
    same_links s (reclaim_step c t s a) := by
  unfold reclaim_step
  split
  · split
    · cases h : (s.heap a).args <;>
        exact ⟨rfl, rfl, fun _ => ⟨rfl, rfl, rfl, rfl, rfl, rfl⟩⟩
    · exact ⟨rfl, rfl, fun _ => ⟨rfl, rfl, rfl, rfl, rfl, rfl⟩⟩
  · exact same_links_refl s

theorem reclaim_threads_links (c t : Nat) (s : Kernel) :
    same_links s (reclaim_threads c t s) := by
  unfold reclaim_threads
  generalize (s.PT c).threads_list = l
  induction l generalizing s with
  | nil => exact same_links_refl s
  | cons a l ih =>
    simp only [List.foldl_cons]
    exact same_links_trans (reclaim_step_links c t s a) (ih _)

theorem free_own_args_links (s : Kernel) (c t : Nat) : same_links s (free_own_args s c t) := by
  unfold free_own_args
  split
  · cases h : (s.heap (s.owner_ptcb t)).args <;>
      exact ⟨rfl, rfl, fun _ => ⟨rfl, rfl, rfl, rfl, rfl, rfl⟩⟩
  · exact same_links_refl s

theorem close_step_links (c : Nat) (s : Kernel) (i : Nat) : same_links s (close_step c s i) := by
  unfold close_step
  cases h : (s.PT c).FIDT i with
  | none => exact same_links_refl s
  | some f =>
    refine ⟨rfl, rfl, fun q => ?_⟩
    by_cases hq : q = c <;> simp [hq, FCB_decref]

theorem close_FIDT_links (F c : Nat) (s : Kernel) : same_links s (close_FIDT F c s) := by
  unfold close_FIDT
  generalize List.range F = l
  induction l generalizing s with
  | nil => exact same_links_refl s
  | cons a l ih =>
    simp only [List.foldl_cons]
    exact same_links_trans (close_step_links c s a) (ih _)

theorem reparent_state_nil (cur i : Nat) (t : Kernel) (ht : (t.PT cur).children_list = []) :
    reparent_state cur i t = t := by
  cases t with
  | mk PT pc fl hp ow rc fr =>
    simp only [reparent_state] at ht ⊢
    congr
    funext q
    simp only [ht, List.not_mem_nil, if_false, List.reverse_nil, List.nil_append]
    by_cases hq : q = cur
    · subst hq
      simp only [if_true]
      rw [← ht]
    · simp [hq]

theorem reparent_children_ret (X : Nat) (hX : X ≠ 1) (fuel : Nat) (s3 s4 : Kernel) (u : Unit)
    (h : reparent_children X (get_pcb s3 1) fuel s3 = Outcome.ret s4 u) :
    s4 = reparent_state X 1 s3 := by
  unfold get_pcb at h
  split at h
  · cases hL : (s3.PT X).children_list with
    | nil =>
      rw [reparent_state_nil X 1 s3 hL]
      cases fuel <;> simp [reparent_children, is_rlist_empty, hL] at h <;> exact h.symm
    | cons c rest =>
      cases fuel <;> simp [reparent_children, is_rlist_empty, hL] at h
  · rw [reparent_children_eq X 1 hX] at h
    split at h
    · simp only [Outcome.ret.injEq] at h
      exact h.1.symm
    · simp at h

theorem splice_exited_ret (X : Nat) (s3 s4 s5 : Kernel) (u : Unit)
    (h : splice_exited X (get_pcb s3 1) s4 = Outcome.ret s5 u) :
    s5 = splice_state X 1 s4 := by
  unfold splice_exited at h
  unfold splice_state
  split at h
  · rename_i he
    simp only [he, if_true]
    simp only [Outcome.ret.injEq] at h
    exact h.1.symm
  · rename_i he
    simp only [he]
    by_cases hf : (s3.PT 1).pstate = pid_state.FREE
    · simp [get_pcb, hf] at h
    · simp only [get_pcb, hf, if_false, Outcome.ret.injEq] at h
      exact h.1.symm

theorem Exit_teardown_exited (F fuel : Nat) (s s1 : Kernel) (X T : Nat) (v : Int)
    (hX : X ≠ 1) (h : Exit_teardown F fuel s X T v = Outcome.exited s1) :
    s1 = Exit_finish (notify_parent X (splice_state X 1 (reparent_state X 1
      (close_FIDT F X (free_own_args (reclaim_threads X T s) X T))))) X T v := by
  unfold Exit_teardown at h
  simp only at h
  split at h
  · rename_i s4 u h4
    have e4 := reparent_children_ret X hX fuel _ s4 u h4
    split at h
    · rename_i s5 u5 h5
      have e5 := splice_exited_ret X _ s4 s5 u5 h5
      simp only [Outcome.exited.injEq] at h
      rw [← h, e5, e4]
    · rename_i s5 h5
      unfold splice_exited at h5
      split at h5
      · simp at h5
      · split at h5 <;> simp at h5
    · rename_i s5 h5
      unfold splice_exited at h5
      split at h5
      · simp at h5
      · split at h5 <;> simp at h5
    · simp at h
    · simp at h
  · rename_i s4 h4
    exfalso
    unfold get_pcb at h4
    split at h4
    · cases hL : (close_FIDT F X (free_own_args (reclaim_threads X T s) X T) |>.PT X).children_list <;>
        cases fuel <;> simp [reparent_children, is_rlist_empty, hL] at h4
    · rw [reparent_children_eq X 1 hX] at h4
      split at h4 <;> simp at h4
  · rename_i s4 h4
    exfalso
    unfold get_pcb at h4
    split at h4
    · cases hL : (close_FIDT F X (free_own_args (reclaim_threads X T s) X T) |>.PT X).children_list <;>
        cases fuel <;> simp [reparent_children, is_rlist_empty, hL] at h4
    · rw [reparent_children_eq X 1 hX] at h4
      split at h4 <;> simp at h4
  · simp at h
  · simp at h

theorem splice_state_fields (X : Nat) (hX : X ≠ 1) (s : Kernel) (q : Nat) :
    ((splice_state X 1 s).PT q).parent = (s.PT q).parent ∧
    ((splice_state X 1 s).PT q).children_list = (s.PT q).children_list ∧
    ((splice_state X 1 s).PT q).exited_list =
      (if q = X then [] else if q = 1 then (s.PT 1).exited_list ++ (s.PT X).exited_list
        else (s.PT q).exited_list) ∧
    ((splice_state X 1 s).PT q).pstate = (s.PT q).pstate ∧
    ((splice_state X 1 s).PT q).exitval = (s.PT q).exitval ∧
    (splice_state X 1 s).pcb_freelist = s.pcb_freelist ∧
    (splice_state X 1 s).process_count = s.process_count := by
  unfold splice_state
  cases hE : (s.PT X).exited_list with
  | nil =>
    simp only [is_rlist_empty, List.isEmpty_nil, if_true, List.append_nil]
    by_cases hq : q = X
    · subst hq; simp [hE]
    · by_cases hq1 : q = 1
      · subst hq1; simp [hq]
      · simp [hq, hq1]
  | cons e rest =>
    simp only [is_rlist_empty, List.isEmpty_cons, Bool.false_eq_true, if_false]
    by_cases hq : q = X
    · subst hq; simp [hX]
    · by_cases hq1 : q = 1
      · subst hq1; simp [hq]
      · simp [hq, hq1]

theorem reparent_state_fields (X : Nat) (hX : X ≠ 1) (s : Kernel) (q : Nat) :
    ((reparent_state X 1 s).PT q).parent =
      (if q ∈ (s.PT X).children_list then some 1 else (s.PT q).parent) ∧
    ((reparent_state X 1 s).PT q).children_list =
      (if q = X then [] else if q = 1 then (s.PT X).children_list.reverse ++ (s.PT 1).children_list
        else (s.PT q).children_list) ∧
    ((reparent_state X 1 s).PT q).exited_list = (s.PT q).exited_list ∧
    ((reparent_state X 1 s).PT q).pstate = (s.PT q).pstate ∧
    ((reparent_state X 1 s).PT q).exitval = (s.PT q).exitval ∧
    (reparent_state X 1 s).pcb_freelist = s.pcb_freelist ∧
    (reparent_state X 1 s).process_count = s.process_count := by
  unfold reparent_state
  by_cases hq : q = X
  · subst hq
    by_cases hm : q ∈ (s.PT q).children_list <;> simp [hm]
  · by_cases hq1 : q = 1
    · subst hq1
      by_cases hm : 1 ∈ (s.PT X).children_list <;> simp [hq, hm]
    · by_cases hm : q ∈ (s.PT X).children_list <;> simp [hq, hq1, hm]

theorem notify_parent_fields (X : Nat) (s : Kernel) (q : Nat) :
    ((notify_parent X s).PT q).parent = (s.PT q).parent ∧
    ((notify_parent X s).PT q).children_list = (s.PT q).children_list ∧
    ((notify_parent X s).PT q).exited_list =
      (if (s.PT X).parent = some q then X :: (s.PT q).exited_list else (s.PT q).exited_list) ∧
    ((notify_parent X s).PT q).pstate = (s.PT q).pstate ∧
    ((notify_parent X s).PT q).exitval = (s.PT q).exitval ∧
    (notify_parent X s).pcb_freelist = s.pcb_freelist ∧
    (notify_parent X s).process_count = s.process_count := by
  unfold notify_parent
  cases hp : (s.PT X).parent with
  | none => simp
  | some par =>
    by_cases hq : q = par
    · subst hq; simp [rlist_push_front]
    · have : par ≠ q := fun h => hq h.symm
      simp [hq, this]

theorem Exit_finish_fields (X T : Nat) (v : Int) (s : Kernel) (q : Nat) :
    ((Exit_finish s X T v).PT q).parent = (s.PT q).parent ∧
    ((Exit_finish s X T v).PT q).children_list = (s.PT q).children_list ∧
    ((Exit_finish s X T v).PT q).exited_list = (s.PT q).exited_list ∧
    ((Exit_finish s X T v).PT q).pstate =
      (if q = X then pid_state.ZOMBIE else (s.PT q).pstate) ∧
    ((Exit_finish s X T v).PT q).exitval = (if q = X then v else (s.PT q).exitval) ∧
    (Exit_finish s X T v).pcb_freelist = s.pcb_freelist ∧
    (Exit_finish s X T v).process_count = s.process_count := by
  unfold Exit_finish
  by_cases hq : q = X <;> simp [hq, free, remove_ptcb_node]

/-- The hierarchy fields after a completed teardown of `X` (other than init),
in terms of the state `s` the teardown started from. -/
theorem Exit_teardown_fields (F fuel : Nat) (s s1 : Kernel) (X T : Nat) (v : Int)
    (hX : X ≠ 1) (h : Exit_teardown F fuel s X T v = Outcome.exited s1) (q : Nat) :
    (s1.PT q).parent =
      (if q ∈ (s.PT X).children_list then some 1 else (s.PT q).parent) ∧
    (s1.PT q).children_list =
      (if q = X then [] else if q = 1 then (s.PT X).children_list.reverse ++ (s.PT 1).children_list
        else (s.PT q).children_list) ∧
    (s1.PT q).exited_list =
      (if (if X ∈ (s.PT X).children_list then some 1 else (s.PT X).parent) = some q then
        X :: (if q = X then [] else if q = 1 then (s.PT 1).exited_list ++ (s.PT X).exited_list
          else (s.PT q).exited_list)
       else (if q = X then [] else if q = 1 then (s.PT 1).exited_list ++ (s.PT X).exited_list
          else (s.PT q).exited_list)) ∧
    (s1.PT q).pstate = (if q = X then pid_state.ZOMBIE else (s.PT q).pstate) ∧
    (s1.PT q).exitval = (if q = X then v else (s.PT q).exitval) ∧
    s1.pcb_freelist = s.pcb_freelist ∧
    s1.process_count = s.process_count := by
  have e := Exit_teardown_exited F fuel s s1 X T v hX h
  have hl : same_links s (close_FIDT F X (free_own_args (reclaim_threads X T s) X T)) :=
    same_links_trans (same_links_trans (reclaim_threads_links X T s)
      (free_own_args_links _ X T)) (close_FIDT_links F X _)
  generalize close_FIDT F X (free_own_args (reclaim_threads X T s) X T) = pre at e hl
  obtain ⟨hfl, hpc, hq⟩ := hl
  subst e
  have f4 := Exit_finish_fields X T v (notify_parent X (splice_state X 1 (reparent_state X 1 pre)))
  have f3 := notify_parent_fields X (splice_state X 1 (reparent_state X 1 pre))
  have f2 := splice_state_fields X hX (reparent_state X 1 pre)
  have f1 := reparent_state_fields X hX pre
  refine ⟨?_, ?_, ?_, ?_, ?_, ?_, ?_⟩
  · rw [(f4 q).1, (f3 q).1, (f2 q).1, (f1 q).1, (hq q).1, (hq X).2.1]
  · rw [(f4 q).2.1, (f3 q).2.1, (f2 q).2.1, (f1 q).2.1, (hq q).2.1, (hq X).2.1, (hq 1).2.1]
  · rw [(f4 q).2.2.1, (f3 q).2.2.1, (f2 q).2.2.1, (f2 X).1, (f1 X).1, (f1 q).2.2.1,
      (f1 1).2.2.1, (f1 X).2.2.1, (hq q).2.2.1, (hq X).2.1, (hq X).1, (hq 1).2.2.1,
      (hq X).2.2.1]
  · rw [(f4 q).2.2.2.1, (f3 q).2.2.2.1, (f2 q).2.2.2.1, (f1 q).2.2.2.1, (hq q).2.2.2.1]
  · rw [(f4 q).2.2.2.2.1, (f3 q).2.2.2.2.1, (f2 q).2.2.2.2.1, (f1 q).2.2.2.2.1,
      (hq q).2.2.2.2.1]
  · rw [(f4 q).2.2.2.2.2.1, (f3 q).2.2.2.2.2.1, (f2 q).2.2.2.2.2.1, (f1 q).2.2.2.2.2.1, hfl]
  · rw [(f4 q).2.2.2.2.2.2, (f3 q).2.2.2.2.2.2, (f2 q).2.2.2.2.2.2, (f1 q).2.2.2.2.2.2, hpc]

theorem Exit_publish_PT (s : Kernel) (T : Nat) (v : Int) :
    (Exit_publish s T v).PT = s.PT ∧ (Exit_publish s T v).pcb_freelist = s.pcb_freelist ∧
    (Exit_publish s T v).process_count = s.process_count ∧
    (Exit_publish s T v).refcount = s.refcount := by
  unfold Exit_publish
  split <;> exact ⟨rfl, rfl, rfl, rfl⟩

/-- A process-level `Exit` that ends in the terminal sleep did so through the
teardown, started from a state that agrees with the caller's on the pool and
the hierarchy. -/
theorem Exit_exited_teardown (M F fuel : Nat) (s s1 : Kernel) (X T : Nat) (v : Int)
    (hX : X ≠ 1) (hflag : (s.PT X).exitflag ≠ 1)
    (h : Exit M F fuel s X T v = Outcome.exited s1) :
    ∃ fuel1 s0, Exit_teardown F fuel1 s0 X T v = Outcome.exited s1 ∧
      s0.pcb_freelist = s.pcb_freelist ∧ s0.process_count = s.process_count ∧
      ∀ q, (s0.PT q).parent = (s.PT q).parent ∧
        (s0.PT q).children_list = (s.PT q).children_list ∧
        (s0.PT q).exited_list = (s.PT q).exited_list ∧
        (s0.PT q).pstate = (s.PT q).pstate ∧
        (s0.PT q).exitval = (s.PT q).exitval := by
  cases fuel with
  | zero => simp [Exit] at h
  | succ fuel =>
    have hpid : GetPid X ≠ 1 := by
      simp only [GetPid, get_pid]
      intro hc
      exact hX (by exact_mod_cast hc)
    simp only [Exit, hflag, if_false, Exit_body, hpid, Exit_barrier] at h
    split at h
    · obtain ⟨e1, e2, e3, _⟩ :=
        Exit_publish_PT (set_pcb s X { s.PT X with exitflag := 1 }) T v
      refine ⟨fuel, _, h, ?_, ?_, ?_⟩
      · rw [e2]; rfl
      · rw [e3]; rfl
      · intro q
        rw [e1]
        by_cases hq : q = X <;> simp [hq]
    · simp at h

/-- The hierarchy fields after a completed process-level `Exit` of `X` (other
than init), in terms of the state `s` it was called in. -/
theorem Exit_fields (M F fuel : Nat) (s s1 : Kernel) (X T : Nat) (v : Int)
    (hX : X ≠ 1) (hflag : (s.PT X).exitflag ≠ 1)
    (h : Exit M F fuel s X T v = Outcome.exited s1) (q : Nat) :
    (s1.PT q).parent =
      (if q ∈ (s.PT X).children_list then some 1 else (s.PT q).parent) ∧
    (s1.PT q).children_list =
      (if q = X then [] else if q = 1 then (s.PT X).children_list.reverse ++ (s.PT 1).children_list
        else (s.PT q).children_list) ∧
    (s1.PT q).exited_list =
      (if (if X ∈ (s.PT X).children_list then some 1 else (s.PT X).parent) = some q then
        X :: (if q = X then [] else if q = 1 then (s.PT 1).exited_list ++ (s.PT X).exited_list
          else (s.PT q).exited_list)
       else (if q = X then [] else if q = 1 then (s.PT 1).exited_list ++ (s.PT X).exited_list
          else (s.PT q).exited_list)) ∧
    (s1.PT q).pstate = (if q = X then pid_state.ZOMBIE else (s.PT q).pstate) ∧
    (s1.PT q).exitval = (if q = X then v else (s.PT q).exitval) ∧
    s1.pcb_freelist = s.pcb_freelist ∧
    s1.process_count = s.process_count := by
  obtain ⟨fuel1, s0, ht, hfl, hpc, hq⟩ := Exit_exited_teardown M F fuel s s1 X T v hX hflag h
  have f := Exit_teardown_fields F fuel1 s0 s1 X T v hX ht q
  rw [(hq q).1, (hq X).1, (hq X).2.1, (hq 1).2.1, (hq q).2.1, (hq q).2.2.1, (hq 1).2.2.1,
    (hq X).2.2.1, (hq q).2.2.2.1, (hq q).2.2.2.2, hfl, hpc] at f
  exact f

/-! ## Waiting for a specific child -/

theorem cleanup_zombie_fields (s : Kernel) (X : Nat) (st : Option Int) (q : Nat) :
    ((cleanup_zombie s X st).1.PT q).pstate =
      (if q = X then pid_state.FREE else (s.PT q).pstate) ∧
    ((cleanup_zombie s X st).1.PT q).parent =
      (if q = X then s.pcb_freelist else (s.PT q).parent) ∧
    ((cleanup_zombie s X st).1.PT q).children_list = rlist_remove (s.PT q).children_list X ∧
    ((cleanup_zombie s X st).1.PT q).exited_list = rlist_remove (s.PT q).exited_list X ∧
    ((cleanup_zombie s X st).1.PT q).exitval = (s.PT q).exitval ∧
    (cleanup_zombie s X st).1.pcb_freelist = some X ∧
    (cleanup_zombie s X st).2 = st.map (fun _ => (s.PT X).exitval) := by
  unfold cleanup_zombie release_PCB remove_exited_node remove_children_node
  by_cases hq : q = X <;> simp [hq]

theorem not_mem_rlist_remove (l : List Nat) (n : Nat) : n ∉ rlist_remove l n := by
  simp [rlist_remove]

theorem WaitChild_specific_zombie (M : Nat) (t : Kernel) (P X : Nat) (st : Option Int)
    (hXM : X < M) (hz : (t.PT X).pstate = pid_state.ZOMBIE) (hp : (t.PT X).parent = some P) :
    WaitChild M t P X st =
      Outcome.ret (cleanup_zombie t X st).1 ((X : Int), st.map (fun _ => (t.PT X).exitval)) := by
  have h1 : (X : Int) ≠ NOPROC := by simp only [NOPROC]; omega
  have h2 : ¬ ((X : Int) < 0 ∨ (X : Int) ≥ (M : Int)) := by omega
  simp only [WaitChild, h1, ne_eq, not_false_eq_true, if_true, wait_for_specific_child, h2,
    if_false, Int.toNat_ofNat, get_pcb, hz, not_true_eq_false, wait_specific_loop]
  simp [(cleanup_zombie_fields t X st X).2.2.2.2.2.2, hp, hz]

theorem WaitChild_specific_free (M : Nat) (t : Kernel) (P X : Nat) (st : Option Int)
    (hz : (t.PT X).pstate = pid_state.FREE) :
    WaitChild M t P X st = Outcome.ret t (NOPROC, st) := by
  have h1 : (X : Int) ≠ NOPROC := by simp only [NOPROC]; omega
  simp only [WaitChild, h1, ne_eq, not_false_eq_true, if_true, wait_for_specific_child]
  split
  · rfl
  · simp [get_pcb, hz]

/-- The wait that is issued after the exit: when child `X` of `P` has
terminated with `Exit(v)`, then in every state in which `X` is still as that
`Exit` left it, `WaitChild(X, &status)` by `P` returns `X` with status `v`;
afterwards the slot of `X` is FREE, `get_pcb`
gives `NULL` for it, `X` is in neither the children nor the exited list of `P`,
and a second `WaitChild(X, ..)` by `P` returns `NOPROC`. -/
theorem WaitChild_reaps_exited_child (M F fuel : Nat) (s s1 : Kernel) (P X T : Nat) (v : Int)
    (hXM : X < M) (hX : X ≠ 1) (hflag : (s.PT X).exitflag ≠ 1)
    (hpar : (s.PT X).parent = some P) (hself : X ∉ (s.PT X).children_list)
    (hExit : Exit M F fuel s X T v = Outcome.exited s1)
    (t : Kernel) (status : Int)
    (h1 : (t.PT X).pstate = (s1.PT X).pstate) (h2 : (t.PT X).exitval = (s1.PT X).exitval)
    (h3 : (t.PT X).parent = (s1.PT X).parent) :
    ∃ t1, WaitChild M t P X (some status) = Outcome.ret t1 ((X : Int), some v) ∧
      (t1.PT X).pstate = pid_state.FREE ∧ get_pcb t1 X = none ∧
      X ∉ (t1.PT P).children_list ∧ X ∉ (t1.PT P).exited_list ∧
      ∀ st2, WaitChild M t1 P X st2 = Outcome.ret t1 (NOPROC, st2) := by
  have f := Exit_fields M F fuel s s1 X T v hX hflag hExit X
  have hz : (t.PT X).pstate = pid_state.ZOMBIE := by rw [h1, f.2.2.2.1]; simp
  have hv : (t.PT X).exitval = v := by rw [h2, f.2.2.2.2.1]; simp
  have hp : (t.PT X).parent = some P := by rw [h3, f.1]; simp [hself, hpar]
  have c := cleanup_zombie_fields t X (some status)
  have hfree : ((cleanup_zombie t X (some status)).1.PT X).pstate = pid_state.FREE := by
    rw [(c X).1]; simp
  refine ⟨(cleanup_zombie t X (some status)).1, ?_, hfree, ?_, ?_, ?_, ?_⟩
  · rw [WaitChild_specific_zombie M t P X (some status) hXM hz hp, hv]; rfl
  · simp [get_pcb, hfree]
  · rw [(c P).2.2.1]; exact not_mem_rlist_remove _ _
  · rw [(c P).2.2.2.1]; exact not_mem_rlist_remove _ _
  · intro st2
    exact WaitChild_specific_free M _ P X st2 hfree

theorem WaitChild_reaps_exited_child_witness :
    (2 < 4 ∧ 2 ≠ 1 ∧ (one_child.PT 2).exitflag ≠ 1 ∧ (one_child.PT 2).parent = some 1 ∧
      2 ∉ (one_child.PT 2).children_list ∧
      Exit 4 2 5 one_child 2 102 7 = Outcome.exited one_child_exited) ∧
    ∃ t1, WaitChild 4 one_child_exited 1 ((2 : Nat) : Int) (some 0) =
        Outcome.ret t1 (((2 : Nat) : Int), some 7) ∧
      (t1.PT 2).pstate = pid_state.FREE ∧ get_pcb t1 2 = none ∧
      2 ∉ (t1.PT 1).children_list ∧ 2 ∉ (t1.PT 1).exited_list ∧
      ∀ st2, WaitChild 4 t1 1 ((2 : Nat) : Int) st2 = Outcome.ret t1 (NOPROC, st2) :=
  ⟨⟨by decide, by decide, by decide, by decide, by decide, rfl⟩,
    WaitChild_reaps_exited_child 4 2 5 one_child one_child_exited 1 2 102 7 (by decide)
      (by decide) (by decide) (by decide) (by decide) rfl one_child_exited 0 rfl rfl rfl⟩

/-- C3 (the code departs from the claim): a waiter suspended in
`wait_for_specific_child` continues at the `while` loop and does not repeat
the legality checks. When two threads of `P` wait for the child `X`, both
suspend; after `Exit(v)` of `X` the first to run returns `X` with status `v`
and frees the slot, so that a `WaitChild(X, ..)` made now returns `NOPROC`;
but the second waiter returns `X` with status `v` once more and releases the
slot a second time, which leaves the slot linked to itself on the free list
and `process_count` decremented twice. -/
theorem wait_specific_reaps_twice (M F fuel : Nat) (s0 s : Kernel) (P X T : Nat) (v a b : Int)
    (hXM : X < M) (hX : X ≠ 1) (hflag : (s0.PT X).exitflag ≠ 1)
    (hal : (s0.PT X).pstate = pid_state.ALIVE) (hpar : (s0.PT X).parent = some P)
    (hExit : Exit M F fuel s0 X T v = Outcome.exited s) :
    (∀ st, WaitChild M s0 P X st = Outcome.blocked s0) ∧
    ∃ t1 t2, wait_specific_loop s X X (some a) = Outcome.ret t1 ((X : Int), some v) ∧
      (t1.PT X).pstate = pid_state.FREE ∧
      (∀ st, WaitChild M t1 P X st = Outcome.ret t1 (NOPROC, st)) ∧
      wait_specific_loop t1 X X (some b) = Outcome.ret t2 ((X : Int), some v) ∧
      t2.pcb_freelist = some X ∧ (t2.PT X).parent = some X ∧
      t1.process_count = (s.process_count + UINT_MOD - 1) % UINT_MOD ∧
      t2.process_count = (t1.process_count + UINT_MOD - 1) % UINT_MOD := by
  have f := Exit_fields M F fuel s0 s X T v hX hflag hExit X
  have hz : (s.PT X).pstate = pid_state.ZOMBIE := by rw [f.2.2.2.1]; simp
  have hv : (s.PT X).exitval = v := by rw [f.2.2.2.2.1]; simp
  have c1 := cleanup_zombie_fields s X (some a)
  have hfree : ((cleanup_zombie s X (some a)).1.PT X).pstate = pid_state.FREE := by
    rw [(c1 X).1]; simp
  have hv1 : ((cleanup_zombie s X (some a)).1.PT X).exitval = v := by
    rw [(c1 X).2.2.2.2.1]; exact hv
  have hfl1 : (cleanup_zombie s X (some a)).1.pcb_freelist = some X := (c1 X).2.2.2.2.2.1
  have c2 := cleanup_zombie_fields (cleanup_zombie s X (some a)).1 X (some b)
  refine ⟨?_, (cleanup_zombie s X (some a)).1,
    (cleanup_zombie (cleanup_zombie s X (some a)).1 X (some b)).1, ?_, hfree, ?_, ?_, ?_, ?_,
    rfl, rfl⟩
  · intro st
    have h1 : (X : Int) ≠ NOPROC := by simp only [NOPROC]; omega
    simp [WaitChild, h1, wait_for_specific_child, hXM, get_pcb, hal, hpar, wait_specific_loop]
  · have hna : ¬ (s.PT X).pstate = pid_state.ALIVE := by rw [hz]; intro e; cases e
    simp only [wait_specific_loop, hna, if_false]
    rw [(c1 X).2.2.2.2.2.2, hv]
    rfl
  · intro st
    exact WaitChild_specific_free M _ P X st hfree
  · have hna : ¬ ((cleanup_zombie s X (some a)).1.PT X).pstate = pid_state.ALIVE := by
      rw [hfree]; intro e; cases e
    simp only [wait_specific_loop, hna, if_false]
    rw [(c2 X).2.2.2.2.2.2, hv1]
    rfl
  · exact (c2 X).2.2.2.2.2.1
  · rw [(c2 X).2.1, if_pos rfl, hfl1]

theorem wait_specific_reaps_twice_witness :
    (2 < 4 ∧ 2 ≠ 1 ∧ (two_waiters.PT 2).exitflag ≠ 1 ∧
      (two_waiters.PT 2).pstate = pid_state.ALIVE ∧ (two_waiters.PT 2).parent = some 1 ∧
      Exit 4 2 5 two_waiters 2 102 7 = Outcome.exited child_gone ∧
      (two_waiters.PT 1).threads_list = [201, 211]) ∧
    (∀ st, WaitChild 4 two_waiters 1 ((2 : Nat) : Int) st = Outcome.blocked two_waiters) ∧
    ∃ t1 t2, wait_specific_loop child_gone 2 ((2 : Nat) : Int) (some 0) =
        Outcome.ret t1 (((2 : Nat) : Int), some 7) ∧
      (t1.PT 2).pstate = pid_state.FREE ∧
      (∀ st, WaitChild 4 t1 1 ((2 : Nat) : Int) st = Outcome.ret t1 (NOPROC, st)) ∧
      wait_specific_loop t1 2 ((2 : Nat) : Int) (some 0) =
        Outcome.ret t2 (((2 : Nat) : Int), some 7) ∧
      t2.pcb_freelist = some 2 ∧ (t2.PT 2).parent = some 2 ∧
      t1.process_count = (child_gone.process_count + UINT_MOD - 1) % UINT_MOD ∧
      t2.process_count = (t1.process_count + UINT_MOD - 1) % UINT_MOD :=
  ⟨⟨by decide, by decide, by decide, by decide, by decide, rfl, by decide⟩,
    wait_specific_reaps_twice 4 2 5 two_waiters child_gone 1 2 102 7 0 0 (by decide) (by decide)
      (by decide) (by decide) (by decide) rfl⟩


/-- The same race with the pid reused: thread 111 reaps pid 2 (exit value 7),
init creates a process that gets pid 2 again and terminates with `Exit(42)`,
and then the waiter 101, suspended since before the first exit, returns 2 with
status 42. -/
theorem wait_specific_reused_pid :
    wait_specific_loop child_gone 2 2 (some 0) = Outcome.ret reaped_once (2, some 7) ∧
    (Exec 2 reaped_once 1 (some 1) 0 none 103 203 303).toOption.map Prod.snd = some 2 ∧
    (pid_reused.PT 2).pstate = pid_state.ZOMBIE ∧
    (wait_specific_loop pid_reused 2 2 (some 0)).value = some (2, some 42) :=
  ⟨rfl, by decide, by decide, by decide⟩

/-! ## Process creation: results of `Exec` -/

theorem Exec_of_empty_freelist (F : Nat) (s : Kernel) (cur : Nat) (call : Option Nat)
    (argl : Int) (args : Option Nat) (mt pt ap : Nat) (h : s.pcb_freelist = none) :
    Exec F s cur call argl args mt pt ap = Except.error Fault.null_deref := by
  simp [Exec, acquire_PCB, h]

theorem Exec_main_thread_ok (s : Kernel) (n : Nat) (call : Option Nat) (argl : Int)
    (args : Option Nat) (mt pt ap : Nat) (hok : call = none ∨ args = none ∨ 0 ≤ argl) :
    Exec_main_thread s n call argl args mt pt ap =
      Except.ok (Exec_spawn s n call argl args mt pt ap) := by
  unfold Exec_main_thread
  have hc : ¬ (call.isSome ∧ args.isSome ∧ argl < 0) := by
    rintro ⟨h1, h2, h3⟩
    rcases hok with h | h | h
    · rw [h] at h1; cases h1
    · rw [h] at h2; cases h2
    · omega
  rw [if_neg hc]

theorem Exec_main_thread_fault (s : Kernel) (n : Nat) (call : Option Nat) (argl : Int)
    (args : Option Nat) (mt pt ap : Nat) (hno : ¬ (call = none ∨ args = none ∨ 0 ≤ argl)) :
    Exec_main_thread s n call argl args mt pt ap = Except.error Fault.null_deref := by
  unfold Exec_main_thread
  have hc : call.isSome ∧ args.isSome ∧ argl < 0 := by
    refine ⟨?_, ?_, ?_⟩
    · cases call with
      | none => exact absurd (Or.inl rfl) hno
      | some _ => rfl
    · cases args with
      | none => exact absurd (Or.inr (Or.inl rfl)) hno
      | some _ => rfl
    · by_contra hlt
      exact hno (Or.inr (Or.inr (by omega)))
  rw [if_pos hc]

/-- With a slot to hand out and its argument buffer allocated, `Exec` returns
the pid of the slot at the head of the free list. -/
theorem Exec_eq (F : Nat) (s : Kernel) (cur : Nat) (call : Option Nat) (argl : Int)
    (args : Option Nat) (mt pt ap n : Nat) (h : s.pcb_freelist = some n)
    (hok : call = none ∨ args = none ∨ 0 ≤ argl) :
    Exec F s cur call argl args mt pt ap =
      Except.ok
        (Exec_spawn
          (Exec_link F
            (set_pcb (acquire_PCB s).1 n { (acquire_PCB s).1.PT n with exitflag := 0 }) cur n)
          n call argl args mt pt ap, (n : Int)) := by
  have ha2 : (acquire_PCB s).2 = some n := by simp [acquire_PCB, h]
  simp only [Exec, ha2]
  rw [Exec_main_thread_ok _ n call argl args mt pt ap hok]
  rfl

/-- With `args` not `NULL` and `argl` negative, `Exec` with an entry task
faults in `memcpy`. -/
theorem Exec_args_fault (F : Nat) (s : Kernel) (cur : Nat) (call : Option Nat) (argl : Int)
    (args : Option Nat) (mt pt ap : Nat) (hno : ¬ (call = none ∨ args = none ∨ 0 ≤ argl)) :
    Exec F s cur call argl args mt pt ap = Except.error Fault.null_deref := by
  unfold Exec
  cases (acquire_PCB s).2 with
  | none => rfl
  | some n =>
    simp only []
    rw [Exec_main_thread_fault _ n call argl args mt pt ap hno]

theorem Exec_ok_args (F : Nat) (s : Kernel) (cur : Nat) (call : Option Nat) (argl : Int)
    (args : Option Nat) (mt pt ap : Nat) (s1 : Kernel) (pid : Int)
    (h : Exec F s cur call argl args mt pt ap = Except.ok (s1, pid)) :
    call = none ∨ args = none ∨ 0 ≤ argl := by
  by_contra hno
  rw [Exec_args_fault F s cur call argl args mt pt ap hno] at h
  cases h

/-- C2 (the code departs from the claim): with an empty free list `Exec` does
not return `NOPROC` with the state untouched; it stores to `newproc->exitflag`
through the `NULL` that `acquire_PCB` returned, before testing for `NULL`. -/
theorem Exec_pool_exhausted (F : Nat) (s : Kernel) (cur : Nat) (call : Option Nat) (argl : Int)
    (args : Option Nat) (mt pt ap : Nat) (h : s.pcb_freelist = none) :
    (acquire_PCB s).2 = none ∧
    Exec F s cur call argl args mt pt ap = Except.error Fault.null_deref := by
  simp [Exec, acquire_PCB, h]

theorem Exec_pool_exhausted_witness :
    two_children.pcb_freelist = none ∧ (acquire_PCB two_children).2 = none ∧
    Exec 2 two_children 1 (some 1) 0 none 104 204 304 = Except.error Fault.null_deref :=
  ⟨by decide, Exec_pool_exhausted 2 two_children 1 (some 1) 0 none 104 204 304 (by decide)⟩

theorem Exec_spawn_fields (s : Kernel) (n : Nat) (call : Option Nat) (argl : Int)
    (args : Option Nat) (mt pt ap : Nat) :
    (Exec_spawn s n call argl args mt pt ap).pcb_freelist = s.pcb_freelist ∧
    (Exec_spawn s n call argl args mt pt ap).process_count = s.process_count ∧
    (Exec_spawn s n call argl args mt pt ap).refcount = s.refcount ∧
    ∀ q, ((Exec_spawn s n call argl args mt pt ap).PT q).parent = (s.PT q).parent ∧
      ((Exec_spawn s n call argl args mt pt ap).PT q).children_list =
        (s.PT q).children_list ∧
      ((Exec_spawn s n call argl args mt pt ap).PT q).exited_list =
        (s.PT q).exited_list ∧
      ((Exec_spawn s n call argl args mt pt ap).PT q).pstate = (s.PT q).pstate ∧
      ((Exec_spawn s n call argl args mt pt ap).PT q).FIDT = (s.PT q).FIDT := by
  unfold Exec_spawn
  cases call with
  | none => exact ⟨rfl, rfl, rfl, fun _ => ⟨rfl, rfl, rfl, rfl, rfl⟩⟩
  | some task =>
    refine ⟨rfl, rfl, rfl, fun q => ?_⟩
    by_cases hq : q = n <;> simp [hq, set_ptcb]

theorem Exec_link_fields (F : Nat) (s : Kernel) (cur n : Nat) :
    (Exec_link F s cur n).pcb_freelist = s.pcb_freelist ∧
    (Exec_link F s cur n).process_count = s.process_count ∧
    (∀ q, ((Exec_link F s cur n).PT q).parent =
      if q = n then (if n ≤ 1 then none else some cur) else (s.PT q).parent) ∧
    (∀ q, ((Exec_link F s cur n).PT q).children_list =
      if 2 ≤ n ∧ q = cur then n :: (s.PT q).children_list else (s.PT q).children_list) ∧
    (∀ q, ((Exec_link F s cur n).PT q).exited_list = (s.PT q).exited_list) ∧
    (∀ q, ((Exec_link F s cur n).PT q).pstate = (s.PT q).pstate) ∧
    (∀ q, ((Exec_link F s cur n).PT q).FIDT =
      if 2 ≤ n ∧ q = n then (fun j => if j < F then (s.PT cur).FIDT j else (s.PT n).FIDT j)
      else (s.PT q).FIDT) ∧
    (∀ g, (Exec_link F s cur n).refcount g =
      if 2 ≤ n then
        s.refcount g + (List.range F).countP (fun i => decide ((s.PT cur).FIDT i = some g))
      else s.refcount g) := by
  have hle : get_pid (some n) ≤ 1 ↔ n ≤ 1 := by
    simp only [get_pid]; omega
  unfold Exec_link
  by_cases hn : n ≤ 1
  · have hn2 : ¬ 2 ≤ n := by omega
    have hg : get_pid (some n) ≤ 1 := hle.mpr hn
    simp only [hg, if_true]
    refine ⟨rfl, rfl, ?_, ?_, ?_, ?_, ?_, ?_⟩
    · intro q; by_cases hq : q = n <;> simp [hq, hn]
    · intro q; by_cases hq : q = n <;> simp [hq, hn2]
    · intro q; by_cases hq : q = n <;> simp [hq]
    · intro q; by_cases hq : q = n <;> simp [hq]
    · intro q; by_cases hq : q = n <;> simp [hq, hn2]
    · intro g; simp [hn2]
  · have hn2 : 2 ≤ n := by omega
    have hg : ¬ get_pid (some n) ≤ 1 := fun hc => hn (hle.mp hc)
    simp only [hg, if_false, inherit_FIDT_eq]
    refine ⟨rfl, rfl, ?_, ?_, ?_, ?_, ?_, ?_⟩
    · intro q
      by_cases hcn : cur = n
      · by_cases hq : q = n <;> simp [hq, hcn, hn, hn2, rlist_push_front]
      · have hnc : n ≠ cur := Ne.symm hcn
        by_cases hq : q = n
        · simp [hq, hcn, hnc, hn, hn2]
        · by_cases hc : q = cur
          · simp [hc, hcn, hnc, hn2, rlist_push_front]
          · simp [hq, hc, hcn, hnc]
    · intro q
      by_cases hcn : cur = n
      · by_cases hq : q = n <;> simp [hq, hcn, hn, hn2, rlist_push_front]
      · have hnc : n ≠ cur := Ne.symm hcn
        by_cases hq : q = n
        · simp [hq, hcn, hnc, hn, hn2]
        · by_cases hc : q = cur
          · simp [hc, hcn, hnc, hn2, rlist_push_front]
          · simp [hq, hc, hcn, hnc]
    · intro q
      by_cases hcn : cur = n
      · by_cases hq : q = n <;> simp [hq, hcn, hn, hn2, rlist_push_front]
      · have hnc : n ≠ cur := Ne.symm hcn
        by_cases hq : q = n
        · simp [hq, hcn, hnc, hn, hn2]
        · by_cases hc : q = cur
          · simp [hc, hcn, hnc, hn2, rlist_push_front]
          · simp [hq, hc, hcn, hnc]
    · intro q
      by_cases hcn : cur = n
      · by_cases hq : q = n <;> simp [hq, hcn, hn, hn2, rlist_push_front]
      · have hnc : n ≠ cur := Ne.symm hcn
        by_cases hq : q = n
        · simp [hq, hcn, hnc, hn, hn2]
        · by_cases hc : q = cur
          · simp [hc, hcn, hnc, hn2, rlist_push_front]
          · simp [hq, hc, hcn, hnc]
    · intro q
      by_cases hcn : cur = n
      · by_cases hq : q = n <;> simp [hq, hcn, hn, hn2, rlist_push_front]
      · have hnc : n ≠ cur := Ne.symm hcn
        by_cases hq : q = n
        · simp [hq, hcn, hnc, hn, hn2]
        · by_cases hc : q = cur
          · simp [hc, hcn, hnc, hn2, rlist_push_front]
          · simp [hq, hc, hcn, hnc]
    · intro g
      by_cases hc : cur = n
      · simp [hn2, hc]
      · simp [hn2, hc]

/-- What a successful `Exec` leaves behind, slot by slot. -/
theorem Exec_fields (F : Nat) (s : Kernel) (cur : Nat) (call : Option Nat) (argl : Int)
    (args : Option Nat) (mt pt ap n : Nat) (h : s.pcb_freelist = some n)
    (hok : call = none ∨ args = none ∨ 0 ≤ argl) :
    ∃ s1, Exec F s cur call argl args mt pt ap = Except.ok (s1, (n : Int)) ∧
      s1.pcb_freelist = (s.PT n).parent ∧
      (∀ q, (s1.PT q).parent =
        if q = n then (if n ≤ 1 then none else some cur) else (s.PT q).parent) ∧
      (∀ q, (s1.PT q).children_list =
        if 2 ≤ n ∧ q = cur then n :: (s.PT q).children_list else (s.PT q).children_list) ∧
      (∀ q, (s1.PT q).pstate = if q = n then pid_state.ALIVE else (s.PT q).pstate) ∧
      (∀ q, (s1.PT q).FIDT =
        if 2 ≤ n ∧ q = n then (fun j => if j < F then (s.PT cur).FIDT j else (s.PT n).FIDT j)
        else (s.PT q).FIDT) ∧
      (∀ g, s1.refcount g =
        if 2 ≤ n then
          s.refcount g + (List.range F).countP (fun i => decide ((s.PT cur).FIDT i = some g))
        else s.refcount g) := by
  have ha2 : (acquire_PCB s).2 = some n := by simp [acquire_PCB, h]
  have ha1 : (acquire_PCB s).1 =
      { set_pcb s n { s.PT n with pstate := pid_state.ALIVE } with
        pcb_freelist := (s.PT n).parent
        process_count := (s.process_count + 1) % UINT_MOD } := by
    simp [acquire_PCB, h]
  rw [Exec_eq F s cur call argl args mt pt ap n h hok]
  refine ⟨_, rfl, ?_⟩
  generalize hs2 : set_pcb (acquire_PCB s).1 n { (acquire_PCB s).1.PT n with exitflag := 0 } = s2
  have e_fl : s2.pcb_freelist = (s.PT n).parent := by rw [← hs2, ha1]; rfl
  have e_rc : s2.refcount = s.refcount := by rw [← hs2, ha1]; rfl
  have e_par : ∀ q, (s2.PT q).parent = (s.PT q).parent := by
    intro q; rw [← hs2, ha1]; by_cases hq : q = n <;> simp [hq]
  have e_ch : ∀ q, (s2.PT q).children_list = (s.PT q).children_list := by
    intro q; rw [← hs2, ha1]; by_cases hq : q = n <;> simp [hq]
  have e_ps : ∀ q, (s2.PT q).pstate = if q = n then pid_state.ALIVE else (s.PT q).pstate := by
    intro q; rw [← hs2, ha1]; by_cases hq : q = n <;> simp [hq]
  have e_fd : ∀ q, (s2.PT q).FIDT = (s.PT q).FIDT := by
    intro q; rw [← hs2, ha1]; by_cases hq : q = n <;> simp [hq]
  obtain ⟨l1, _, l3, l4, _, l6, l7, l8⟩ := Exec_link_fields F s2 cur n
  obtain ⟨m1, _, m3, m4⟩ :=
    Exec_spawn_fields (Exec_link F s2 cur n) n call argl args mt pt ap
  refine ⟨?_, ?_, ?_, ?_, ?_, ?_⟩
  · rw [m1, l1, e_fl]
  · intro q; rw [(m4 q).1, l3 q, e_par q]
  · intro q; rw [(m4 q).2.1, l4 q, e_ch q]
  · intro q; rw [(m4 q).2.2.2.1, l6 q, e_ps q]
  · intro q; rw [(m4 q).2.2.2.2, l7 q, e_fd q, e_fd cur, e_fd n]
  · intro g; rw [m3, l8 g, e_rc, e_fd cur]

/-- C1: from the pool built by `initialize_processes` (every slot FREE, free
list headed at slot 0), the `k`-th successive `acquire_PCB` returns slot
`k - 1`, for every `k` from 1 to `MAX_PROC`; in particular every first `Exec`
that returns yields pid 0 and every second one that returns yields pid 1, and
an `Exec` does return when its argument buffer can be allocated (`call` or
`args` is `NULL`, or `argl` is not negative). -/
theorem acquire_PCB_kth (MAX_PROC : Nat) (s0 : Kernel) (k : Nat) (h1 : 1 ≤ k)
    (hk : k ≤ MAX_PROC) :
    (∀ p, p < MAX_PROC → ((initialize_pool MAX_PROC s0).PT p).pstate = pid_state.FREE) ∧
    (acquire_PCB (acquire_n (k - 1) (initialize_pool MAX_PROC s0))).2 = some (k - 1) ∧
    (∀ F c1 call1 argl1 args1 mt1 pt1 ap1,
      ((call1 = none ∨ args1 = none ∨ 0 ≤ argl1) → ∃ s1,
        Exec F (initialize_pool MAX_PROC s0) c1 call1 argl1 args1 mt1 pt1 ap1 =
          Except.ok (s1, 0)) ∧
      (∀ s1 pid,
        Exec F (initialize_pool MAX_PROC s0) c1 call1 argl1 args1 mt1 pt1 ap1 =
          Except.ok (s1, pid) →
        pid = 0 ∧
        (2 ≤ MAX_PROC → ∀ c2 call2 argl2 args2 mt2 pt2 ap2,
          ((call2 = none ∨ args2 = none ∨ 0 ≤ argl2) → ∃ s2,
            Exec F s1 c2 call2 argl2 args2 mt2 pt2 ap2 = Except.ok (s2, 1)) ∧
          (∀ s2 pid2, Exec F s1 c2 call2 argl2 args2 mt2 pt2 ap2 = Except.ok (s2, pid2) →
            pid2 = 1)))) := by
  obtain ⟨p1, p2, p3⟩ := initialize_pool_spec MAX_PROC s0
  refine ⟨p3, ?_, ?_⟩
  · have h := acquire_n_freelist MAX_PROC s0 (k - 1) (by omega)
    have hne : k - 1 ≠ MAX_PROC := by omega
    simp only [hne, if_false] at h
    simp only [acquire_PCB, h]
  · intro F c1 call1 argl1 args1 mt1 pt1 ap1
    have hM : MAX_PROC ≠ 0 := by omega
    simp only [hM, if_false] at p1
    refine ⟨?_, ?_⟩
    · intro hok1
      obtain ⟨s1, e1, _⟩ :=
        Exec_fields F (initialize_pool MAX_PROC s0) c1 call1 argl1 args1 mt1 pt1 ap1 0 p1 hok1
      exact ⟨s1, e1⟩
    · intro s1 pid e
      have hok1 := Exec_ok_args F _ c1 call1 argl1 args1 mt1 pt1 ap1 s1 pid e
      obtain ⟨s1a, e1, f1, _⟩ :=
        Exec_fields F (initialize_pool MAX_PROC s0) c1 call1 argl1 args1 mt1 pt1 ap1 0 p1 hok1
      rw [e1] at e
      simp only [Except.ok.injEq, Prod.mk.injEq] at e
      obtain ⟨rfl, hpid⟩ := e
      refine ⟨by rw [← hpid]; rfl, ?_⟩
      intro h2 c2 call2 argl2 args2 mt2 pt2 ap2
      have hp : ((initialize_pool MAX_PROC s0).PT 0).parent = some 1 := by
        rw [p2 0 (by omega)]
        have : ¬ (0 + 1 = MAX_PROC) := by omega
        simp [this]
      rw [hp] at f1
      refine ⟨?_, ?_⟩
      · intro hok2
        obtain ⟨s2, e2, _⟩ := Exec_fields F s1a c2 call2 argl2 args2 mt2 pt2 ap2 1 f1 hok2
        exact ⟨s2, e2⟩
      · intro s2 pid2 e2
        have hok2 := Exec_ok_args F _ c2 call2 argl2 args2 mt2 pt2 ap2 s2 pid2 e2
        obtain ⟨s2a, e2a, _⟩ := Exec_fields F s1a c2 call2 argl2 args2 mt2 pt2 ap2 1 f1 hok2
        rw [e2a] at e2
        simp only [Except.ok.injEq, Prod.mk.injEq] at e2
        rw [← e2.2]; rfl

theorem acquire_PCB_kth_witness :
    (1 ≤ 3 ∧ 3 ≤ 4) ∧
    (∀ p, p < 4 → ((initialize_pool 4 zero_Kernel).PT p).pstate = pid_state.FREE) ∧
    (acquire_PCB (acquire_n (3 - 1) (initialize_pool 4 zero_Kernel))).2 = some (3 - 1) ∧
    (∀ F c1 call1 argl1 args1 mt1 pt1 ap1,
      ((call1 = none ∨ args1 = none ∨ 0 ≤ argl1) → ∃ s1,
        Exec F (initialize_pool 4 zero_Kernel) c1 call1 argl1 args1 mt1 pt1 ap1 =
          Except.ok (s1, 0)) ∧
      (∀ s1 pid,
        Exec F (initialize_pool 4 zero_Kernel) c1 call1 argl1 args1 mt1 pt1 ap1 =
          Except.ok (s1, pid) →
        pid = 0 ∧
        (2 ≤ 4 → ∀ c2 call2 argl2 args2 mt2 pt2 ap2,
          ((call2 = none ∨ args2 = none ∨ 0 ≤ argl2) → ∃ s2,
            Exec F s1 c2 call2 argl2 args2 mt2 pt2 ap2 = Except.ok (s2, 1)) ∧
          (∀ s2 pid2, Exec F s1 c2 call2 argl2 args2 mt2 pt2 ap2 = Except.ok (s2, pid2) →
            pid2 = 1)))) :=
  ⟨by decide, acquire_PCB_kth 4 zero_Kernel 3 (by decide) (by decide)⟩

theorem Exec_ok_inv (F : Nat) (s : Kernel) (cur : Nat) (call : Option Nat) (argl : Int)
    (args : Option Nat) (mt pt ap : Nat) (s1 : Kernel) (pid : Int)
    (h : Exec F s cur call argl args mt pt ap = Except.ok (s1, pid)) :
    ∃ n : Nat, s.pcb_freelist = some n ∧ pid = (n : Int) := by
  cases hf : s.pcb_freelist with
  | none =>
    rw [Exec_of_empty_freelist F s cur call argl args mt pt ap hf] at h
    cases h
  | some n =>
    rw [Exec_eq F s cur call argl args mt pt ap n hf
      (Exec_ok_args F s cur call argl args mt pt ap s1 pid h)] at h
    simp only [Except.ok.injEq, Prod.mk.injEq] at h
    exact ⟨n, rfl, h.2.symm⟩

/-- C6 (amended): for a successful `Exec` with new pid at least 2, the child's
file table equals the caller's slot for slot, the reference count of every
handle grows by the number of slots of the caller's table that hold it (so a
handle the table does not hold keeps its count), and the caller's own table
is unchanged. -/
theorem Exec_inherits_files (F : Nat) (s : Kernel) (cur : Nat) (call : Option Nat) (argl : Int)
    (args : Option Nat) (mt pt ap : Nat) (s1 : Kernel) (pid : Int)
    (h : Exec F s cur call argl args mt pt ap = Except.ok (s1, pid)) (hpid : 2 ≤ pid) :
    (∀ i, i < F → (s1.PT pid.toNat).FIDT i = (s.PT cur).FIDT i) ∧
    (∀ g, s1.refcount g =
      s.refcount g + (List.range F).countP (fun i => decide ((s.PT cur).FIDT i = some g))) ∧
    (∀ g, (∀ i, i < F → (s.PT cur).FIDT i ≠ some g) → s1.refcount g = s.refcount g) ∧
    (s1.PT cur).FIDT = (s.PT cur).FIDT := by
  obtain ⟨n, hf, hn⟩ := Exec_ok_inv F s cur call argl args mt pt ap s1 pid h
  obtain ⟨s2, h2, _, _, _, _, hfd, hrc⟩ := Exec_fields F s cur call argl args mt pt ap n hf
    (Exec_ok_args F s cur call argl args mt pt ap s1 pid h)
  rw [h2] at h
  simp only [Except.ok.injEq, Prod.mk.injEq] at h
  obtain ⟨rfl, _⟩ := h
  subst hn
  have hn2 : 2 ≤ n := by omega
  have hcount : ∀ g, s2.refcount g =
      s.refcount g + (List.range F).countP (fun i => decide ((s.PT cur).FIDT i = some g)) := by
    intro g; rw [hrc g]; simp [hn2]
  refine ⟨?_, hcount, ?_, ?_⟩
  · intro i hi
    rw [Int.toNat_ofNat, hfd n]
    simp [hn2, hi]
  · intro g hg
    rw [hcount g]
    have : (List.range F).countP (fun i => decide ((s.PT cur).FIDT i = some g)) = 0 := by
      rw [List.countP_eq_zero]
      intro i hi
      simpa using hg i (List.mem_range.mp hi)
    omega
  · rw [hfd cur]
    by_cases hc : cur = n
    · subst hc
      simp only [hn2, and_self, if_true]
      funext j
      by_cases hj : j < F <;> simp [hj]
    · simp [hc]

theorem Exec_inherits_files_witness :
    (Exec 2 dup_table 1 (some 1) 0 none 102 202 302 =
        Except.ok (Exec_state (Exec 2 dup_table 1 (some 1) 0 none 102 202 302), 2) ∧
      (2 : Int) ≤ 2) ∧
    (∀ i, i < 2 →
      ((Exec_state (Exec 2 dup_table 1 (some 1) 0 none 102 202 302)).PT (2 : Int).toNat).FIDT i =
        (dup_table.PT 1).FIDT i) ∧
    (∀ g, (Exec_state (Exec 2 dup_table 1 (some 1) 0 none 102 202 302)).refcount g =
      dup_table.refcount g +
        (List.range 2).countP (fun i => decide ((dup_table.PT 1).FIDT i = some g))) ∧
    (∀ g, (∀ i, i < 2 → (dup_table.PT 1).FIDT i ≠ some g) →
      (Exec_state (Exec 2 dup_table 1 (some 1) 0 none 102 202 302)).refcount g =
        dup_table.refcount g) ∧
    ((Exec_state (Exec 2 dup_table 1 (some 1) 0 none 102 202 302)).PT 1).FIDT =
      (dup_table.PT 1).FIDT :=
  ⟨⟨rfl, by decide⟩,
    Exec_inherits_files 2 dup_table 1 (some 1) 0 none 102 202 302 _ 2 rfl (by decide)⟩

/-- C6 as stated fails: init holds the handle 7 in slots 0 and 1; the `Exec`
that creates pid 2 raises the reference count of 7 from 2 to 4, not to 3. -/
theorem Exec_refcount_counterexample :
    Exec 2 dup_table 1 (some 1) 0 none 102 202 302 =
        Except.ok (Exec_state (Exec 2 dup_table 1 (some 1) 0 none 102 202 302), 2) ∧
      (dup_table.PT 1).FIDT 0 = some 7 ∧ dup_table.refcount 7 = 2 ∧
      (Exec_state (Exec 2 dup_table 1 (some 1) 0 none 102 202 302)).refcount 7 = 4 ∧
      (Exec_state (Exec 2 dup_table 1 (some 1) 0 none 102 202 302)).refcount 7 ≠
        dup_table.refcount 7 + 1 :=
  ⟨rfl, by decide, by decide, by decide, by decide⟩

/-- C10: after a successful `Exec`, a new process with pid 0 or 1 has no
parent (`GetPPid` from it yields `NOPROC`) and no children list changed;
any other new process has the caller as its parent and occurs exactly once
in the caller's children list, the children lists of all other processes
being unchanged; no other process's parent changed. The slot at the head of
the free list is assumed not to be among the caller's children already. -/
theorem Exec_parent_linkage (F : Nat) (s : Kernel) (cur : Nat) (call : Option Nat) (argl : Int)
    (args : Option Nat) (mt pt ap : Nat) (s1 : Kernel) (pid : Int)
    (h : Exec F s cur call argl args mt pt ap = Except.ok (s1, pid))
    (hfresh : ∀ n, s.pcb_freelist = some n → n ∉ (s.PT cur).children_list) :
    ∃ n : Nat, pid = (n : Int) ∧
      (n ≤ 1 → (s1.PT n).parent = none ∧ GetPPid s1 n = NOPROC ∧
        ∀ q, (s1.PT q).children_list = (s.PT q).children_list) ∧
      (2 ≤ n → (s1.PT n).parent = some cur ∧ GetPPid s1 n = (cur : Int) ∧
        (s1.PT cur).children_list.count n = 1 ∧
        ∀ q, q ≠ cur → (s1.PT q).children_list = (s.PT q).children_list) ∧
      (∀ q, q ≠ n → (s1.PT q).parent = (s.PT q).parent) := by
  obtain ⟨n, hf, hn⟩ := Exec_ok_inv F s cur call argl args mt pt ap s1 pid h
  obtain ⟨s2, h2, _, hpar, hch, _, _, _⟩ := Exec_fields F s cur call argl args mt pt ap n hf
    (Exec_ok_args F s cur call argl args mt pt ap s1 pid h)
  rw [h2] at h
  simp only [Except.ok.injEq, Prod.mk.injEq] at h
  obtain ⟨rfl, _⟩ := h
  refine ⟨n, hn, ?_, ?_, ?_⟩
  · intro hle
    have hp : (s2.PT n).parent = none := by rw [hpar n]; simp [hle]
    refine ⟨hp, ?_, ?_⟩
    · simp [GetPPid, hp, get_pid]
    · intro q
      rw [hch q]
      have : ¬ 2 ≤ n := by omega
      simp [this]
  · intro hge
    have hp : (s2.PT n).parent = some cur := by
      rw [hpar n]
      have : ¬ n ≤ 1 := by omega
      simp [this]
    refine ⟨hp, ?_, ?_, ?_⟩
    · simp [GetPPid, hp, get_pid]
    · rw [hch cur]
      simp only [hge, and_self, if_true, List.count_cons_self]
      rw [List.count_eq_zero_of_not_mem (hfresh n hf)]
    · intro q hq
      rw [hch q]
      simp [hq]
  · intro q hq
    rw [hpar q]
    simp [hq]

theorem Exec_parent_linkage_witness :
    (Exec 2 one_child 1 (some 1) 0 none 103 203 303 = Except.ok (two_children, 3) ∧
      ∀ n, one_child.pcb_freelist = some n → n ∉ (one_child.PT 1).children_list) ∧
    ∃ n : Nat, (3 : Int) = (n : Int) ∧
      (n ≤ 1 → (two_children.PT n).parent = none ∧ GetPPid two_children n = NOPROC ∧
        ∀ q, (two_children.PT q).children_list = (one_child.PT q).children_list) ∧
      (2 ≤ n → (two_children.PT n).parent = some 1 ∧ GetPPid two_children n = ((1 : Nat) : Int) ∧
        (two_children.PT 1).children_list.count n = 1 ∧
        ∀ q, q ≠ 1 → (two_children.PT q).children_list = (one_child.PT q).children_list) ∧
      (∀ q, q ≠ n → (two_children.PT q).parent = (one_child.PT q).parent) :=
  ⟨⟨rfl, by decide⟩,
    Exec_parent_linkage 2 one_child 1 (some 1) 0 none 103 203 303 two_children 3 rfl
      (by decide)⟩

/-! ## Pool: reuse -/

theorem free_chain_congr (s t : Kernel) (p : Nat) (n : Nat) (head : Option Nat)
    (hs : ∀ q, q ≠ p → (t.PT q).parent = (s.PT q).parent)
    (hp : p ∉ free_chain s n head) : free_chain t n head = free_chain s n head := by
  induction n generalizing head with
  | zero => rfl
  | succ n ih =>
    cases head with
    | none => rfl
    | some a =>
      simp only [free_chain, List.mem_cons, not_or] at hp ⊢
      have hap : a ≠ p := fun h => hp.1 h.symm
      rw [hs a hap, ih _ hp.2]

/-- C9: for a slot `p` that is not FREE (in a pool whose free list holds FREE
slots only), `release_PCB(p)` followed by `acquire_PCB` returns `p`, and the
pair leaves the free list (its head and its chain of members) and
`process_count` as they were before the release. An `Exec` right after the
release returns when its argument buffer can be allocated (`call` or `args`
is `NULL`, or `argl` is not negative), and whenever it returns its pid is
`p`. -/
theorem release_then_acquire (s : Kernel) (p : Nat)
    (hp : (s.PT p).pstate ≠ pid_state.FREE) (hc : s.process_count < UINT_MOD)
    (hwf : ∀ n q, q ∈ free_chain s n s.pcb_freelist → (s.PT q).pstate = pid_state.FREE) :
    (acquire_PCB (release_PCB s p)).2 = some p ∧
    (acquire_PCB (release_PCB s p)).1.pcb_freelist = s.pcb_freelist ∧
    (∀ n, free_chain (acquire_PCB (release_PCB s p)).1 n
        (acquire_PCB (release_PCB s p)).1.pcb_freelist = free_chain s n s.pcb_freelist) ∧
    (acquire_PCB (release_PCB s p)).1.process_count = s.process_count ∧
    (∀ F cur call argl args mt pt ap,
      ((call = none ∨ args = none ∨ 0 ≤ argl) → ∃ s1,
        Exec F (release_PCB s p) cur call argl args mt pt ap = Except.ok (s1, (p : Int))) ∧
      (∀ s1 pid, Exec F (release_PCB s p) cur call argl args mt pt ap = Except.ok (s1, pid) →
        pid = (p : Int))) := by
  have e2 : (acquire_PCB (release_PCB s p)).2 = some p := by simp [acquire_PCB, release_PCB]
  have e1 : (acquire_PCB (release_PCB s p)).1.pcb_freelist = s.pcb_freelist := by
    simp [acquire_PCB, release_PCB]
  refine ⟨e2, e1, ?_, ?_, ?_⟩
  rotate_left 2
  · intro F cur call argl args mt pt ap
    have hfl : (release_PCB s p).pcb_freelist = some p := by simp [release_PCB]
    refine ⟨?_, ?_⟩
    · intro hok
      obtain ⟨s1, h1, _⟩ :=
        Exec_fields F (release_PCB s p) cur call argl args mt pt ap p hfl hok
      exact ⟨s1, h1⟩
    · intro s1 pid e
      obtain ⟨n, hn, hpid⟩ := Exec_ok_inv F (release_PCB s p) cur call argl args mt pt ap s1 pid e
      rw [hfl] at hn
      rw [hpid, ← Option.some.inj hn]
  · intro n
    rw [e1]
    apply free_chain_congr s _ p
    · intro q hq
      simp [acquire_PCB, release_PCB, hq]
    · intro hmem
      exact hp (hwf n p hmem)
  · simp only [acquire_PCB, release_PCB, UINT_MOD] at hc ⊢
    omega

theorem release_then_acquire_witness :
    ((one_child_exited.PT 2).pstate ≠ pid_state.FREE ∧ one_child_exited.process_count < UINT_MOD ∧
      ∀ n q, q ∈ free_chain one_child_exited n one_child_exited.pcb_freelist →
        (one_child_exited.PT q).pstate = pid_state.FREE) ∧
    (acquire_PCB (release_PCB one_child_exited 2)).2 = some 2 ∧
    (acquire_PCB (release_PCB one_child_exited 2)).1.pcb_freelist =
      one_child_exited.pcb_freelist ∧
    (∀ n, free_chain (acquire_PCB (release_PCB one_child_exited 2)).1 n
        (acquire_PCB (release_PCB one_child_exited 2)).1.pcb_freelist =
      free_chain one_child_exited n one_child_exited.pcb_freelist) ∧
    (acquire_PCB (release_PCB one_child_exited 2)).1.process_count =
      one_child_exited.process_count ∧
    (∀ F cur call argl args mt pt ap,
      ((call = none ∨ args = none ∨ 0 ≤ argl) → ∃ s1,
        Exec F (release_PCB one_child_exited 2) cur call argl args mt pt ap =
          Except.ok (s1, ((2 : Nat) : Int))) ∧
      (∀ s1 pid,
        Exec F (release_PCB one_child_exited 2) cur call argl args mt pt ap =
          Except.ok (s1, pid) →
        pid = ((2 : Nat) : Int))) :=
  have hwf : ∀ n q, q ∈ free_chain one_child_exited n one_child_exited.pcb_freelist →
      (one_child_exited.PT q).pstate = pid_state.FREE := by
    intro n q hq
    have h3 : q = 3 := by
      match n with
      | 0 => simp [free_chain] at hq
      | 1 =>
        have : free_chain one_child_exited 1 one_child_exited.pcb_freelist = [3] := by decide
        rw [this] at hq; simpa using hq
      | k + 2 =>
        have e1 : one_child_exited.pcb_freelist = some 3 := by decide
        have e2 : (one_child_exited.PT 3).parent = none := by decide
        rw [e1] at hq
        simp only [free_chain, e2] at hq
        cases k <;> simpa [free_chain] using hq
    subst h3
    decide
  ⟨⟨by decide, by decide, hwf⟩,
    release_then_acquire one_child_exited 2 (by decide) (by decide) hwf⟩

/-! ## Waiting for children: rejection -/

/-- C8: `WaitChild` returns `NOPROC`, at once and with the state (and the
status variable) untouched, when a specific id is out of the range
`[0, MAX_PROC)`, names a FREE slot, or names a process whose parent is not the
caller, and for "any" (`NOPROC`) when the caller has no children; in every
other case a `WaitChild` that returns does not return `NOPROC`. -/
theorem WaitChild_NOPROC_iff (M : Nat) (s : Kernel) (P : Nat) (cpid : Int) (st : Option Int) :
    ((if cpid ≠ NOPROC then
        (cpid < 0 ∨ cpid ≥ (M : Int) ∨ (s.PT cpid.toNat).pstate = pid_state.FREE ∨
          (s.PT cpid.toNat).parent ≠ some P)
      else (s.PT P).children_list = []) →
      WaitChild M s P cpid st = Outcome.ret s (NOPROC, st)) ∧
    (¬ (if cpid ≠ NOPROC then
        (cpid < 0 ∨ cpid ≥ (M : Int) ∨ (s.PT cpid.toNat).pstate = pid_state.FREE ∨
          (s.PT cpid.toNat).parent ≠ some P)
      else (s.PT P).children_list = []) →
      ∀ s1 r, WaitChild M s P cpid st = Outcome.ret s1 r → r.1 ≠ NOPROC) := by
  by_cases hc : cpid ≠ NOPROC
  · simp only [if_pos hc, WaitChild, wait_for_specific_child]
    constructor
    · intro h
      by_cases hr : cpid < 0 ∨ cpid ≥ (M : Int)
      · simp [hr]
      · simp only [hr, if_false]
        have h2 : (s.PT cpid.toNat).pstate = pid_state.FREE ∨
            (s.PT cpid.toNat).parent ≠ some P := by
          rcases h with h | h | h | h
          · exact absurd (Or.inl h) hr
          · exact absurd (Or.inr h) hr
          · exact Or.inl h
          · exact Or.inr h
        by_cases hfree : (s.PT cpid.toNat).pstate = pid_state.FREE
        · simp [get_pcb, hfree]
        · rcases h2 with h2 | h2
          · exact absurd h2 hfree
          · simp [get_pcb, hfree, h2]
    · intro h s1 r hw
      have hr : ¬ (cpid < 0 ∨ cpid ≥ (M : Int)) := by
        intro hr
        rcases hr with hr | hr
        · exact h (Or.inl hr)
        · exact h (Or.inr (Or.inl hr))
      have hfree : ¬ (s.PT cpid.toNat).pstate = pid_state.FREE :=
        fun hf => h (Or.inr (Or.inr (Or.inl hf)))
      have hpar : (s.PT cpid.toNat).parent = some P := by
        by_contra hp
        exact h (Or.inr (Or.inr (Or.inr hp)))
      simp only [hr, if_false, get_pcb, hfree, hpar, ne_eq, not_true_eq_false,
        wait_specific_loop] at hw
      split at hw
      · cases hw
      · simp only [Outcome.ret.injEq] at hw
        rw [← hw.2]
        exact hc
  · have hc2 : cpid = NOPROC := by
      by_contra h; exact hc h
    simp only [if_neg hc, WaitChild, wait_for_any_child]
    constructor
    · intro h
      simp [h, is_rlist_empty]
    · intro h s1 r hw
      have he : is_rlist_empty (s.PT P).children_list = false := by
        cases hl : (s.PT P).children_list with
        | nil => exact absurd hl h
        | cons a l => rfl
      simp only [he, Bool.false_eq_true, if_false, wait_any_loop] at hw
      split at hw
      · cases hw
      · split at hw
        · cases hw
        · simp only [Outcome.ret.injEq] at hw
          rw [← hw.2]
          simp only [get_pid, NOPROC]
          omega

/-! ## Process termination: orphans -/

theorem Exit_teardown_progress (F fuel : Nat) (s : Kernel) (X T : Nat) (v : Int)
    (hX : X ≠ 1) (hinit : (s.PT 1).pstate ≠ pid_state.FREE)
    (hfuel : (s.PT X).children_list.length ≤ fuel) :
    ∃ s1, Exit_teardown F fuel s X T v = Outcome.exited s1 := by
  have hl : same_links s (close_FIDT F X (free_own_args (reclaim_threads X T s) X T)) :=
    same_links_trans (same_links_trans (reclaim_threads_links X T s)
      (free_own_args_links _ X T)) (close_FIDT_links F X _)
  unfold Exit_teardown
  simp only []
  generalize close_FIDT F X (free_own_args (reclaim_threads X T s) X T) = pre at hl
  obtain ⟨_, _, hq⟩ := hl
  have hg : get_pcb pre 1 = some 1 := by
    simp only [get_pcb, (hq 1).2.2.2.1, hinit, if_false]
  have hlen : (pre.PT X).children_list.length ≤ fuel := by rw [(hq X).2.1]; exact hfuel
  rw [hg, reparent_children_eq X 1 hX, if_pos hlen]
  by_cases he : is_rlist_empty ((reparent_state X 1 pre).PT X).exited_list = true
  · simp only [splice_exited, he, if_true]
    exact ⟨_, rfl⟩
  · simp only [splice_exited, he, if_false]
    exact ⟨_, rfl⟩

theorem count_barrier_publish (s : Kernel) (X T : Nat) (v : Int) (pcb : PCB)
    (hpcb : pcb.threads_list = (s.PT X).threads_list) :
    count_barrier (Exit_publish (set_pcb s X pcb) T v) X T = count_barrier s X T := by
  unfold Exit_publish count_barrier
  split
  · simp only [set_ptcb, set_pcb_PT, if_true, hpcb, set_pcb_heap, set_pcb_owner_ptcb]
    congr 1
    funext a
    by_cases ha : a = s.owner_ptcb (ThreadSelf T) <;> simp [ha]
  · simp [hpcb]

/-- C7 (amended): a process `A` other than init whose `Exit` runs the teardown
(no exit in progress, barrier passed), with init not FREE, ends in the
terminal sleep; afterwards every process that was in the children list of `A`
has parent pid 1 and is in init's children list, the children and exited
lists of `A` are empty, and every member of the former exited list of `A` is
in init's exited list, where init's `WaitChild(NOPROC, ..)` finds it. -/
theorem Exit_reparents_orphans (M F fuel : Nat) (s : Kernel) (A T : Nat) (v : Int)
    (hA : A ≠ 1) (hinit : (s.PT 1).pstate ≠ pid_state.FREE)
    (hflag : (s.PT A).exitflag ≠ 1) (hself : (s.PT A).parent ≠ some A)
    (hbar : count_barrier s A T = 1) (hfuel : (s.PT A).children_list.length < fuel) :
    ∃ s1, Exit M F fuel s A T v = Outcome.exited s1 ∧
      (∀ c, c ∈ (s.PT A).children_list →
        (s1.PT c).parent = some 1 ∧ c ∈ (s1.PT 1).children_list) ∧
      (s1.PT A).children_list = [] ∧ (s1.PT A).exited_list = [] ∧
      (∀ z, z ∈ (s.PT A).exited_list → z ∈ (s1.PT 1).exited_list) := by
  obtain ⟨fuel0, rfl⟩ : ∃ k, fuel = k + 1 := ⟨fuel - 1, by omega⟩
  have hpid : GetPid A ≠ 1 := by
    simp only [GetPid, get_pid]
    intro hc
    exact hA (by exact_mod_cast hc)
  have hcb := count_barrier_publish s A T v { s.PT A with exitflag := 1 } rfl
  obtain ⟨e1, _, _, _⟩ := Exit_publish_PT (set_pcb s A { s.PT A with exitflag := 1 }) T v
  have hrun : Exit M F (fuel0 + 1) s A T v =
      Exit_teardown F fuel0 (Exit_publish (set_pcb s A { s.PT A with exitflag := 1 }) T v)
        A T v := by
    simp only [Exit, hflag, if_false, Exit_body, hpid, Exit_barrier, hcb, hbar, if_true]
  obtain ⟨s1, h1⟩ := Exit_teardown_progress F fuel0
    (Exit_publish (set_pcb s A { s.PT A with exitflag := 1 }) T v) A T v hA
    (by rw [e1]; simpa [hA.symm] using hinit)
    (by rw [e1]; simp; omega)
  have hE : Exit M F (fuel0 + 1) s A T v = Outcome.exited s1 := by rw [hrun, h1]
  have f := Exit_fields M F (fuel0 + 1) s s1 A T v hA hflag hE
  refine ⟨s1, hE, ?_, ?_, ?_, ?_⟩
  · intro c hc
    refine ⟨by rw [(f c).1]; simp [hc], ?_⟩
    rw [(f 1).2.1]
    simp [hA.symm, hc]
  · rw [(f A).2.1]; simp
  · rw [(f A).2.2.1]
    by_cases hm : A ∈ (s.PT A).children_list
    · simp [hm, hA.symm]
    · simp [hm, hself]
  · intro z hz
    rw [(f 1).2.2.1]
    simp only [hA.symm, if_false, if_true]
    split_ifs <;> simp [hz]

theorem Exit_reparents_orphans_witness :
    (2 ≠ 1 ∧ (grandchild.PT 1).pstate ≠ pid_state.FREE ∧ (grandchild.PT 2).exitflag ≠ 1 ∧
      (grandchild.PT 2).parent ≠ some 2 ∧ count_barrier grandchild 2 102 = 1 ∧
      (grandchild.PT 2).children_list.length < 5 ∧ 3 ∈ (grandchild.PT 2).children_list) ∧
    ∃ s1, Exit 5 2 5 grandchild 2 102 9 = Outcome.exited s1 ∧
      (∀ c, c ∈ (grandchild.PT 2).children_list →
        (s1.PT c).parent = some 1 ∧ c ∈ (s1.PT 1).children_list) ∧
      (s1.PT 2).children_list = [] ∧ (s1.PT 2).exited_list = [] ∧
      (∀ z, z ∈ (grandchild.PT 2).exited_list → z ∈ (s1.PT 1).exited_list) :=
  ⟨⟨by decide, by decide, by decide, by decide, by decide, by decide, by decide⟩,
    Exit_reparents_orphans 5 2 5 grandchild 2 102 9 (by decide) (by decide) (by decide)
      (by decide) (by decide) (by decide)⟩

/-- C7 as stated fails for `A` = init: init (pid 1, not FREE) has the zombie
child 2; its `Exit` first reaps every child, so afterwards pid 2 does not have
parent pid 1 and is not in init's children list. -/
theorem Exit_init_counterexample :
    (one_child_exited.PT 1).pstate ≠ pid_state.FREE ∧
    2 ∈ (one_child_exited.PT 1).children_list ∧
    Exit 4 2 5 one_child_exited 1 101 0 = Outcome.exited init_exited ∧
    (init_exited.PT 2).parent ≠ some 1 ∧ 2 ∉ (init_exited.PT 1).children_list :=
  ⟨by decide, by decide, rfl, by decide, by decide⟩

/-! ## Waiting for any child: order -/

theorem WaitChild_any_head (M : Nat) (s : Kernel) (P c : Nat) (rest : List Nat)
    (st : Option Int) (hch : (s.PT P).children_list ≠ [])
    (hex : (s.PT P).exited_list = c :: rest) (hz : (s.PT c).pstate = pid_state.ZOMBIE) :
    WaitChild M s P NOPROC st =
      Outcome.ret (cleanup_zombie s c st).1 ((c : Int), st.map (fun _ => (s.PT c).exitval)) := by
  have he : is_rlist_empty (s.PT P).children_list = false := by
    cases hl : (s.PT P).children_list with
    | nil => exact absurd hl hch
    | cons a l => rfl
  simp only [WaitChild, ne_eq, not_true_eq_false, if_false, wait_for_any_child, he,
    Bool.false_eq_true, wait_any_loop, hex, hz, get_pid]
  simp [(cleanup_zombie_fields s c st c).2.2.2.2.2.2]

/-- C4 (amended): `WaitChild(NOPROC, ..)` reaps the most recent zombie first.
If children `c1` and `c2` of `P` terminate with `Exit` in that order (`c1`
first, `c2` right after) and neither is reaped in between, then the next two
`WaitChild(NOPROC, &status)` calls of `P` return `c2` and then `c1`, each with
its exit value. -/
theorem WaitChild_any_reaps_latest (M F f1 f2 : Nat) (s s1 s2 : Kernel)
    (P c1 c2 T1 T2 : Nat) (v1 v2 : Int) (st : Int)
    (hc1 : c1 ≠ 1) (hc2 : c2 ≠ 1) (hne : c1 ≠ c2) (hP1 : P ≠ c1) (hP2 : P ≠ c2)
    (hk1 : ∀ q, q ∈ (s.PT c1).children_list → (s.PT q).parent = some c1)
    (hk2 : ∀ q, q ∈ (s.PT c2).children_list → (s.PT q).parent = some c2)
    (hpar1 : (s.PT c1).parent = some P) (hpar2 : (s.PT c2).parent = some P)
    (hch1 : c1 ∈ (s.PT P).children_list)
    (hflag1 : (s.PT c1).exitflag ≠ 1) (hflag2 : (s1.PT c2).exitflag ≠ 1)
    (hE1 : Exit M F f1 s c1 T1 v1 = Outcome.exited s1)
    (hE2 : Exit M F f2 s1 c2 T2 v2 = Outcome.exited s2) :
    ∃ t1 t2,
      WaitChild M s2 P NOPROC (some st) = Outcome.ret t1 ((c2 : Int), some v2) ∧
      WaitChild M t1 P NOPROC (some st) = Outcome.ret t2 ((c1 : Int), some v1) := by
  have g1 := Exit_fields M F f1 s s1 c1 T1 v1 hc1 hflag1 hE1
  have g2 := Exit_fields M F f2 s1 s2 c2 T2 v2 hc2 hflag2 hE2
  -- membership facts in `s`
  have n11 : c1 ∉ (s.PT c1).children_list := fun h => by
    have := hk1 c1 h; rw [hpar1] at this; exact hP1 (Option.some.inj this)
  have n21 : c2 ∉ (s.PT c1).children_list := fun h => by
    have := hk1 c2 h; rw [hpar2] at this; exact hP1 (Option.some.inj this)
  have n22 : c2 ∉ (s.PT c2).children_list := fun h => by
    have := hk2 c2 h; rw [hpar2] at this; exact hP2 (Option.some.inj this)
  have n12 : c1 ∉ (s.PT c2).children_list := fun h => by
    have := hk2 c1 h; rw [hpar1] at this; exact hP2 (Option.some.inj this)
  -- the state `s1`
  have a_par2 : (s1.PT c2).parent = some P := by rw [(g1 c2).1]; simp [n21, hpar2]
  have a_ch2 : (s1.PT c2).children_list = (s.PT c2).children_list := by
    rw [(g1 c2).2.1]; simp [hne.symm, hc2]
  have a_z1 : (s1.PT c1).pstate = pid_state.ZOMBIE := by rw [(g1 c1).2.2.2.1]; simp
  have a_v1 : (s1.PT c1).exitval = v1 := by rw [(g1 c1).2.2.2.2.1]; simp
  have a_chP : c1 ∈ (s1.PT P).children_list := by
    rw [(g1 P).2.1]
    by_cases hp : P = 1
    · subst hp; simp [hP1, hch1]
    · simp [hP1, hp, hch1]
  have a_exP : ∃ r, (s1.PT P).exited_list = c1 :: r := by
    rw [(g1 P).2.2.1]
    simp only [n11, if_false, hpar1, if_true]
    exact ⟨_, rfl⟩
  -- the state `s2`
  have m22 : c2 ∉ (s1.PT c2).children_list := by rw [a_ch2]; exact n22
  have m12 : c1 ∉ (s1.PT c2).children_list := by rw [a_ch2]; exact n12
  have b_z2 : (s2.PT c2).pstate = pid_state.ZOMBIE := by rw [(g2 c2).2.2.2.1]; simp
  have b_v2 : (s2.PT c2).exitval = v2 := by rw [(g2 c2).2.2.2.2.1]; simp
  have b_z1 : (s2.PT c1).pstate = pid_state.ZOMBIE := by
    rw [(g2 c1).2.2.2.1]; simp [hne, a_z1]
  have b_v1 : (s2.PT c1).exitval = v1 := by
    rw [(g2 c1).2.2.2.2.1]; simp [hne, a_v1]
  have b_chP : c1 ∈ (s2.PT P).children_list := by
    rw [(g2 P).2.1]
    by_cases hp : P = 1
    · subst hp; simp [hP2, a_chP]
    · simp [hP2, hp, a_chP]
  have b_exP : ∃ r, (s2.PT P).exited_list = c2 :: c1 :: r := by
    obtain ⟨r, hr⟩ := a_exP
    rw [(g2 P).2.2.1]
    simp only [m22, if_false, a_par2, if_true, hP2]
    by_cases hp : P = 1
    · subst hp
      simp only [if_true, hr]
      exact ⟨_, rfl⟩
    · simp only [hp, if_false, hr]
      exact ⟨_, rfl⟩
  obtain ⟨r2, hr2⟩ := b_exP
  have w1 := WaitChild_any_head M s2 P c2 (c1 :: r2) (some st)
    (List.ne_nil_of_mem b_chP) hr2 b_z2
  have c := cleanup_zombie_fields s2 c2 (some st)
  have t_chP : c1 ∈ ((cleanup_zombie s2 c2 (some st)).1.PT P).children_list := by
    rw [(c P).2.2.1]
    simp [rlist_remove, b_chP, hne]
  have t_exP : ((cleanup_zombie s2 c2 (some st)).1.PT P).exited_list =
      c1 :: rlist_remove r2 c2 := by
    rw [(c P).2.2.2.1, hr2]
    simp [rlist_remove, hne]
  have t_z1 : ((cleanup_zombie s2 c2 (some st)).1.PT c1).pstate = pid_state.ZOMBIE := by
    rw [(c c1).1]; simp [hne, b_z1]
  have t_v1 : ((cleanup_zombie s2 c2 (some st)).1.PT c1).exitval = v1 := by
    rw [(c c1).2.2.2.2.1]; exact b_v1
  have w2 := WaitChild_any_head M (cleanup_zombie s2 c2 (some st)).1 P c1 _ (some st)
    (List.ne_nil_of_mem t_chP) t_exP t_z1
  rw [b_v2] at w1
  rw [t_v1] at w2
  exact ⟨_, _, w1, w2⟩

theorem WaitChild_any_reaps_latest_witness :
    (2 ≠ 1 ∧ 3 ≠ 1 ∧ 2 ≠ 3 ∧ 1 ≠ 2 ∧ 1 ≠ 3 ∧
      (∀ q, q ∈ (two_children.PT 2).children_list → (two_children.PT q).parent = some 2) ∧
      (∀ q, q ∈ (two_children.PT 3).children_list → (two_children.PT q).parent = some 3) ∧
      (two_children.PT 2).parent = some 1 ∧ (two_children.PT 3).parent = some 1 ∧
      2 ∈ (two_children.PT 1).children_list ∧ (two_children.PT 2).exitflag ≠ 1 ∧
      ((Exit 4 2 5 two_children 2 102 7).state.PT 3).exitflag ≠ 1 ∧
      Exit 4 2 5 two_children 2 102 7 =
        Outcome.exited (Exit 4 2 5 two_children 2 102 7).state ∧
      Exit 4 2 5 (Exit 4 2 5 two_children 2 102 7).state 3 103 8 =
        Outcome.exited both_exited) ∧
    ∃ t1 t2,
      WaitChild 4 both_exited 1 NOPROC (some 0) =
        Outcome.ret t1 (((3 : Nat) : Int), some 8) ∧
      WaitChild 4 t1 1 NOPROC (some 0) = Outcome.ret t2 (((2 : Nat) : Int), some 7) :=
  have hk1 : ∀ q, q ∈ (two_children.PT 2).children_list →
      (two_children.PT q).parent = some 2 := by
    intro q hq
    have e : (two_children.PT 2).children_list = [] := by decide
    rw [e] at hq
    simp at hq
  have hk2 : ∀ q, q ∈ (two_children.PT 3).children_list →
      (two_children.PT q).parent = some 3 := by
    intro q hq
    have e : (two_children.PT 3).children_list = [] := by decide
    rw [e] at hq
    simp at hq
  ⟨⟨by decide, by decide, by decide, by decide, by decide, hk1, hk2, by decide, by decide,
      by decide, by decide, by decide, rfl, rfl⟩,
    WaitChild_any_reaps_latest 4 2 5 5 two_children _ both_exited 1 2 3 102 103 7 8 0
      (by decide) (by decide) (by decide) (by decide) (by decide) hk1 hk2 (by decide)
      (by decide) (by decide) (by decide) (by decide) rfl rfl⟩

/-- C4 as stated fails: init has the children 2 and 3; pid 2 becomes ZOMBIE
first, then pid 3; the next `WaitChild(NOPROC, ..)` of init returns 3, not 2. -/
theorem WaitChild_any_counterexample :
    Exit 4 2 5 two_children 2 102 7 = Outcome.exited (Exit 4 2 5 two_children 2 102 7).state ∧
    ((Exit 4 2 5 two_children 2 102 7).state.PT 2).pstate = pid_state.ZOMBIE ∧
    ((Exit 4 2 5 two_children 2 102 7).state.PT 3).pstate = pid_state.ALIVE ∧
    Exit 4 2 5 (Exit 4 2 5 two_children 2 102 7).state 3 103 8 = Outcome.exited both_exited ∧
    (both_exited.PT 3).pstate = pid_state.ZOMBIE ∧
    (WaitChild 4 both_exited 1 NOPROC none).value = some (3, none) ∧
    (WaitChild 4 both_exited 1 NOPROC none).value ≠ some (2, none) :=
  ⟨rfl, by decide, by decide, rfl, by decide, by decide, by decide⟩

/-! ## Threads: join after detach -/

theorem find_ptcb_set_ptcb (s : Kernel) (P tid a : Nat) (t : PTCB)
    (ht : t.thread = (s.heap a).thread) :
    find_ptcb (set_ptcb s a t) P tid = find_ptcb s P tid := by
  unfold find_ptcb set_ptcb
  simp only []
  congr 1
  funext b
  by_cases hb : b = a
  · subst hb; simp [ht]
  · simp [hb]

/-- C5 (the code departs from the claim): a thread that is detached while
still running can afterwards be joined with success. `ThreadDetach` returns 0
and clears `joinable` and `joiners`; a `ThreadJoin` issued after that, before
the thread is done, passes both early tests (they require `done == 1`),
registers itself, skips the wait, and returns 0 with the record's `exitval`
field, which the target never published. -/
theorem ThreadJoin_after_detach (s : Kernel) (P T tid a : Nat) (ev : Int)
    (h0 : tid ≠ NOTHREAD) (h1 : tid ≠ T) (hf : find_ptcb s P tid = some a)
    (hj : (s.heap a).joinable ≠ 0) (hd : (s.heap a).done = 0) :
    (ThreadDetach s P tid).2 = 0 ∧
    ((ThreadDetach s P tid).1.heap a).joinable = 0 ∧
    ∃ s2, ThreadJoin (ThreadDetach s P tid).1 P T tid (some ev) =
      Outcome.ret s2 (0, some (s.heap a).exitval) := by
  have hdet : ThreadDetach s P tid =
      (set_ptcb s a { s.heap a with joinable := 0, joiners := 0 }, 0) := by
    simp [ThreadDetach, hf, hj]
  have hf2 : find_ptcb (set_ptcb s a { s.heap a with joinable := 0, joiners := 0 }) P tid =
      some a := by
    rw [find_ptcb_set_ptcb s P tid a { s.heap a with joinable := 0, joiners := 0 } rfl, hf]
  rw [hdet]
  refine ⟨rfl, by simp [set_ptcb], ?_⟩
  have hs : ¬ (tid = NOTHREAD ∨ tid = ThreadSelf T) := by
    simp only [ThreadSelf]; tauto
  simp only [ThreadJoin, hs, if_false, hf2]
  simp [set_ptcb, hd, ThreadJoin_wait, ThreadJoin_acquireexitval]

theorem ThreadJoin_after_detach_witness :
    (111 ≠ NOTHREAD ∧ 111 ≠ 101 ∧ find_ptcb second_thread 1 111 = some 211 ∧
      (second_thread.heap 211).joinable ≠ 0 ∧ (second_thread.heap 211).done = 0 ∧
      (second_thread.heap 211).exitval = 99) ∧
    (ThreadDetach second_thread 1 111).2 = 0 ∧
    ((ThreadDetach second_thread 1 111).1.heap 211).joinable = 0 ∧
    ∃ s2, ThreadJoin (ThreadDetach second_thread 1 111).1 1 101 111 (some 0) =
      Outcome.ret s2 (0, some (second_thread.heap 211).exitval) :=
  ⟨⟨by decide, by decide, by decide, by decide, by decide, by decide⟩,
    ThreadJoin_after_detach second_thread 1 101 111 211 0 (by decide) (by decide) (by decide)
      (by decide) (by decide)⟩

/-! ## Threads: detach and join, the rejecting paths -/

/-- C12: `ThreadJoin` returns -1 at once, with the state (every thread record,
no joiner registered) and the status variable untouched, when `tid` is
`NOTHREAD`, when `tid` is the calling thread, when `tid` names no record of the
caller's process, and when the target is done and not joinable. -/
theorem ThreadJoin_rejects (s : Kernel) (P T tid : Nat) (ev : Option Int)
    (h : tid = NOTHREAD ∨ tid = T ∨ find_ptcb s P tid = none ∨
      ∃ a, find_ptcb s P tid = some a ∧ (s.heap a).done = 1 ∧ (s.heap a).joinable = 0) :
    ThreadJoin s P T tid ev = Outcome.ret s (-1, ev) := by
  unfold ThreadJoin
  by_cases h1 : tid = NOTHREAD ∨ tid = ThreadSelf T
  · simp [h1]
  · simp only [h1, if_false]
    have h2 : find_ptcb s P tid = none ∨
        ∃ a, find_ptcb s P tid = some a ∧ (s.heap a).done = 1 ∧ (s.heap a).joinable = 0 := by
      rcases h with h | h | h | h
      · exact absurd (Or.inl h) h1
      · exact absurd (Or.inr h) h1
      · exact Or.inl h
      · exact Or.inr h
    rcases h2 with h2 | ⟨a, ha, hd, hj⟩
    · simp [h2]
    · simp [ha, hd, hj]

theorem ThreadJoin_rejects_witness :
    (111 = NOTHREAD ∨ 111 = 101 ∨ find_ptcb detached_done 1 111 = none ∨
      ∃ a, find_ptcb detached_done 1 111 = some a ∧ (detached_done.heap a).done = 1 ∧
        (detached_done.heap a).joinable = 0) ∧
    ThreadJoin detached_done 1 101 111 (some 0) = Outcome.ret detached_done (-1, some 0) :=
  ⟨Or.inr (Or.inr (Or.inr ⟨211, by decide, by decide, by decide⟩)),
    ThreadJoin_rejects detached_done 1 101 111 (some 0)
      (Or.inr (Or.inr (Or.inr ⟨211, by decide, by decide, by decide⟩)))⟩

/-! ## Thread records at creation -/

theorem Exec_link_heap (F : Nat) (s : Kernel) (cur n : Nat) :
    (Exec_link F s cur n).heap = s.heap ∧ (Exec_link F s cur n).owner_ptcb = s.owner_ptcb ∧
    (Exec_link F s cur n).freed = s.freed ∧
    ∀ q, ((Exec_link F s cur n).PT q).threads_list = (s.PT q).threads_list ∧
      ((Exec_link F s cur n).PT q).exitflag = (s.PT q).exitflag ∧
      ((Exec_link F s cur n).PT q).main_thread = (s.PT q).main_thread := by
  unfold Exec_link
  split
  · refine ⟨rfl, rfl, rfl, fun q => ?_⟩
    by_cases hq : q = n <;> simp [hq]
  · simp only [inherit_FIDT_eq]
    refine ⟨rfl, rfl, rfl, fun q => ?_⟩
    by_cases hcn : cur = n
    · by_cases hq : q = n <;> simp [hq, hcn]
    · have hnc : n ≠ cur := Ne.symm hcn
      by_cases hq : q = n
      · simp [hq, hcn, hnc]
      · by_cases hc : q = cur
        · simp [hc, hcn, hnc]
        · simp [hq, hc, hcn, hnc]

theorem acquire_PCB_heap (s : Kernel) :
    (acquire_PCB s).1.heap = s.heap ∧ (acquire_PCB s).1.owner_ptcb = s.owner_ptcb ∧
    (acquire_PCB s).1.freed = s.freed ∧ (acquire_PCB s).1.refcount = s.refcount ∧
    ∀ q, ((acquire_PCB s).1.PT q).threads_list = (s.PT q).threads_list ∧
      ((acquire_PCB s).1.PT q).exitflag = (s.PT q).exitflag ∧
      ((acquire_PCB s).1.PT q).main_thread = (s.PT q).main_thread ∧
      ((acquire_PCB s).1.PT q).children_list = (s.PT q).children_list ∧
      ((acquire_PCB s).1.PT q).exited_list = (s.PT q).exited_list ∧
      ((acquire_PCB s).1.PT q).FIDT = (s.PT q).FIDT := by
  unfold acquire_PCB
  cases h : s.pcb_freelist with
  | none => exact ⟨rfl, rfl, rfl, rfl, fun _ => ⟨rfl, rfl, rfl, rfl, rfl, rfl⟩⟩
  | some p =>
    refine ⟨rfl, rfl, rfl, rfl, fun q => ?_⟩
    by_cases hq : q = p <;> simp [hq]

/-- The thread record and the thread list a successful `Exec` with an entry
task leaves behind. -/
theorem Exec_thread_record (F : Nat) (s : Kernel) (cur task : Nat) (argl : Int)
    (args : Option Nat) (mt pt ap n : Nat) (h : s.pcb_freelist = some n)
    (hok : args = none ∨ 0 ≤ argl) :
    ∃ s1, Exec F s cur (some task) argl args mt pt ap = Except.ok (s1, (n : Int)) ∧
      (s1.heap pt).thread = mt ∧ (s1.heap pt).joinable = 1 ∧ (s1.heap pt).done = 0 ∧
      (s1.heap pt).interrupted = 0 ∧ (s1.heap pt).joiners = (s.heap pt).joiners ∧
      (s1.heap pt).exitval = (s.heap pt).exitval ∧
      (∀ b, b ≠ pt → s1.heap b = s.heap b) ∧
      s1.owner_ptcb mt = pt ∧
      (s1.PT n).threads_list = (s.PT n).threads_list ++ [pt] ∧
      (s1.PT n).main_thread = mt ∧ (s1.PT n).exitflag = 0 := by
  have ha2 : (acquire_PCB s).2 = some n := by simp [acquire_PCB, h]
  obtain ⟨a1, a2, _, _, a5⟩ := acquire_PCB_heap s
  rw [Exec_eq F s cur (some task) argl args mt pt ap n h (Or.inr hok)]
  refine ⟨_, rfl, ?_⟩
  generalize hs2 : set_pcb (acquire_PCB s).1 n { (acquire_PCB s).1.PT n with exitflag := 0 } = s2
  have e_heap : s2.heap = s.heap := by rw [← hs2]; exact a1
  have e_tl : (s2.PT n).threads_list = (s.PT n).threads_list := by
    rw [← hs2]; simp [(a5 n).1]
  have e_ef : (s2.PT n).exitflag = 0 := by rw [← hs2]; simp
  obtain ⟨l1, l2, _, l4⟩ := Exec_link_heap F s2 cur n
  generalize hs3 : Exec_link F s2 cur n = s3 at l1 l2 l4
  have e3 : s3.heap = s.heap := by rw [l1, e_heap]
  simp only [Exec_spawn, set_ptcb, set_pcb]
  refine ⟨by simp, by simp, by simp, by simp, by simp [e3], by simp [e3], ?_, by simp, ?_, by simp,
    ?_⟩
  · intro b hb
    simp [hb, e3]
  · simp [rlist_push_back, (l4 n).1, e_tl]
  · simp [(l4 n).2.1, e_ef]

/-- C20 (the code departs from the claim): the record `Exec` creates for a main
thread (its argument buffer allocated: `args` is `NULL` or `argl` is not
negative) starts with `joinable = 1`, `done = 0` and `interrupted = 0`, but its
`joiners` field is never assigned and holds whatever the heap held at the
address `malloc` returned; `CreateThread` assigns all four fields. -/
theorem Exec_joiners_unassigned (F : Nat) (s : Kernel) (cur task : Nat) (argl : Int)
    (args : Option Nat) (mt pt ap n : Nat) (h : s.pcb_freelist = some n)
    (hok : args = none ∨ 0 ≤ argl) :
    (∃ s1, Exec F s cur (some task) argl args mt pt ap = Except.ok (s1, (n : Int)) ∧
      (s1.heap pt).joinable = 1 ∧ (s1.heap pt).done = 0 ∧ (s1.heap pt).interrupted = 0 ∧
      (s1.heap pt).joiners = (s.heap pt).joiners) ∧
    (∀ P t2 argl2 args2 nt,
      ((CreateThread s P t2 argl2 args2 nt pt).1.heap pt).joinable = 1 ∧
      ((CreateThread s P t2 argl2 args2 nt pt).1.heap pt).done = 0 ∧
      ((CreateThread s P t2 argl2 args2 nt pt).1.heap pt).interrupted = 0 ∧
      ((CreateThread s P t2 argl2 args2 nt pt).1.heap pt).joiners = 0) := by
  obtain ⟨s1, e, _, hj, hd, hi, hjn, _⟩ :=
    Exec_thread_record F s cur task argl args mt pt ap n h hok
  refine ⟨⟨s1, e, hj, hd, hi, hjn⟩, ?_⟩
  intro P t2 argl2 args2 nt
  simp [CreateThread, set_ptcb]

theorem Exec_joiners_unassigned_witness :
    (dirty_heap.pcb_freelist = some 2 ∧ (dirty_heap.heap 202).joiners = 5 ∧
      ((none : Option Nat) = none ∨ (0 : Int) ≤ 0)) ∧
    (∃ s1, Exec 2 dirty_heap 1 (some 1) 0 none 102 202 302 = Except.ok (s1, ((2 : Nat) : Int)) ∧
      (s1.heap 202).joinable = 1 ∧ (s1.heap 202).done = 0 ∧ (s1.heap 202).interrupted = 0 ∧
      (s1.heap 202).joiners = (dirty_heap.heap 202).joiners) ∧
    (∀ P t2 argl2 args2 nt,
      ((CreateThread dirty_heap P t2 argl2 args2 nt 202).1.heap 202).joinable = 1 ∧
      ((CreateThread dirty_heap P t2 argl2 args2 nt 202).1.heap 202).done = 0 ∧
      ((CreateThread dirty_heap P t2 argl2 args2 nt 202).1.heap 202).interrupted = 0 ∧
      ((CreateThread dirty_heap P t2 argl2 args2 nt 202).1.heap 202).joiners = 0) :=
  ⟨⟨by decide, by decide, Or.inl rfl⟩,
    Exec_joiners_unassigned 2 dirty_heap 1 1 0 none 102 202 302 2 (by decide) (Or.inl rfl)⟩

/-! ## Threads: several joiners -/

theorem ThreadJoin_wait_depart (s : Kernel) (a : Nat) (e : Int)
    (hd : (s.heap a).done = 1) (hj : (s.heap a).joinable = 1)
    (hpos : (s.heap a).joiners ≠ 0) :
    ThreadJoin_wait s a (some e) =
      Outcome.ret
        (set_ptcb s a
          { s.heap a with
            joiners := (s.heap a).joiners - 1
            joinable := if (s.heap a).joiners - 1 = 0 then 0 else 1 })
        (0, some (s.heap a).exitval) := by
  have h1 : ¬ ((s.heap a).joinable = 1 ∧ (s.heap a).done = 0) := by
    rw [hd]; simp
  simp only [ThreadJoin_wait, h1, if_false, hpos, ThreadJoin_acquireexitval]
  by_cases h0 : (s.heap a).joiners - 1 = 0
  · simp only [set_ptcb, if_true, h0]
    congr 2
    funext b
    by_cases hb : b = a <;> simp [hb]
  · simp only [set_ptcb, if_true, h0, if_false]
    congr 2
    funext b
    by_cases hb : b = a
    · subst hb
      simp [hj]
    · simp [hb]

theorem join_depart_iterate (s1 : Kernel) (a : Nat) (e v : Int) (n : Nat)
    (hd : (s1.heap a).done = 1) (hj : (s1.heap a).joinable = 1)
    (hv : (s1.heap a).exitval = v) (hn : (s1.heap a).joiners = (n : Int)) (k : Nat)
    (hk : k ≤ n) (hn1 : 1 ≤ n) :
    ((Nat.iterate (join_depart a (some e)) k s1).heap a).done = 1 ∧
    ((Nat.iterate (join_depart a (some e)) k s1).heap a).exitval = v ∧
    ((Nat.iterate (join_depart a (some e)) k s1).heap a).joiners = (n : Int) - (k : Int) ∧
    ((Nat.iterate (join_depart a (some e)) k s1).heap a).joinable = (if k = n then 0 else 1) ∧
    ((Nat.iterate (join_depart a (some e)) k s1).heap a).thread = (s1.heap a).thread ∧
    (∀ q, ((Nat.iterate (join_depart a (some e)) k s1).PT q).threads_list =
      (s1.PT q).threads_list) ∧
    (∀ b, b ≠ a → (Nat.iterate (join_depart a (some e)) k s1).heap b = s1.heap b) := by
  induction k with
  | zero =>
    have : ¬ (0 = n) := by omega
    simp [hd, hj, hv, hn, this]
  | succ k ih =>
    obtain ⟨i1, i2, i3, i4, i5, i6, i7⟩ := ih (by omega)
    have hkn : ¬ (k = n) := by omega
    simp only [hkn, if_false] at i4
    have hpos : ((Nat.iterate (join_depart a (some e)) k s1).heap a).joiners ≠ 0 := by
      rw [i3]; omega
    have hw := ThreadJoin_wait_depart (Nat.iterate (join_depart a (some e)) k s1) a e i1 i4 hpos
    rw [Function.iterate_succ_apply']
    generalize Nat.iterate (join_depart a (some e)) k s1 = t at i1 i2 i3 i4 i5 i6 i7 hpos hw
    simp only [join_depart, hw, Outcome.state]
    refine ⟨by simp [set_ptcb, i1], by simp [set_ptcb, i2], ?_, ?_, by simp [set_ptcb, i5],
      fun q => by simpa [set_ptcb] using i6 q, fun b hb => by simpa [set_ptcb, hb] using i7 b hb⟩
    · simp only [set_ptcb, if_true, i3]
      push_cast
      ring
    · simp only [set_ptcb, if_true, i3]
      by_cases hl : k + 1 = n
      · have : (n : Int) - (k : Int) - 1 = 0 := by omega
        simp [hl, this]
      · have : ¬ ((n : Int) - (k : Int) - 1 = 0) := by omega
        simp [hl, this]

/-- Joiners of a record whose count is exact (it was 0 when the record was
created, as after `CreateThread`): with `n >= 1` joiners registered and
blocked on the joinable, not done record of thread `T`, so that its count is
`n`, a `ThreadExit(v)` of `T` that is not the last
thread ends in the terminal sleep; the `n` joiners, woken one after the other,
each return 0 with exit value `v`; `joinable` is still set before each of them
departs and is cleared once the last has departed, when the joiner count is 0
again; a join on that record after that returns -1. -/
theorem joiners_all_served (M F fuel : Nat) (s : Kernel) (P T : Nat) (v e : Int) (n : Nat)
    (hn : 1 ≤ n) (hj : (s.heap (s.owner_ptcb T)).joinable = 1)
    (hd : (s.heap (s.owner_ptcb T)).done = 0)
    (hreg : (s.heap (s.owner_ptcb T)).joiners = (n : Int))
    (hlast : count_not_done s P ≠ 1) :
    ThreadJoin_wait s (s.owner_ptcb T) (some e) = Outcome.blocked s ∧
    ∃ s1, ThreadExit M F (fuel + 1) s P T v = Outcome.exited s1 ∧
      (∀ k, k < n →
        ThreadJoin_wait (Nat.iterate (join_depart (s.owner_ptcb T) (some e)) k s1)
            (s.owner_ptcb T) (some e) =
          Outcome.ret (Nat.iterate (join_depart (s.owner_ptcb T) (some e)) (k + 1) s1)
            (0, some v) ∧
        ((Nat.iterate (join_depart (s.owner_ptcb T) (some e)) k s1).heap
          (s.owner_ptcb T)).joinable = 1) ∧
      ((Nat.iterate (join_depart (s.owner_ptcb T) (some e)) n s1).heap
        (s.owner_ptcb T)).joiners = 0 ∧
      ((Nat.iterate (join_depart (s.owner_ptcb T) (some e)) n s1).heap
        (s.owner_ptcb T)).joinable = 0 ∧
      (∀ T2 tid ev,
        find_ptcb (Nat.iterate (join_depart (s.owner_ptcb T) (some e)) n s1) P tid =
          some (s.owner_ptcb T) →
        ThreadJoin (Nat.iterate (join_depart (s.owner_ptcb T) (some e)) n s1) P T2 tid ev =
          Outcome.ret (Nat.iterate (join_depart (s.owner_ptcb T) (some e)) n s1) (-1, ev)) := by
  refine ⟨by simp [ThreadJoin_wait, hj, hd], ?_⟩
  have hrun : ThreadExit M F (fuel + 1) s P T v = ThreadExit_body s T v := by
    simp only [ThreadExit, hlast, if_false]
  have hb : ThreadExit_body s T v =
      Outcome.exited (set_ptcb s (s.owner_ptcb T)
        { s.heap (s.owner_ptcb T) with exitval := v, done := 1 }) := by
    simp only [ThreadExit_body, hj, if_true, ThreadSelf, set_ptcb]
    congr 2
    funext b
    by_cases hb : b = s.owner_ptcb T <;> simp [hb]
  refine ⟨_, hrun.trans hb, ?_⟩
  generalize hs1 : set_ptcb s (s.owner_ptcb T)
    { s.heap (s.owner_ptcb T) with exitval := v, done := 1 } = s1
  generalize ha : s.owner_ptcb T = a at *
  have d1 : (s1.heap a).done = 1 := by rw [← hs1]; simp [set_ptcb]
  have j1 : (s1.heap a).joinable = 1 := by rw [← hs1]; simp [set_ptcb, hj]
  have v1 : (s1.heap a).exitval = v := by rw [← hs1]; simp [set_ptcb]
  have n1 : (s1.heap a).joiners = (n : Int) := by rw [← hs1]; simp [set_ptcb, hreg]
  have it := join_depart_iterate s1 a e v n d1 j1 v1 n1
  refine ⟨?_, ?_, ?_, ?_⟩
  · intro k hk
    obtain ⟨i1, i2, i3, i4, _⟩ := it k (by omega) hn
    have hkn : ¬ (k = n) := by omega
    simp only [hkn, if_false] at i4
    have hpos : ((Nat.iterate (join_depart a (some e)) k s1).heap a).joiners ≠ 0 := by
      rw [i3]; omega
    have hw := ThreadJoin_wait_depart (Nat.iterate (join_depart a (some e)) k s1) a e i1 i4 hpos
    refine ⟨?_, i4⟩
    rw [Function.iterate_succ_apply']
    rw [hw, i2]
    simp only [join_depart, hw, Outcome.state]
  · rw [(it n (le_refl n) hn).2.2.1]; omega
  · rw [(it n (le_refl n) hn).2.2.2.1]; simp
  · intro T2 tid ev hf
    obtain ⟨i1, _, _, i4, _⟩ := it n (le_refl n) hn
    simp only [if_true] at i4
    unfold ThreadJoin
    by_cases h1 : tid = NOTHREAD ∨ tid = ThreadSelf T2
    · simp [h1]
    · simp [h1, hf, i1, i4]

theorem joiners_all_served_witness :
    (1 ≤ 2 ∧ (two_joiners.heap (two_joiners.owner_ptcb 111)).joinable = 1 ∧
      (two_joiners.heap (two_joiners.owner_ptcb 111)).done = 0 ∧
      (two_joiners.heap (two_joiners.owner_ptcb 111)).joiners = ((2 : Nat) : Int) ∧
      count_not_done two_joiners 1 ≠ 1 ∧ two_joiners.owner_ptcb 111 = 211 ∧
      find_ptcb two_joiners 1 111 = some 211) ∧
    ThreadJoin_wait two_joiners (two_joiners.owner_ptcb 111) (some 0) =
      Outcome.blocked two_joiners ∧
    ∃ s1, ThreadExit 4 2 (4 + 1) two_joiners 1 111 7 = Outcome.exited s1 ∧
      (∀ k, k < 2 →
        ThreadJoin_wait (Nat.iterate (join_depart (two_joiners.owner_ptcb 111) (some 0)) k s1)
            (two_joiners.owner_ptcb 111) (some 0) =
          Outcome.ret
            (Nat.iterate (join_depart (two_joiners.owner_ptcb 111) (some 0)) (k + 1) s1)
            (0, some 7) ∧
        ((Nat.iterate (join_depart (two_joiners.owner_ptcb 111) (some 0)) k s1).heap
          (two_joiners.owner_ptcb 111)).joinable = 1) ∧
      ((Nat.iterate (join_depart (two_joiners.owner_ptcb 111) (some 0)) 2 s1).heap
        (two_joiners.owner_ptcb 111)).joiners = 0 ∧
      ((Nat.iterate (join_depart (two_joiners.owner_ptcb 111) (some 0)) 2 s1).heap
        (two_joiners.owner_ptcb 111)).joinable = 0 ∧
      (∀ T2 tid ev,
        find_ptcb (Nat.iterate (join_depart (two_joiners.owner_ptcb 111) (some 0)) 2 s1) 1 tid =
          some (two_joiners.owner_ptcb 111) →
        ThreadJoin (Nat.iterate (join_depart (two_joiners.owner_ptcb 111) (some 0)) 2 s1)
            1 T2 tid ev =
          Outcome.ret (Nat.iterate (join_depart (two_joiners.owner_ptcb 111) (some 0)) 2 s1)
            (-1, ev)) :=
  ⟨⟨by decide, by decide, by decide, by decide, by decide, by decide, by decide⟩,
    joiners_all_served 4 2 4 two_joiners 1 111 7 0 2 (by decide) (by decide) (by decide)
      (by decide) (by decide)⟩

/-- C17 (the code departs from the claim): the joiner count of a record starts
at whatever the field held when the record was created, which is 0 after
`CreateThread` but the old heap contents `g` after `Exec`, that never assigns
`joiners`. With `g` not 0 and `n >= 1` joiners registered and blocked on the
joinable, not done record of thread `T` (count `g + n`), a `ThreadExit(v)` of
`T` that is not the last thread ends in the terminal sleep and the `n`
joiners each return 0 with exit value `v`; but after the last of them has
departed the count is `g`, not 0, `joinable` is still set, and a join issued
after that returns 0 with `v` instead of -1. -/
theorem joiners_left_over (M F fuel : Nat) (s : Kernel) (P T : Nat) (v e : Int) (n g : Nat)
    (hn : 1 ≤ n) (hg : 1 ≤ g) (hj : (s.heap (s.owner_ptcb T)).joinable = 1)
    (hd : (s.heap (s.owner_ptcb T)).done = 0)
    (hreg : (s.heap (s.owner_ptcb T)).joiners = (g : Int) + (n : Int))
    (hlast : count_not_done s P ≠ 1) :
    ThreadJoin_wait s (s.owner_ptcb T) (some e) = Outcome.blocked s ∧
    ∃ s1, ThreadExit M F (fuel + 1) s P T v = Outcome.exited s1 ∧
      (∀ k, k < n →
        ThreadJoin_wait (Nat.iterate (join_depart (s.owner_ptcb T) (some e)) k s1)
            (s.owner_ptcb T) (some e) =
          Outcome.ret (Nat.iterate (join_depart (s.owner_ptcb T) (some e)) (k + 1) s1)
            (0, some v)) ∧
      ((Nat.iterate (join_depart (s.owner_ptcb T) (some e)) n s1).heap
        (s.owner_ptcb T)).joiners = (g : Int) ∧
      ((Nat.iterate (join_depart (s.owner_ptcb T) (some e)) n s1).heap
        (s.owner_ptcb T)).joinable = 1 ∧
      (∀ T2 tid ev, tid ≠ NOTHREAD → tid ≠ ThreadSelf T2 →
        find_ptcb (Nat.iterate (join_depart (s.owner_ptcb T) (some e)) n s1) P tid =
          some (s.owner_ptcb T) →
        ThreadJoin (Nat.iterate (join_depart (s.owner_ptcb T) (some e)) n s1) P T2 tid
            (some ev) =
          Outcome.ret (Nat.iterate (join_depart (s.owner_ptcb T) (some e)) n s1)
            (0, some v)) := by
  refine ⟨by simp [ThreadJoin_wait, hj, hd], ?_⟩
  have hrun : ThreadExit M F (fuel + 1) s P T v = ThreadExit_body s T v := by
    simp only [ThreadExit, hlast, if_false]
  have hb : ThreadExit_body s T v =
      Outcome.exited (set_ptcb s (s.owner_ptcb T)
        { s.heap (s.owner_ptcb T) with exitval := v, done := 1 }) := by
    simp only [ThreadExit_body, hj, if_true, ThreadSelf, set_ptcb]
    congr 2
    funext b
    by_cases hb : b = s.owner_ptcb T <;> simp [hb]
  refine ⟨_, hrun.trans hb, ?_⟩
  generalize hs1 : set_ptcb s (s.owner_ptcb T)
    { s.heap (s.owner_ptcb T) with exitval := v, done := 1 } = s1
  generalize ha : s.owner_ptcb T = a at *
  have d1 : (s1.heap a).done = 1 := by rw [← hs1]; simp [set_ptcb]
  have j1 : (s1.heap a).joinable = 1 := by rw [← hs1]; simp [set_ptcb, hj]
  have v1 : (s1.heap a).exitval = v := by rw [← hs1]; simp [set_ptcb]
  have n1 : (s1.heap a).joiners = ((g + n : Nat) : Int) := by
    rw [← hs1]; simp [set_ptcb, hreg]
  have it := join_depart_iterate s1 a e v (g + n) d1 j1 v1 n1
  have hgn : 1 ≤ g + n := by omega
  refine ⟨?_, ?_, ?_, ?_⟩
  · intro k hk
    obtain ⟨i1, i2, i3, i4, _⟩ := it k (by omega) hgn
    have hkn : ¬ (k = g + n) := by omega
    simp only [hkn, if_false] at i4
    have hpos : ((Nat.iterate (join_depart a (some e)) k s1).heap a).joiners ≠ 0 := by
      rw [i3]; omega
    have hw := ThreadJoin_wait_depart (Nat.iterate (join_depart a (some e)) k s1) a e i1 i4 hpos
    rw [Function.iterate_succ_apply']
    rw [hw, i2]
    simp only [join_depart, hw, Outcome.state]
  · rw [(it n (by omega) hgn).2.2.1]; push_cast; omega
  · rw [(it n (by omega) hgn).2.2.2.1]
    have : ¬ (n = g + n) := by omega
    simp [this]
  · intro T2 tid ev h1 h2 hf
    obtain ⟨i1, i2, i3, i4, _⟩ := it n (by omega) hgn
    have hnn : ¬ (n = g + n) := by omega
    simp only [hnn, if_false] at i4
    have hpos : ((Nat.iterate (join_depart a (some e)) n s1).heap a).joiners ≠ 0 := by
      rw [i3]; push_cast; omega
    unfold ThreadJoin
    have h12 : ¬ (tid = NOTHREAD ∨ tid = ThreadSelf T2) := by
      rintro (h | h)
      · exact h1 h
      · exact h2 h
    simp [h12, hf, i1, i4, ThreadJoin_acquireexitval, hpos, i2]

theorem joiners_left_over_witness :
    (1 ≤ 1 ∧ 1 ≤ 5 ∧ (dirty_joiner.heap (dirty_joiner.owner_ptcb 102)).joinable = 1 ∧
      (dirty_joiner.heap (dirty_joiner.owner_ptcb 102)).done = 0 ∧
      (dirty_joiner.heap (dirty_joiner.owner_ptcb 102)).joiners =
        ((5 : Nat) : Int) + ((1 : Nat) : Int) ∧
      count_not_done dirty_joiner 2 ≠ 1 ∧ dirty_joiner.owner_ptcb 102 = 202 ∧
      find_ptcb dirty_joiner 2 102 = some 202 ∧
      (dirty_heap.heap 202).joiners = 5 ∧
      Exec 2 dirty_heap 1 (some 1) 0 none 102 202 302 =
        Except.ok (dirty_child, ((2 : Nat) : Int)) ∧
      (dirty_child.heap 202).joiners = 5 ∧
      ThreadJoin dirty_threads 2 112 102 (some 0) = Outcome.blocked dirty_joiner) ∧
    ThreadJoin_wait dirty_joiner (dirty_joiner.owner_ptcb 102) (some 0) =
      Outcome.blocked dirty_joiner ∧
    ∃ s1, ThreadExit 4 2 (4 + 1) dirty_joiner 2 102 7 = Outcome.exited s1 ∧
      (∀ k, k < 1 →
        ThreadJoin_wait (Nat.iterate (join_depart (dirty_joiner.owner_ptcb 102) (some 0)) k s1)
            (dirty_joiner.owner_ptcb 102) (some 0) =
          Outcome.ret
            (Nat.iterate (join_depart (dirty_joiner.owner_ptcb 102) (some 0)) (k + 1) s1)
            (0, some 7)) ∧
      ((Nat.iterate (join_depart (dirty_joiner.owner_ptcb 102) (some 0)) 1 s1).heap
        (dirty_joiner.owner_ptcb 102)).joiners = ((5 : Nat) : Int) ∧
      ((Nat.iterate (join_depart (dirty_joiner.owner_ptcb 102) (some 0)) 1 s1).heap
        (dirty_joiner.owner_ptcb 102)).joinable = 1 ∧
      (∀ T2 tid ev, tid ≠ NOTHREAD → tid ≠ ThreadSelf T2 →
        find_ptcb (Nat.iterate (join_depart (dirty_joiner.owner_ptcb 102) (some 0)) 1 s1) 2 tid =
          some (dirty_joiner.owner_ptcb 102) →
        ThreadJoin (Nat.iterate (join_depart (dirty_joiner.owner_ptcb 102) (some 0)) 1 s1)
            2 T2 tid (some ev) =
          Outcome.ret (Nat.iterate (join_depart (dirty_joiner.owner_ptcb 102) (some 0)) 1 s1)
            (0, some 7)) :=
  ⟨⟨by decide, by decide, by decide, by decide, by decide, by decide, by decide, by decide,
      by decide, rfl, by decide, rfl⟩,
    joiners_left_over 4 2 4 dirty_joiner 2 102 7 0 1 5 (by decide) (by decide) (by decide)
      (by decide) (by decide) (by decide)⟩


/-! ## Process termination: file handles -/

theorem close_FIDT_eq (F c : Nat) (s : Kernel) :
    close_FIDT F c s =
      { s with
        PT := fun q =>
          if q = c then
            { s.PT c with FIDT := fun j => if j < F then none else (s.PT c).FIDT j }
          else s.PT q
        refcount := fun g =>
          s.refcount g - (List.range F).countP (fun i => decide ((s.PT c).FIDT i = some g)) } := by
  induction F with
  | zero =>
    simp only [close_FIDT, List.range_zero, List.foldl_nil, List.countP_nil, Nat.sub_zero,
      Nat.not_lt_zero, if_false]
    cases s
    congr
    funext q
    by_cases h : q = c <;> simp [h]
  | succ n ih =>
    unfold close_FIDT at ih ⊢
    rw [List.range_succ, List.foldl_append, ih]
    simp only [List.foldl_cons, List.foldl_nil, close_step, List.countP_append,
      List.countP_cons, List.countP_nil, if_true, lt_irrefl, if_false]
    cases hf : (s.PT c).FIDT n with
    | none =>
      simp only [hf]
      congr
      funext q
      by_cases hq : q = c
      · subst hq
        simp only [if_true]
        congr
        funext j
        by_cases hj : j = n
        · subst hj; simp [hf]
        · by_cases hj2 : j < n
          · have : j < n + 1 := by omega
            simp [hj2, this]
          · have : ¬ j < n + 1 := by omega
            simp [hj2, this]
      · simp [hq]
    | some f =>
      simp only [hf, FCB_decref, set_pcb]
      congr
      · funext q
        by_cases hq : q = c
        · subst hq
          simp only [if_true]
          congr
          funext j
          by_cases hj : j = n
          · subst hj; simp
          · by_cases hj2 : j < n
            · have : j < n + 1 := by omega
              simp [hj, hj2, this]
            · have : ¬ j < n + 1 := by omega
              simp [hj, hj2, this]
        · simp [hq]
      · funext g
        by_cases hg : g = f
        · subst hg; simp; omega
        · have : f ≠ g := fun h => hg h.symm
          simp [hg, this]

theorem same_files_refl (s : Kernel) : same_files s s := ⟨rfl, fun _ => rfl⟩

theorem same_files_trans {s t u : Kernel} (h1 : same_files s t) (h2 : same_files t u) :
    same_files s u :=
  ⟨h2.1.trans h1.1, fun q => (h2.2 q).trans (h1.2 q)⟩

theorem reclaim_step_files (c t : Nat) (s : Kernel) (a : Nat) :
    same_files s (reclaim_step c t s a) := by
  unfold reclaim_step
  split
  · split
    · cases h : (s.heap a).args <;> exact ⟨rfl, fun _ => rfl⟩
    · exact ⟨rfl, fun _ => rfl⟩
  · exact same_files_refl s

theorem reclaim_threads_files (c t : Nat) (s : Kernel) :
    same_files s (reclaim_threads c t s) := by
  unfold reclaim_threads
  generalize (s.PT c).threads_list = l
  induction l generalizing s with
  | nil => exact same_files_refl s
  | cons a l ih =>
    simp only [List.foldl_cons]
    exact same_files_trans (reclaim_step_files c t s a) (ih _)

theorem free_own_args_files (s : Kernel) (c t : Nat) : same_files s (free_own_args s c t) := by
  unfold free_own_args
  split
  · cases h : (s.heap (s.owner_ptcb t)).args <;> exact ⟨rfl, fun _ => rfl⟩
  · exact same_files_refl s

theorem reparent_state_files (X i : Nat) (s : Kernel) : same_files s (reparent_state X i s) := by
  refine ⟨rfl, fun q => ?_⟩
  unfold reparent_state
  by_cases hq : q = X
  · subst hq
    by_cases hm : q ∈ (s.PT q).children_list <;> simp [hm]
  · by_cases hqi : q = i
    · subst hqi
      by_cases hm : q ∈ (s.PT X).children_list <;> simp [hq, hm]
    · by_cases hm : q ∈ (s.PT X).children_list <;> simp [hq, hqi, hm]

theorem splice_state_files (X i : Nat) (s : Kernel) : same_files s (splice_state X i s) := by
  unfold splice_state
  split
  · exact same_files_refl s
  · refine ⟨rfl, fun q => ?_⟩
    by_cases hq : q = X
    · subst hq
      by_cases hx : q = i
      · subst hx; simp
      · simp [hx]
    · by_cases hqi : q = i
      · subst hqi; simp [hq]
      · simp [hq, hqi]

theorem notify_parent_files (X : Nat) (s : Kernel) : same_files s (notify_parent X s) := by
  unfold notify_parent
  cases hp : (s.PT X).parent with
  | none => exact same_files_refl s
  | some par =>
    refine ⟨rfl, fun q => ?_⟩
    by_cases hq : q = par
    · subst hq; simp
    · simp [hq]

theorem Exit_finish_files (X T : Nat) (v : Int) (s : Kernel) :
    same_files s (Exit_finish s X T v) := by
  refine ⟨rfl, fun q => ?_⟩
  unfold Exit_finish
  by_cases hq : q = X
  · subst hq; simp [free, remove_ptcb_node]
  · simp [hq, free, remove_ptcb_node]

/-- The file table and the reference counts after a completed teardown of `X`
(other than init). -/
theorem Exit_teardown_files (F fuel : Nat) (s s1 : Kernel) (X T : Nat) (v : Int)
    (hX : X ≠ 1) (h : Exit_teardown F fuel s X T v = Outcome.exited s1) :
    (∀ q, (s1.PT q).FIDT =
      if q = X then (fun j => if j < F then none else (s.PT X).FIDT j) else (s.PT q).FIDT) ∧
    (∀ g, s1.refcount g =
      s.refcount g - (List.range F).countP (fun i => decide ((s.PT X).FIDT i = some g))) := by
  have e := Exit_teardown_exited F fuel s s1 X T v hX h
  have h1 : same_files s (free_own_args (reclaim_threads X T s) X T) :=
    same_files_trans (reclaim_threads_files X T s) (free_own_args_files _ X T)
  have h2 : same_files (close_FIDT F X (free_own_args (reclaim_threads X T s) X T)) s1 := by
    rw [e]
    exact same_files_trans (same_files_trans (same_files_trans (reparent_state_files X 1 _)
      (splice_state_files X 1 _)) (notify_parent_files X _)) (Exit_finish_files X T v _)
  generalize free_own_args (reclaim_threads X T s) X T = pre at h1 h2
  rw [close_FIDT_eq] at h2
  obtain ⟨r1, f1⟩ := h1
  obtain ⟨r2, f2⟩ := h2
  refine ⟨?_, ?_⟩
  · intro q
    rw [f2 q]
    by_cases hq : q = X
    · simp [hq, f1 X]
    · simp [hq, f1 q]
  · intro g
    rw [r2]
    simp [r1, f1 X]

theorem GetPid_ne_one (X : Nat) (hX : X ≠ 1) : GetPid X ≠ 1 := by
  simp only [GetPid, get_pid]
  intro hc
  exact hX (by exact_mod_cast hc)

theorem Exit_unfold (M F fuel : Nat) (s : Kernel) (X T : Nat) (v : Int)
    (hX : X ≠ 1) (hflag : (s.PT X).exitflag ≠ 1) :
    Exit M F (fuel + 1) s X T v =
      Exit_barrier F fuel (Exit_publish (set_pcb s X { s.PT X with exitflag := 1 }) T v)
        X T v := by
  simp only [Exit, hflag, if_false, Exit_body, GetPid_ne_one X hX]

/-- A process-level `Exit` of a process other than init that passes the
barrier reaches the terminal sleep, given init's slot is in use and the
loop bound covers the children. -/
theorem Exit_reaches_sleep (M F fuel : Nat) (s : Kernel) (A T : Nat) (v : Int)
    (hA : A ≠ 1) (hinit : (s.PT 1).pstate ≠ pid_state.FREE)
    (hflag : (s.PT A).exitflag ≠ 1)
    (hbar : count_barrier s A T = 1) (hfuel : (s.PT A).children_list.length < fuel) :
    ∃ s1, Exit M F fuel s A T v = Outcome.exited s1 := by
  obtain ⟨fuel0, rfl⟩ : ∃ k, fuel = k + 1 := ⟨fuel - 1, by omega⟩
  have hcb := count_barrier_publish s A T v { s.PT A with exitflag := 1 } rfl
  obtain ⟨e1, _, _, _⟩ := Exit_publish_PT (set_pcb s A { s.PT A with exitflag := 1 }) T v
  rw [Exit_unfold M F fuel0 s A T v hA hflag]
  simp only [Exit_barrier, hcb, hbar, if_true]
  exact Exit_teardown_progress F fuel0
    (Exit_publish (set_pcb s A { s.PT A with exitflag := 1 }) T v) A T v hA
    (by rw [e1]; simpa [hA.symm] using hinit)
    (by rw [e1]; simp; omega)

/-- The file table and the reference counts after a completed process-level
`Exit` of `X` (other than init). -/
theorem Exit_files (M F fuel : Nat) (s s1 : Kernel) (X T : Nat) (v : Int)
    (hX : X ≠ 1) (hflag : (s.PT X).exitflag ≠ 1)
    (h : Exit M F fuel s X T v = Outcome.exited s1) :
    (∀ q, (s1.PT q).FIDT =
      if q = X then (fun j => if j < F then none else (s.PT X).FIDT j) else (s.PT q).FIDT) ∧
    (∀ g, s1.refcount g =
      s.refcount g - (List.range F).countP (fun i => decide ((s.PT X).FIDT i = some g))) := by
  cases fuel with
  | zero => simp [Exit] at h
  | succ fuel =>
    rw [Exit_unfold M F fuel s X T v hX hflag] at h
    simp only [Exit_barrier] at h
    split at h
    · obtain ⟨e1, _, _, e4⟩ := Exit_publish_PT (set_pcb s X { s.PT X with exitflag := 1 }) T v
      obtain ⟨f1, f2⟩ := Exit_teardown_files F fuel _ s1 X T v hX h
      refine ⟨?_, ?_⟩
      · intro q
        rw [f1 q, e1]
        by_cases hq : q = X
        · subst hq; simp
        · simp [hq]
      · intro g
        rw [f2 g, e1, e4]
        simp
    · simp at h

theorem Exec_exitflag (F : Nat) (s : Kernel) (cur : Nat) (call : Option Nat) (argl : Int)
    (args : Option Nat) (mt pt ap n : Nat) (h : s.pcb_freelist = some n)
    (hok : call = none ∨ args = none ∨ 0 ≤ argl) :
    ∃ s1, Exec F s cur call argl args mt pt ap = Except.ok (s1, (n : Int)) ∧
      (s1.PT n).exitflag = 0 := by
  rw [Exec_eq F s cur call argl args mt pt ap n h hok]
  refine ⟨_, rfl, ?_⟩
  generalize hs2 : set_pcb (acquire_PCB s).1 n { (acquire_PCB s).1.PT n with exitflag := 0 } = s2
  have e_ef : (s2.PT n).exitflag = 0 := by rw [← hs2]; simp
  obtain ⟨_, _, _, l4⟩ := Exec_link_heap F s2 cur n
  generalize Exec_link F s2 cur n = s3 at l4
  unfold Exec_spawn
  cases call with
  | none => simp [(l4 n).2.1, e_ef]
  | some task => simp [set_ptcb, (l4 n).2.1, e_ef]

/-- C18: a child created by `Exec` (pid at least 2) that then runs `Exit`, with
nothing else touching the file tables in between, leaves the reference count
of every handle at its value before the `Exec`, whatever the number of slots
the handle occupies, and leaves every slot of the child's table empty.
Moreover the `Exit` of the new process by its main thread does reach the
terminal sleep when the slot had no thread records left and init's slot is in
use. -/
theorem Exec_Exit_refcount (M F : Nat) (s : Kernel) (cur : Nat) (call : Option Nat)
    (argl : Int) (args : Option Nat) (mt pt ap : Nat) (s1 : Kernel) (pid : Int)
    (hE : Exec F s cur call argl args mt pt ap = Except.ok (s1, pid)) (hpid : 2 ≤ pid) :
    (∀ fuel T v s2, Exit M F fuel s1 pid.toNat T v = Outcome.exited s2 →
      (∀ g, s2.refcount g = s.refcount g) ∧
      (∀ i, i < F → (s2.PT pid.toNat).FIDT i = none)) ∧
    (call.isSome → (s.PT pid.toNat).threads_list = [] →
      (s.PT 1).pstate ≠ pid_state.FREE →
      ∀ fuel v, (s1.PT pid.toNat).children_list.length < fuel →
        ∃ s2, Exit M F fuel s1 pid.toNat mt v = Outcome.exited s2) := by
  obtain ⟨n, hf, hn⟩ := Exec_ok_inv F s cur call argl args mt pt ap s1 pid hE
  subst hn
  have hn2 : 2 ≤ n := by omega
  have hn1 : n ≠ 1 := by omega
  have hok := Exec_ok_args F s cur call argl args mt pt ap s1 _ hE
  obtain ⟨s1a, ea, _, _, _, hps, hfd, hrc⟩ :=
    Exec_fields F s cur call argl args mt pt ap n hf hok
  obtain ⟨s1b, eb, hef⟩ := Exec_exitflag F s cur call argl args mt pt ap n hf hok
  rw [ea] at hE eb
  simp only [Except.ok.injEq, Prod.mk.injEq, and_true] at hE eb
  subst hE
  subst eb
  have hflag : (s1a.PT n).exitflag ≠ 1 := by rw [hef]; decide
  rw [Int.toNat_ofNat]
  refine ⟨?_, ?_⟩
  · intro fuel T v s2 hX
    obtain ⟨f1, f2⟩ := Exit_files M F fuel s1a s2 n T v hn1 hflag hX
    refine ⟨?_, ?_⟩
    · intro g
      rw [f2 g, hrc g, hfd n]
      simp only [hn2, if_true, and_self]
      have hc : (List.range F).countP
            (fun i => decide ((if i < F then (s.PT cur).FIDT i else (s.PT n).FIDT i) = some g)) =
          (List.range F).countP (fun i => decide ((s.PT cur).FIDT i = some g)) := by
        apply List.countP_congr
        intro i hi
        have : i < F := List.mem_range.mp hi
        simp [this]
      rw [hc]
      omega
    · intro i hi
      rw [f1 n]
      simp [hi]
  · intro hcall htl hinit fuel v hfuel
    obtain ⟨task, rfl⟩ := Option.isSome_iff_exists.mp hcall
    obtain ⟨s1c, ec, t1, _, t3, _, _, _, t7, t8, t9, _, _⟩ :=
      Exec_thread_record F s cur task argl args mt pt ap n hf (hok.resolve_left (by simp))
    rw [ea] at ec
    simp only [Except.ok.injEq, Prod.mk.injEq, and_true] at ec
    subst ec
    have hbar : count_barrier s1a n mt = 1 := by
      simp [count_barrier, t9, htl, t3]
    have hinit1 : (s1a.PT 1).pstate ≠ pid_state.FREE := by
      rw [hps 1]; simp [hn1.symm, hinit]
    exact Exit_reaches_sleep M F fuel s1a n mt v hn1 hinit1 hflag hbar hfuel

theorem Exec_Exit_refcount_witness :
    (Exec 2 dup_table 1 (some 1) 0 none 102 202 302 =
        Except.ok (Exec_state (Exec 2 dup_table 1 (some 1) 0 none 102 202 302), 2) ∧
      (2 : Int) ≤ 2 ∧ dup_table.refcount 7 = 2 ∧
      (Exec_state (Exec 2 dup_table 1 (some 1) 0 none 102 202 302)).refcount 7 = 4) ∧
    (∀ fuel T v s2,
      Exit 4 2 fuel (Exec_state (Exec 2 dup_table 1 (some 1) 0 none 102 202 302))
          (2 : Int).toNat T v = Outcome.exited s2 →
      (∀ g, s2.refcount g = dup_table.refcount g) ∧
      (∀ i, i < 2 → (s2.PT (2 : Int).toNat).FIDT i = none)) ∧
    ((some 1 : Option Nat).isSome → (dup_table.PT (2 : Int).toNat).threads_list = [] →
      (dup_table.PT 1).pstate ≠ pid_state.FREE →
      ∀ fuel v,
        ((Exec_state (Exec 2 dup_table 1 (some 1) 0 none 102 202 302)).PT
          (2 : Int).toNat).children_list.length < fuel →
        ∃ s2, Exit 4 2 fuel (Exec_state (Exec 2 dup_table 1 (some 1) 0 none 102 202 302))
          (2 : Int).toNat 102 v = Outcome.exited s2) :=
  ⟨⟨rfl, by decide, by decide, by decide⟩,
    Exec_Exit_refcount 4 2 dup_table 1 (some 1) 0 none 102 202 302 _ 2 rfl (by decide)⟩

/-! ## Threads: the last thread -/

theorem same_threads_refl (s : Kernel) : same_threads s s :=
  ⟨rfl, rfl, rfl, fun _ => ⟨rfl, rfl⟩⟩

theorem same_threads_trans {s t u : Kernel} (h1 : same_threads s t) (h2 : same_threads t u) :
    same_threads s u := by
  obtain ⟨a1, b1, c1, d1⟩ := h1
  obtain ⟨a2, b2, c2, d2⟩ := h2
  exact ⟨a2.trans a1, b2.trans b1, c2.trans c1,
    fun q => ⟨(d2 q).1.trans (d1 q).1, (d2 q).2.trans (d1 q).2⟩⟩

theorem set_pcb_same_threads (s : Kernel) (p : Nat) (pcb : PCB)
    (h1 : pcb.threads_list = (s.PT p).threads_list)
    (h2 : pcb.main_thread = (s.PT p).main_thread) : same_threads s (set_pcb s p pcb) := by
  refine ⟨rfl, rfl, rfl, fun q => ?_⟩
  by_cases hq : q = p
  · subst hq; simp [h1, h2]
  · simp [hq]

theorem reparent_children_threads (cur : Nat) (initpcb : Option Nat) (fuel : Nat) :
    ∀ (s : Kernel),
      (∀ s4 u, reparent_children cur initpcb fuel s = Outcome.ret s4 u → same_threads s s4) ∧
      (∀ s4, reparent_children cur initpcb fuel s ≠ Outcome.blocked s4) ∧
      (∀ s4, reparent_children cur initpcb fuel s ≠ Outcome.exited s4) := by
  induction fuel with
  | zero =>
    intro s
    simp only [reparent_children]
    split
    · refine ⟨?_, by simp, by simp⟩
      intro s4 u h
      simp only [Outcome.ret.injEq] at h
      rw [← h.1]
      exact same_threads_refl s
    · refine ⟨by simp, by simp, by simp⟩
  | succ fuel ih =>
    intro s
    cases hL : (s.PT cur).children_list with
    | nil =>
      simp only [reparent_children, hL]
      refine ⟨?_, by simp, by simp⟩
      intro s4 u h
      simp only [Outcome.ret.injEq] at h
      rw [← h.1]
      exact same_threads_refl s
    | cons c rest =>
      cases initpcb with
      | none =>
        simp only [reparent_children, hL]
        refine ⟨by simp, by simp, by simp⟩
      | some i =>
        simp only [reparent_children, hL]
        have k1 := set_pcb_same_threads s cur { s.PT cur with children_list := rest } rfl rfl
        generalize set_pcb s cur { s.PT cur with children_list := rest } = t1 at k1
        have k2 := set_pcb_same_threads t1 c { t1.PT c with parent := some i } rfl rfl
        generalize set_pcb t1 c { t1.PT c with parent := some i } = t2 at k2
        have k3 := set_pcb_same_threads t2 i
          { t2.PT i with children_list := rlist_push_front (t2.PT i).children_list c } rfl rfl
        generalize set_pcb t2 i
          { t2.PT i with children_list := rlist_push_front (t2.PT i).children_list c } = t3 at k3
        obtain ⟨j1, j2, j3⟩ := ih t3
        refine ⟨?_, j2, j3⟩
        intro s4 u h
        exact same_threads_trans (same_threads_trans (same_threads_trans k1 k2) k3) (j1 s4 u h)

theorem splice_exited_threads (cur : Nat) (initpcb : Option Nat) (s : Kernel) :
    (∀ s5 u, splice_exited cur initpcb s = Outcome.ret s5 u → same_threads s s5) ∧
    (∀ s5, splice_exited cur initpcb s ≠ Outcome.blocked s5) ∧
    (∀ s5, splice_exited cur initpcb s ≠ Outcome.exited s5) := by
  unfold splice_exited
  split
  · refine ⟨?_, by simp, by simp⟩
    intro s5 u h
    simp only [Outcome.ret.injEq] at h
    rw [← h.1]
    exact same_threads_refl s
  · cases initpcb with
    | none => exact ⟨by simp, by simp, by simp⟩
    | some i =>
      refine ⟨?_, by simp, by simp⟩
      intro s5 u h
      simp only [Outcome.ret.injEq] at h
      rw [← h.1]
      have k1 := set_pcb_same_threads s i
        { s.PT i with exited_list := (s.PT i).exited_list ++ (s.PT cur).exited_list } rfl rfl
      generalize set_pcb s i
        { s.PT i with exited_list := (s.PT i).exited_list ++ (s.PT cur).exited_list } = t1 at k1
      exact same_threads_trans k1
        (set_pcb_same_threads t1 cur { t1.PT cur with exited_list := [] } rfl rfl)

theorem notify_parent_threads (X : Nat) (s : Kernel) : same_threads s (notify_parent X s) := by
  unfold notify_parent
  cases hp : (s.PT X).parent with
  | none => exact same_threads_refl s
  | some par => exact set_pcb_same_threads s par _ rfl rfl

theorem close_FIDT_threads (F c : Nat) (s : Kernel) : same_threads s (close_FIDT F c s) := by
  rw [close_FIDT_eq]
  refine ⟨rfl, rfl, rfl, fun q => ?_⟩
  by_cases hq : q = c
  · subst hq; simp
  · simp [hq]

/-- A teardown that ends in the terminal sleep, whatever the process: the
final state is `Exit_finish` of a state that carries the thread records, the
`free` log and the thread lists the reclaim phase left. The teardown never
suspends. -/
theorem Exit_teardown_shape (F fuel : Nat) (s : Kernel) (P T : Nat) (v : Int) :
    (∀ s1, Exit_teardown F fuel s P T v = Outcome.exited s1 →
      ∃ t, s1 = Exit_finish t P T v ∧
        same_threads (free_own_args (reclaim_threads P T s) P T) t) ∧
    (∀ s1, Exit_teardown F fuel s P T v ≠ Outcome.blocked s1) := by
  unfold Exit_teardown
  simp only []
  have k0 := close_FIDT_threads F P (free_own_args (reclaim_threads P T s) P T)
  generalize close_FIDT F P (free_own_args (reclaim_threads P T s) P T) = s3 at k0
  obtain ⟨r1, r2, r3⟩ := reparent_children_threads P (get_pcb s3 1) fuel s3
  cases hr : reparent_children P (get_pcb s3 1) fuel s3 with
  | ret s4 u =>
    simp only []
    obtain ⟨p1, p2, p3⟩ := splice_exited_threads P (get_pcb s3 1) s4
    cases hs : splice_exited P (get_pcb s3 1) s4 with
    | ret s5 u5 =>
      simp only []
      refine ⟨?_, by simp⟩
      intro s1 h
      simp only [Outcome.exited.injEq] at h
      refine ⟨notify_parent P s5, h.symm, ?_⟩
      exact same_threads_trans (same_threads_trans (same_threads_trans k0 (r1 s4 u hr))
        (p1 s5 u5 hs)) (notify_parent_threads P s5)
    | blocked s5 => exact absurd hs (p2 s5)
    | exited s5 => exact absurd hs (p3 s5)
    | fault f => simp
    | out_of_fuel => simp
  | blocked s4 => exact absurd hr (r2 s4)
  | exited s4 => exact absurd hr (r3 s4)
  | fault f => simp
  | out_of_fuel => simp

/-! ## Process termination: the barrier -/

theorem countP_eq_one_iff_of_mem (l : List Nat) (p : Nat → Bool) (x : Nat) (hnd : l.Nodup)
    (hx : x ∈ l) (hp : p x = true) :
    l.countP p = 1 ↔ ∀ a, a ∈ l → a ≠ x → p a = false := by
  induction l with
  | nil => simp at hx
  | cons b l ih =>
    have hnd2 := List.nodup_cons.mp hnd
    by_cases hb : b = x
    · subst hb
      rw [List.countP_cons_of_pos _ _ hp]
      constructor
      · intro h a ha hab
        have h0 : l.countP p = 0 := by omega
        rw [List.countP_eq_zero] at h0
        rcases List.mem_cons.mp ha with h1 | h1
        · exact absurd h1 hab
        · simpa using h0 a h1
      · intro h
        have h0 : l.countP p = 0 := by
          rw [List.countP_eq_zero]
          intro a ha
          have hab : a ≠ b := fun e => hnd2.1 (e ▸ ha)
          simp [h a (List.mem_cons_of_mem _ ha) hab]
        omega
    · have hxl : x ∈ l := by
        rcases List.mem_cons.mp hx with h1 | h1
        · exact absurd h1.symm hb
        · exact h1
      have ih1 := ih hnd2.2 hxl
      have hpos : 0 < l.countP p := List.countP_pos_iff.mpr ⟨x, hxl, hp⟩
      by_cases hpb : p b = true
      · rw [List.countP_cons_of_pos _ _ hpb]
        constructor
        · intro h; omega
        · intro h
          have := h b (List.mem_cons_self _ _) hb
          rw [hpb] at this
          cases this
      · rw [List.countP_cons_of_neg _ _ hpb, ih1]
        constructor
        · intro h a ha hax
          rcases List.mem_cons.mp ha with h1 | h1
          · subst h1; simpa using hpb
          · exact h a h1 hax
        · intro h a ha hax
          exact h a (List.mem_cons_of_mem _ ha) hax

theorem count_barrier_one_iff (s : Kernel) (P T : Nat)
    (hnd : (s.PT P).threads_list.Nodup) (hown : s.owner_ptcb T ∈ (s.PT P).threads_list)
    (hthr : (s.heap (s.owner_ptcb T)).thread = T)
    (huniq : ∀ a, a ∈ (s.PT P).threads_list → (s.heap a).thread = T → a = s.owner_ptcb T) :
    count_barrier s P T = 1 ↔
      ∀ a, a ∈ (s.PT P).threads_list → a ≠ s.owner_ptcb T → (s.heap a).done ≠ 0 := by
  unfold count_barrier
  rw [countP_eq_one_iff_of_mem _ _ (s.owner_ptcb T) hnd hown (by simp [hthr])]
  constructor
  · intro h a ha hne
    have := h a ha hne
    simp only [decide_eq_false_iff_not, not_or] at this
    exact this.1
  · intro h a ha hne
    simp only [decide_eq_false_iff_not, not_or]
    exact ⟨h a ha hne, fun ht => hne (huniq a ha ht)⟩

/-- C14: for a caller whose record is linked once in its process's thread list,
the barrier loop of `Exit` is left (the count is 1) exactly when every other
record of the list has `done` set; `Exit` is suspended at the barrier exactly
otherwise; and an `Exit` that gets past the barrier to the ZOMBIE assignment
does so in a state where every other record of the process is done. -/
theorem barrier_iff_others_done (F fuel : Nat) (s : Kernel) (P T : Nat) (v : Int)
    (hnd : (s.PT P).threads_list.Nodup) (hown : s.owner_ptcb T ∈ (s.PT P).threads_list)
    (hthr : (s.heap (s.owner_ptcb T)).thread = T)
    (huniq : ∀ a, a ∈ (s.PT P).threads_list → (s.heap a).thread = T → a = s.owner_ptcb T) :
    (count_barrier s P T = 1 ↔
      ∀ a, a ∈ (s.PT P).threads_list → a ≠ s.owner_ptcb T → (s.heap a).done ≠ 0) ∧
    ((∃ s1, Exit_barrier F fuel s P T v = Outcome.blocked s1) ↔
      ¬ ∀ a, a ∈ (s.PT P).threads_list → a ≠ s.owner_ptcb T → (s.heap a).done ≠ 0) ∧
    (∀ s1, Exit_barrier F fuel s P T v = Outcome.exited s1 →
      (s1.PT P).pstate = pid_state.ZOMBIE ∧
      ∀ a, a ∈ (s.PT P).threads_list → a ≠ s.owner_ptcb T → (s.heap a).done ≠ 0) ∧
    (∀ M fuel2 s1, P ≠ 1 → (s.PT P).exitflag ≠ 1 →
      Exit M F fuel2 s P T v = Outcome.exited s1 →
      (s1.PT P).pstate = pid_state.ZOMBIE ∧
      ∀ a, a ∈ (s.PT P).threads_list → a ≠ s.owner_ptcb T → (s.heap a).done ≠ 0) := by
  have hiff := count_barrier_one_iff s P T hnd hown hthr huniq
  have hz : ∀ (fuel1 : Nat) (s0 s1 : Kernel),
      Exit_teardown F fuel1 s0 P T v = Outcome.exited s1 →
      (s1.PT P).pstate = pid_state.ZOMBIE := by
    intro fuel1 s0 s1 h
    obtain ⟨t, ht, _⟩ := (Exit_teardown_shape F fuel1 s0 P T v).1 s1 h
    rw [ht, (Exit_finish_fields P T v t P).2.2.2.1]
    simp
  refine ⟨hiff, ?_, ?_, ?_⟩
  · rw [← hiff]
    unfold Exit_barrier
    by_cases hc : count_barrier s P T = 1
    · simp only [hc, if_true, not_true_eq_false, iff_false, not_exists]
      intro s1
      exact (Exit_teardown_shape F fuel s P T v).2 s1
    · simp only [hc, if_false, not_false_eq_true, iff_true]
      exact ⟨s, rfl⟩
  · intro s1 h
    unfold Exit_barrier at h
    by_cases hc : count_barrier s P T = 1
    · simp only [hc, if_true] at h
      exact ⟨hz fuel s s1 h, hiff.mp hc⟩
    · simp [hc] at h
  · intro M fuel2 s1 hP hflag h
    cases fuel2 with
    | zero => simp [Exit] at h
    | succ fuel2 =>
      rw [Exit_unfold M F fuel2 s P T v hP hflag] at h
      have hcb := count_barrier_publish s P T v { s.PT P with exitflag := 1 } rfl
      simp only [Exit_barrier, hcb] at h
      by_cases hc : count_barrier s P T = 1
      · simp only [hc, if_true] at h
        exact ⟨hz fuel2 _ s1 h, hiff.mp hc⟩
      · simp [hc] at h

theorem barrier_iff_others_done_witness :
    ((others_done.PT 1).threads_list.Nodup ∧
      others_done.owner_ptcb 101 ∈ (others_done.PT 1).threads_list ∧
      (others_done.heap (others_done.owner_ptcb 101)).thread = 101 ∧
      (∀ a, a ∈ (others_done.PT 1).threads_list → (others_done.heap a).thread = 101 →
        a = others_done.owner_ptcb 101) ∧
      (others_done.PT 1).threads_list = [201, 211, 212]) ∧
    (count_barrier others_done 1 101 = 1 ↔
      ∀ a, a ∈ (others_done.PT 1).threads_list → a ≠ others_done.owner_ptcb 101 →
        (others_done.heap a).done ≠ 0) ∧
    ((∃ s1, Exit_barrier 2 5 others_done 1 101 0 = Outcome.blocked s1) ↔
      ¬ ∀ a, a ∈ (others_done.PT 1).threads_list → a ≠ others_done.owner_ptcb 101 →
        (others_done.heap a).done ≠ 0) ∧
    (∀ s1, Exit_barrier 2 5 others_done 1 101 0 = Outcome.exited s1 →
      (s1.PT 1).pstate = pid_state.ZOMBIE ∧
      ∀ a, a ∈ (others_done.PT 1).threads_list → a ≠ others_done.owner_ptcb 101 →
        (others_done.heap a).done ≠ 0) ∧
    (∀ M fuel2 s1, 1 ≠ 1 → (others_done.PT 1).exitflag ≠ 1 →
      Exit M 2 fuel2 others_done 1 101 0 = Outcome.exited s1 →
      (s1.PT 1).pstate = pid_state.ZOMBIE ∧
      ∀ a, a ∈ (others_done.PT 1).threads_list → a ≠ others_done.owner_ptcb 101 →
        (others_done.heap a).done ≠ 0) :=
  have hl : (others_done.PT 1).threads_list = [201, 211, 212] := by decide
  have huniq : ∀ a, a ∈ (others_done.PT 1).threads_list → (others_done.heap a).thread = 101 →
      a = others_done.owner_ptcb 101 := by
    intro a ha ht
    rw [hl] at ha
    simp only [List.mem_cons, List.mem_singleton, List.not_mem_nil, or_false] at ha
    rcases ha with rfl | rfl | rfl
    · decide
    · exact absurd ht (by decide)
    · exact absurd ht (by decide)
  ⟨⟨by decide, by decide, by decide, huniq, hl⟩,
    barrier_iff_others_done 2 5 others_done 1 101 0 (by decide) (by decide) (by decide) huniq⟩

/-! ## Process termination: the thread records -/

theorem reclaim_step_spec (s s0 : Kernel) (P T a : Nat)
    (hsame : ∀ b, (s0.heap b).done = (s.heap b).done ∧ (s0.heap b).thread = (s.heap b).thread)
    (hargs : (s0.heap a).args = (s.heap a).args)
    (hmain : (s0.PT P).main_thread = (s.PT P).main_thread) :
    (reclaim_step P T s0 a).freed = reclaim_frees s P T a ++ s0.freed ∧
    (∀ q, ((reclaim_step P T s0 a).PT q).threads_list =
      (s0.PT q).threads_list.filter (fun b => !(decide (b = a) && reclaimable s T b))) ∧
    (∀ b, ((reclaim_step P T s0 a).heap b).done = (s.heap b).done ∧
      ((reclaim_step P T s0 a).heap b).thread = (s.heap b).thread) ∧
    (∀ b, b ≠ a → ((reclaim_step P T s0 a).heap b).args = (s0.heap b).args) ∧
    (∀ b, ((reclaim_step P T s0 a).heap b).args = (s0.heap b).args ∨
      ((reclaim_step P T s0 a).heap b).args = none) ∧
    (reclaim_step P T s0 a).owner_ptcb = s0.owner_ptcb ∧
    (∀ q, ((reclaim_step P T s0 a).PT q).main_thread = (s0.PT q).main_thread) := by
  have hrc : ((s0.heap a).done ≠ 0 ∧ (s0.heap a).thread ≠ T) ↔
      ((s.heap a).done ≠ 0 ∧ (s.heap a).thread ≠ T) := by
    rw [(hsame a).1, (hsame a).2]
  have hmc : (s0.heap a).thread = (s0.PT P).main_thread ↔
      (s.heap a).thread = (s.PT P).main_thread := by
    rw [(hsame a).2, hmain]
  by_cases hr : (s.heap a).done ≠ 0 ∧ (s.heap a).thread ≠ T
  · have hrf : reclaim_frees s P T a =
        a :: (if (s.heap a).thread = (s.PT P).main_thread then (s.heap a).args.toList
          else []) := by
      simp [reclaim_frees, reclaimable, hr]
    have hfil : ∀ q, (rlist_remove (s0.PT q).threads_list a) =
        (s0.PT q).threads_list.filter (fun b => !(decide (b = a) && reclaimable s T b)) := by
      intro q
      unfold rlist_remove
      apply List.filter_congr
      intro b _
      by_cases hb : b = a
      · subst hb; simp [reclaimable, hr]
      · simp [hb]
    by_cases hm : (s.heap a).thread = (s.PT P).main_thread
    · have e : reclaim_step P T s0 a =
          free (remove_ptcb_node
            (set_ptcb (free s0 (s0.heap a).args) a { s0.heap a with args := none }) a)
            (some a) := by
        unfold reclaim_step
        rw [if_pos (hrc.mpr hr)]
        simp only []
        rw [if_pos (hmc.mpr hm)]
      rw [e, hrf, if_pos hm, hargs]
      cases ha : (s.heap a).args with
      | none =>
        refine ⟨by simp [free, remove_ptcb_node, set_ptcb],
          fun q => by simpa [free, remove_ptcb_node, set_ptcb] using hfil q, ?_, ?_, ?_, rfl,
          fun q => rfl⟩
        · intro b
          by_cases hb : b = a
          · subst hb; simpa [free, remove_ptcb_node, set_ptcb] using hsame b
          · simpa [free, remove_ptcb_node, set_ptcb, hb] using hsame b
        · intro b hb
          simp [free, remove_ptcb_node, set_ptcb, hb]
        · intro b
          by_cases hb : b = a
          · subst hb; right; simp [free, remove_ptcb_node, set_ptcb]
          · left; simp [free, remove_ptcb_node, set_ptcb, hb]
      | some x =>
        refine ⟨by simp [free, remove_ptcb_node, set_ptcb],
          fun q => by simpa [free, remove_ptcb_node, set_ptcb] using hfil q, ?_, ?_, ?_, rfl,
          fun q => rfl⟩
        · intro b
          by_cases hb : b = a
          · subst hb; simpa [free, remove_ptcb_node, set_ptcb] using hsame b
          · simpa [free, remove_ptcb_node, set_ptcb, hb] using hsame b
        · intro b hb
          simp [free, remove_ptcb_node, set_ptcb, hb]
        · intro b
          by_cases hb : b = a
          · subst hb; right; simp [free, remove_ptcb_node, set_ptcb]
          · left; simp [free, remove_ptcb_node, set_ptcb, hb]
    · have e : reclaim_step P T s0 a = free (remove_ptcb_node s0 a) (some a) := by
        unfold reclaim_step
        rw [if_pos (hrc.mpr hr)]
        simp only []
        rw [if_neg (fun h => hm (hmc.mp h))]
      rw [e, hrf, if_neg hm]
      refine ⟨by simp [free, remove_ptcb_node],
        fun q => by simpa [free, remove_ptcb_node] using hfil q, ?_, ?_, ?_, rfl, fun q => rfl⟩
      · intro b; simpa [free, remove_ptcb_node] using hsame b
      · intro b _; simp [free, remove_ptcb_node]
      · intro b; left; simp [free, remove_ptcb_node]
  · have e : reclaim_step P T s0 a = s0 := by
      unfold reclaim_step
      rw [if_neg (fun h => hr (hrc.mp h))]
    have hrf : reclaim_frees s P T a = [] := by
      simp only [reclaim_frees, reclaimable]
      rw [if_neg]
      simpa using hr
    rw [e, hrf]
    refine ⟨by simp, ?_, hsame, fun b _ => rfl, fun b => Or.inl rfl, rfl, fun q => rfl⟩
    intro q
    symm
    rw [List.filter_eq_self]
    intro b _
    by_cases hb : b = a
    · subst hb
      have : reclaimable s T b = false := by
        simp only [reclaimable, decide_eq_false_iff_not]
        exact hr
      simp [this]
    · simp [hb]

theorem reclaim_fold_spec (s : Kernel) (P T : Nat) (l : List Nat) (hnd : l.Nodup) :
    ∀ (s0 : Kernel),
      (∀ b, (s0.heap b).done = (s.heap b).done ∧ (s0.heap b).thread = (s.heap b).thread) →
      (∀ b, b ∈ l → (s0.heap b).args = (s.heap b).args) →
      (s0.PT P).main_thread = (s.PT P).main_thread →
      (l.foldl (reclaim_step P T) s0).freed = reclaim_log s P T l ++ s0.freed ∧
      (∀ q, ((l.foldl (reclaim_step P T) s0).PT q).threads_list =
        (s0.PT q).threads_list.filter (fun b => !(decide (b ∈ l) && reclaimable s T b))) ∧
      (∀ b, ((l.foldl (reclaim_step P T) s0).heap b).args = (s0.heap b).args ∨
        ((l.foldl (reclaim_step P T) s0).heap b).args = none) ∧
      (l.foldl (reclaim_step P T) s0).owner_ptcb = s0.owner_ptcb ∧
      (∀ q, ((l.foldl (reclaim_step P T) s0).PT q).main_thread = (s0.PT q).main_thread) := by
  induction l with
  | nil =>
    intro s0 _ _ _
    refine ⟨by simp [reclaim_log], ?_, fun b => Or.inl rfl, rfl, fun q => rfl⟩
    intro q
    simp
  | cons a l ih =>
    intro s0 hsame hargs hmain
    have hnd2 := List.nodup_cons.mp hnd
    obtain ⟨k1, k2, k3, k4, k5, k6, k7⟩ :=
      reclaim_step_spec s s0 P T a hsame (hargs a (List.mem_cons_self _ _)) hmain
    have hargs2 : ∀ b, b ∈ l → ((reclaim_step P T s0 a).heap b).args = (s.heap b).args := by
      intro b hb
      have hba : b ≠ a := fun e => hnd2.1 (e ▸ hb)
      rw [k4 b hba, hargs b (List.mem_cons_of_mem _ hb)]
    obtain ⟨j1, j2, j3, j4, j5⟩ :=
      ih hnd2.2 (reclaim_step P T s0 a) k3 hargs2 ((k7 P).trans hmain)
    simp only [List.foldl_cons]
    refine ⟨?_, ?_, ?_, j4.trans k6, fun q => (j5 q).trans (k7 q)⟩
    · rw [j1, k1]
      simp [reclaim_log]
    · intro q
      rw [j2 q, k2 q, List.filter_filter]
      apply List.filter_congr
      intro b _
      by_cases hb : b = a
      · subst hb
        have : b ∉ l := hnd2.1
        simp [this]
      · simp [hb]
    · intro b
      rcases j3 b with h | h
      · rcases k5 b with h2 | h2
        · exact Or.inl (h.trans h2)
        · exact Or.inr (h.trans h2)
      · exact Or.inr h

theorem reclaim_log_count (s : Kernel) (P T : Nat) (x : Nat) (l : List Nat) (hnd : l.Nodup)
    (halias : ∀ b, b ∈ l → (s.heap b).args ≠ some x) :
    (reclaim_log s P T l).count x = if x ∈ l ∧ reclaimable s T x = true then 1 else 0 := by
  induction l with
  | nil => simp [reclaim_log]
  | cons a l ih =>
    have hnd2 := List.nodup_cons.mp hnd
    have ih1 := ih hnd2.2 (fun b hb => halias b (List.mem_cons_of_mem _ hb))
    have hargs : (s.heap a).args.toList.count x = 0 := by
      rw [List.count_eq_zero]
      intro hm
      have : (s.heap a).args = some x := by
        cases h : (s.heap a).args with
        | none => rw [h] at hm; simp at hm
        | some y =>
          rw [h] at hm
          simp only [Option.toList_some, List.mem_singleton] at hm
          rw [hm]
      exact halias a (List.mem_cons_self _ _) this
    simp only [reclaim_log, List.count_append, ih1, reclaim_frees]
    by_cases hxa : x = a
    · subst hxa
      have hxl : x ∉ l := hnd2.1
      by_cases hr : reclaimable s T x = true
      · simp only [hxl, false_and, if_false, hr, if_true, List.mem_cons, true_or, and_self]
        split <;> simp [hargs]
      · simp [hxl, hr]
    · have hne : a ≠ x := fun e => hxa e.symm
      by_cases hr : reclaimable s T a = true
      · simp only [hr, if_true, List.mem_cons, hxa, false_or]
        have : (a :: if (s.heap a).thread = (s.PT P).main_thread then (s.heap a).args.toList
            else []).count x = 0 := by
          split
          · rw [List.count_cons_of_ne hxa, hargs]
          · rw [List.count_cons_of_ne hxa]; simp
        omega
      · simp [hr, hxa]

theorem free_own_args_spec (r : Kernel) (P T : Nat) :
    ∃ bufs, (free_own_args r P T).freed = bufs ++ r.freed ∧
      (∀ x, x ∈ bufs → (r.heap (r.owner_ptcb T)).args = some x) ∧
      (free_own_args r P T).owner_ptcb = r.owner_ptcb ∧
      ∀ q, ((free_own_args r P T).PT q).threads_list = (r.PT q).threads_list := by
  unfold free_own_args
  split
  · cases ha : (r.heap (r.owner_ptcb T)).args with
    | none => exact ⟨[], by simp [free, set_ptcb], by simp, rfl, fun q => rfl⟩
    | some x => exact ⟨[x], by simp [free, set_ptcb], by simp, rfl, fun q => rfl⟩
  · exact ⟨[], by simp, by simp, rfl, fun q => rfl⟩

/-- C19: when `Exit` passes the barrier and reaches the ZOMBIE assignment, the
process's thread list is empty and no record of the former list is linked
anywhere; the reclaim loop freed every record other than the caller's exactly
once and did not free the caller's; the caller's own record is the last thing
`Exit` frees. Records are linked once, the caller's record is the one of its
thread, and no argument buffer shares an address with a record. -/
theorem Exit_reclaims_threads (F fuel : Nat) (s s1 : Kernel) (P T : Nat) (v : Int)
    (hnd : (s.PT P).threads_list.Nodup) (hown : s.owner_ptcb T ∈ (s.PT P).threads_list)
    (hthr : (s.heap (s.owner_ptcb T)).thread = T)
    (huniq : ∀ a, a ∈ (s.PT P).threads_list → (s.heap a).thread = T → a = s.owner_ptcb T)
    (halias : ∀ a, a ∈ (s.PT P).threads_list → ∀ b, b ∈ (s.PT P).threads_list →
      (s.heap b).args ≠ some a)
    (h : Exit_barrier F fuel s P T v = Outcome.exited s1) :
    (s1.PT P).pstate = pid_state.ZOMBIE ∧ (s1.PT P).threads_list = [] ∧
    (∀ a, a ∈ (s.PT P).threads_list → ∀ q, a ∉ (s1.PT q).threads_list) ∧
    ∃ log bufs, (reclaim_threads P T s).freed = log ++ s.freed ∧
      s1.freed = s.owner_ptcb T :: (bufs ++ (log ++ s.freed)) ∧
      (∀ a, a ∈ (s.PT P).threads_list → a ≠ s.owner_ptcb T → log.count a = 1) ∧
      log.count (s.owner_ptcb T) = 0 ∧
      (∀ a, a ∈ (s.PT P).threads_list → a ∉ bufs) := by
  have hbar : count_barrier s P T = 1 := by
    unfold Exit_barrier at h
    by_contra hc
    simp [hc] at h
  have ht : Exit_teardown F fuel s P T v = Outcome.exited s1 := by
    unfold Exit_barrier at h
    simpa [hbar] using h
  have hdone := (count_barrier_one_iff s P T hnd hown hthr huniq).mp hbar
  have hrec : ∀ a, a ∈ (s.PT P).threads_list → a ≠ s.owner_ptcb T →
      reclaimable s T a = true := by
    intro a ha hne
    simp only [reclaimable, decide_eq_true_eq]
    exact ⟨hdone a ha hne, fun e => hne (huniq a ha e)⟩
  have hnrec : reclaimable s T (s.owner_ptcb T) = false := by
    simp [reclaimable, hthr]
  obtain ⟨k1, k2, k3, k4, _⟩ := reclaim_fold_spec s P T (s.PT P).threads_list hnd s
    (fun b => ⟨rfl, rfl⟩) (fun b _ => rfl) rfl
  have hr : (s.PT P).threads_list.foldl (reclaim_step P T) s = reclaim_threads P T s := rfl
  rw [hr] at k1 k2 k3 k4
  obtain ⟨bufs, b1, b2, b3, b4⟩ := free_own_args_spec (reclaim_threads P T s) P T
  obtain ⟨t, e, t1, t2, _, t4⟩ := (Exit_teardown_shape F fuel s P T v).1 s1 ht
  generalize free_own_args (reclaim_threads P T s) P T = pre at b1 b3 b4 t1 t2 t4
  have hown_t : t.owner_ptcb T = s.owner_ptcb T := by rw [t2, b3, k4]
  have htl : ∀ q, (s1.PT q).threads_list =
      rlist_remove ((s.PT q).threads_list.filter
        (fun b => !(decide (b ∈ (s.PT P).threads_list) && reclaimable s T b)))
        (s.owner_ptcb T) := by
    intro q
    rw [e]
    by_cases hq : q = P
    · subst hq
      simp [Exit_finish, free, remove_ptcb_node, hown_t, (t4 q).1, b4 q, k2 q]
    · simp [Exit_finish, free, remove_ptcb_node, hown_t, (t4 q).1, b4 q, k2 q, hq]
  have hunl : ∀ a, a ∈ (s.PT P).threads_list → ∀ q, a ∉ (s1.PT q).threads_list := by
    intro a ha q hm
    rw [htl q] at hm
    simp only [rlist_remove, List.mem_filter, decide_eq_true_eq, Bool.not_eq_true',
      Bool.and_eq_false_iff, decide_eq_false_iff_not] at hm
    obtain ⟨⟨_, hm2⟩, hm3⟩ := hm
    rcases hm2 with hm2 | hm2
    · exact hm2 ha
    · rw [hrec a ha hm3] at hm2
      cases hm2
  refine ⟨?_, ?_, hunl, reclaim_log s P T (s.PT P).threads_list, bufs, k1, ?_, ?_, ?_, ?_⟩
  · rw [e, (Exit_finish_fields P T v t P).2.2.2.1]; simp
  · apply List.eq_nil_iff_forall_not_mem.mpr
    intro a ha
    have hsub : a ∈ (s.PT P).threads_list := by
      rw [htl P] at ha
      simp only [rlist_remove, List.mem_filter] at ha
      exact ha.1.1
    exact hunl a hsub P ha
  · rw [e]
    simp [Exit_finish, free, remove_ptcb_node, hown_t, t1, b1, k1]
  · intro a ha hne
    rw [reclaim_log_count s P T a _ hnd (fun b hb => halias a ha b hb)]
    simp [ha, hrec a ha hne]
  · rw [reclaim_log_count s P T _ _ hnd (fun b hb => halias _ hown b hb)]
    simp [hnrec]
  · intro a ha hm
    have h1 := b2 a hm
    rw [k4] at h1
    rcases k3 (s.owner_ptcb T) with h2 | h2
    · rw [h2] at h1
      exact halias a ha _ hown h1
    · rw [h2] at h1
      cases h1

theorem Exit_reclaims_threads_witness :
    ((others_done.PT 1).threads_list.Nodup ∧
      others_done.owner_ptcb 101 ∈ (others_done.PT 1).threads_list ∧
      (others_done.heap (others_done.owner_ptcb 101)).thread = 101 ∧
      (∀ a, a ∈ (others_done.PT 1).threads_list → (others_done.heap a).thread = 101 →
        a = others_done.owner_ptcb 101) ∧
      (∀ a, a ∈ (others_done.PT 1).threads_list → ∀ b, b ∈ (others_done.PT 1).threads_list →
        (others_done.heap b).args ≠ some a) ∧
      Exit_barrier 2 5 others_done 1 101 0 = Outcome.exited all_reclaimed ∧
      (others_done.PT 1).threads_list = [201, 211, 212] ∧ others_done.owner_ptcb 101 = 201) ∧
    (all_reclaimed.PT 1).pstate = pid_state.ZOMBIE ∧ (all_reclaimed.PT 1).threads_list = [] ∧
    (∀ a, a ∈ (others_done.PT 1).threads_list → ∀ q, a ∉ (all_reclaimed.PT q).threads_list) ∧
    ∃ log bufs, (reclaim_threads 1 101 others_done).freed = log ++ others_done.freed ∧
      all_reclaimed.freed = others_done.owner_ptcb 101 :: (bufs ++ (log ++ others_done.freed)) ∧
      (∀ a, a ∈ (others_done.PT 1).threads_list → a ≠ others_done.owner_ptcb 101 →
        log.count a = 1) ∧
      log.count (others_done.owner_ptcb 101) = 0 ∧
      (∀ a, a ∈ (others_done.PT 1).threads_list → a ∉ bufs) :=
  have hl : (others_done.PT 1).threads_list = [201, 211, 212] := by decide
  have huniq : ∀ a, a ∈ (others_done.PT 1).threads_list → (others_done.heap a).thread = 101 →
      a = others_done.owner_ptcb 101 := by
    intro a ha ht
    rw [hl] at ha
    simp only [List.mem_cons, List.mem_singleton, List.not_mem_nil, or_false] at ha
    rcases ha with rfl | rfl | rfl
    · decide
    · exact absurd ht (by decide)
    · exact absurd ht (by decide)
  have halias : ∀ a, a ∈ (others_done.PT 1).threads_list →
      ∀ b, b ∈ (others_done.PT 1).threads_list → (others_done.heap b).args ≠ some a := by
    intro a _ b hb
    rw [hl] at hb
    simp only [List.mem_cons, List.mem_singleton, List.not_mem_nil, or_false] at hb
    have hn : (others_done.heap b).args = none := by
      rcases hb with rfl | rfl | rfl <;> decide
    rw [hn]
    simp
  ⟨⟨by decide, by decide, by decide, huniq, halias, rfl, hl, by decide⟩,
    Exit_reclaims_threads 2 5 others_done all_reclaimed 1 101 0 (by decide) (by decide)
      (by decide) huniq halias rfl⟩

/-! ## Pool: the invariant -/

theorem is_chain_congr (s t : Kernel) (L : List Nat) :
    ∀ head, (∀ p, p ∈ L → (t.PT p).parent = (s.PT p).parent) →
      is_chain s head L → is_chain t head L := by
  induction L with
  | nil =>
    intro head _ h
    cases head <;> simp [is_chain] at h ⊢
  | cons q L ih =>
    intro head hp h
    cases head with
    | none => simp [is_chain] at h
    | some p =>
      simp only [is_chain] at h ⊢
      obtain ⟨rfl, h2⟩ := h
      refine ⟨rfl, ?_⟩
      rw [hp p (List.mem_cons_self _ _)]
      exact ih _ (fun x hx => hp x (List.mem_cons_of_mem _ hx)) h2

theorem is_chain_free_chain (s : Kernel) (L : List Nat) :
    ∀ head n, is_chain s head L → L.length ≤ n → free_chain s n head = L := by
  induction L with
  | nil =>
    intro head n h _
    cases head with
    | none => cases n <;> rfl
    | some p => simp [is_chain] at h
  | cons q L ih =>
    intro head n h hn
    cases head with
    | none => simp [is_chain] at h
    | some p =>
      simp only [is_chain] at h
      obtain ⟨rfl, h2⟩ := h
      cases n with
      | zero => simp at hn
      | succ n =>
        simp only [free_chain]
        rw [ih _ n h2 (by simpa using hn)]

theorem is_chain_head (s : Kernel) (L : List Nat) (head : Option Nat) (h : is_chain s head L) :
    head = L.head? := by
  cases head with
  | none => cases L <;> simp [is_chain] at h ⊢
  | some p =>
    cases L with
    | nil => simp [is_chain] at h
    | cons q L => simp only [is_chain] at h; simp [h.1]

theorem is_chain_initial (M : Nat) (s : Kernel)
    (hpar : ∀ p, p < M → (s.PT p).parent = if p + 1 = M then none else some (p + 1)) :
    ∀ n k, k + n = M → is_chain s (if n = 0 then none else some k) (List.range' k n) := by
  intro n
  induction n with
  | zero => intro k _; simp [is_chain]
  | succ n ih =>
    intro k hk
    simp only [Nat.add_one_ne_zero, if_false, List.range'_succ, is_chain, true_and]
    rw [hpar k (by omega)]
    have := ih (k + 1) (by omega)
    by_cases hn : n = 0
    · subst hn
      have : k + 1 = M := by omega
      simp [this, is_chain]
    · have h2 : ¬ (k + 1 = M) := by omega
      simp only [hn, if_false] at this
      simp only [h2, if_false]
      exact this

theorem pool_inv_initial (M : Nat) (s0 : Kernel) : pool_inv M (initialize_pool M s0) := by
  obtain ⟨h1, h2, h3⟩ := initialize_pool_spec M s0
  refine ⟨List.range' 0 M, ?_, List.nodup_range' 0 M, ?_, ?_⟩
  · have := is_chain_initial M (initialize_pool M s0) h2 M 0 (by omega)
    rw [h1]
    exact this
  · intro p
    simp only [List.mem_range'_1, Nat.zero_le, true_and, Nat.zero_add]
    constructor
    · intro hp; exact ⟨hp, h3 p hp⟩
    · intro hp; exact hp.1
  · simp [initialize_pool]

theorem chain_length_le (M : Nat) (L : List Nat) (hnd : L.Nodup) (hlt : ∀ p, p ∈ L → p < M) :
    L.length ≤ M := by
  have hsub : L ⊆ List.range M := fun p hp => List.mem_range.mpr (hlt p hp)
  have := (List.Nodup.subperm hnd hsub).length_le
  simpa using this

theorem pool_inv_acquire (M : Nat) (s : Kernel) (hM : M < UINT_MOD) (h : pool_inv M s) :
    pool_inv M (acquire_PCB s).1 := by
  obtain ⟨L, hc, hnd, hmem, hcount⟩ := h
  cases hf : s.pcb_freelist with
  | none =>
    have : (acquire_PCB s).1 = s := by simp [acquire_PCB, hf]
    rw [this]
    exact ⟨L, hc, hnd, hmem, hcount⟩
  | some p =>
    rw [hf] at hc
    cases L with
    | nil => simp [is_chain] at hc
    | cons q L =>
      simp only [is_chain] at hc
      obtain ⟨rfl, hc2⟩ := hc
      have hnd2 := List.nodup_cons.mp hnd
      have hs : (acquire_PCB s).1 =
          { set_pcb s p { s.PT p with pstate := pid_state.ALIVE } with
            pcb_freelist := (s.PT p).parent
            process_count := (s.process_count + 1) % UINT_MOD } := by
        simp [acquire_PCB, hf]
      rw [hs]
      refine ⟨L, ?_, hnd2.2, ?_, ?_⟩
      · apply is_chain_congr s _ L _ _ hc2
        intro x _
        by_cases hx : x = p
        · subst hx; simp
        · simp [hx]
      · intro x
        by_cases hx : x = p
        · subst hx
          simp [hnd2.1]
        · have := hmem x
          simp only [List.mem_cons, hx, false_or] at this
          simp [hx, this]
      · simp only [List.length_cons] at hcount
        simp only [UINT_MOD] at hM ⊢
        show (s.process_count + 1) % 2 ^ 32 + L.length = M
        rw [Nat.mod_eq_of_lt (by omega)]
        omega

theorem pool_inv_release (M : Nat) (s : Kernel) (p : Nat) (hM : M < UINT_MOD)
    (hp : p < M) (hpf : (s.PT p).pstate ≠ pid_state.FREE) (h : pool_inv M s) :
    pool_inv M (release_PCB s p) := by
  obtain ⟨L, hc, hnd, hmem, hcount⟩ := h
  have hpL : p ∉ L := fun hm => hpf ((hmem p).mp hm).2
  have hlen : (p :: L).length ≤ M :=
    chain_length_le M (p :: L) (List.nodup_cons.mpr ⟨hpL, hnd⟩) (by
      intro x hx
      rcases List.mem_cons.mp hx with h1 | h1
      · rw [h1]; exact hp
      · exact ((hmem x).mp h1).1)
  refine ⟨p :: L, ?_, List.nodup_cons.mpr ⟨hpL, hnd⟩, ?_, ?_⟩
  · simp only [release_PCB, is_chain, true_and, set_pcb_PT, if_true]
    apply is_chain_congr s _ L _ _ hc
    intro x hx
    have hxp : x ≠ p := fun e => hpL (e ▸ hx)
    simp [hxp]
  · intro x
    by_cases hx : x = p
    · subst hx
      simp [release_PCB, hp]
    · have := hmem x
      simp [release_PCB, hx, this]
  · simp only [List.length_cons] at hlen ⊢
    simp only [UINT_MOD] at hM
    show (s.process_count + UINT_MOD - 1) % UINT_MOD + (L.length + 1) = M
    simp only [UINT_MOD]
    have h1 : 1 ≤ s.process_count := by omega
    have h2 : (s.process_count + 2 ^ 32 - 1) % 2 ^ 32 = s.process_count - 1 := by
      have : s.process_count + 2 ^ 32 - 1 = (s.process_count - 1) + 2 ^ 32 := by omega
      rw [this, Nat.add_mod_right, Nat.mod_eq_of_lt (by omega)]
    rw [h2]
    omega

theorem pool_inv_run (M : Nat) (hM : M < UINT_MOD) (ops : List pool_op) :
    ∀ s s1, pool_inv M s → pool_run M ops s = some s1 → pool_inv M s1 := by
  induction ops with
  | nil =>
    intro s s1 h hr
    simp only [pool_run, Option.some.injEq] at hr
    rw [← hr]; exact h
  | cons op ops ih =>
    intro s s1 h hr
    cases op with
    | acquire =>
      simp only [pool_run, pool_step] at hr
      exact ih _ s1 (pool_inv_acquire M s hM h) hr
    | release p =>
      simp only [pool_run, pool_step] at hr
      by_cases hc : p < M ∧ (s.PT p).pstate ≠ pid_state.FREE
      · rw [if_pos hc] at hr
        exact ih _ s1 (pool_inv_release M s p hM hc.1 hc.2 h) hr
      · rw [if_neg hc] at hr
        simp at hr

theorem pool_inv_count (M : Nat) (s : Kernel) (L : List Nat) (hnd : L.Nodup)
    (hmem : ∀ p, p ∈ L ↔ p < M ∧ (s.PT p).pstate = pid_state.FREE)
    (hcount : s.process_count + L.length = M) :
    s.process_count =
      ((List.range M).filter (fun p => decide ((s.PT p).pstate ≠ pid_state.FREE))).length := by
  have hperm : L.Perm ((List.range M).filter
      (fun p => decide ((s.PT p).pstate = pid_state.FREE))) := by
    rw [List.perm_ext_iff_of_nodup hnd ((List.nodup_range M).filter _)]
    intro p
    simp [hmem p]
  have hlen := hperm.length_eq
  have hsplit := List.length_eq_countP_add_countP
    (fun p => decide ((s.PT p).pstate = pid_state.FREE)) (List.range M)
  rw [List.length_range, List.countP_eq_length_filter, List.countP_eq_length_filter] at hsplit
  have hfil : (List.range M).filter
        (fun a => decide ¬(fun p => decide ((s.PT p).pstate = pid_state.FREE)) a = true) =
      (List.range M).filter (fun p => decide ((s.PT p).pstate ≠ pid_state.FREE)) := by
    congr 1
    funext p
    simp
  rw [hfil] at hsplit
  omega

/-- C15: in every state reached from the freshly built pool by a sequence of
`acquire_PCB` and `release_PCB` calls (release applied only to a non-FREE slot
of the table), the free list is a `NULL`-terminated chain holding exactly the
FREE slots, each once; every other slot is ALIVE or ZOMBIE; `process_count`
is the number of non-FREE slots; and `acquire_PCB` returns `NULL` exactly
when `process_count == MAX_PROC`. -/
theorem pool_invariant (MAX_PROC : Nat) (s0 s : Kernel) (ops : List pool_op)
    (hM : MAX_PROC < UINT_MOD)
    (hr : pool_run MAX_PROC ops (initialize_pool MAX_PROC s0) = some s) :
    (free_chain s MAX_PROC s.pcb_freelist).Nodup ∧
    (∀ n, MAX_PROC ≤ n →
      free_chain s n s.pcb_freelist = free_chain s MAX_PROC s.pcb_freelist) ∧
    (∀ p, p ∈ free_chain s MAX_PROC s.pcb_freelist ↔
      p < MAX_PROC ∧ (s.PT p).pstate = pid_state.FREE) ∧
    (∀ p, p < MAX_PROC → p ∉ free_chain s MAX_PROC s.pcb_freelist →
      (s.PT p).pstate = pid_state.ALIVE ∨ (s.PT p).pstate = pid_state.ZOMBIE) ∧
    s.process_count =
      ((List.range MAX_PROC).filter
        (fun p => decide ((s.PT p).pstate ≠ pid_state.FREE))).length ∧
    ((acquire_PCB s).2 = none ↔ s.process_count = MAX_PROC) := by
  obtain ⟨L, hc, hnd, hmem, hcount⟩ :=
    pool_inv_run MAX_PROC hM ops _ s (pool_inv_initial MAX_PROC s0) hr
  have hlen : L.length ≤ MAX_PROC :=
    chain_length_le MAX_PROC L hnd (fun p hp => ((hmem p).mp hp).1)
  have hfc : ∀ n, MAX_PROC ≤ n → free_chain s n s.pcb_freelist = L :=
    fun n hn => is_chain_free_chain s L _ n hc (by omega)
  rw [hfc MAX_PROC (le_refl _)]
  refine ⟨hnd, hfc, hmem, ?_, pool_inv_count MAX_PROC s L hnd hmem hcount, ?_⟩
  · intro p hp hnot
    have hnf : (s.PT p).pstate ≠ pid_state.FREE := fun e => hnot ((hmem p).mpr ⟨hp, e⟩)
    cases hps : (s.PT p).pstate with
    | FREE => exact absurd hps hnf
    | ALIVE => exact Or.inl rfl
    | ZOMBIE => exact Or.inr rfl
  · have hhead := is_chain_head s L _ hc
    have hacq : (acquire_PCB s).2 = s.pcb_freelist := by
      cases hf : s.pcb_freelist <;> simp [acquire_PCB, hf]
    rw [hacq, hhead]
    cases L with
    | nil => simp at hcount ⊢; exact hcount
    | cons q L =>
      simp only [List.length_cons] at hcount
      constructor
      · intro h
        cases h
      · intro h
        omega

theorem pool_invariant_witness :
    (4 < UINT_MOD ∧
      pool_run 4 [pool_op.acquire, pool_op.acquire, pool_op.release 0, pool_op.acquire]
        (initialize_pool 4 zero_Kernel) = some pool_trace) ∧
    ((free_chain pool_trace 4 pool_trace.pcb_freelist).Nodup ∧
    (∀ n, 4 ≤ n →
      free_chain pool_trace n pool_trace.pcb_freelist =
        free_chain pool_trace 4 pool_trace.pcb_freelist) ∧
    (∀ p, p ∈ free_chain pool_trace 4 pool_trace.pcb_freelist ↔
      p < 4 ∧ (pool_trace.PT p).pstate = pid_state.FREE) ∧
    (∀ p, p < 4 → p ∉ free_chain pool_trace 4 pool_trace.pcb_freelist →
      (pool_trace.PT p).pstate = pid_state.ALIVE ∨
        (pool_trace.PT p).pstate = pid_state.ZOMBIE) ∧
    pool_trace.process_count =
      ((List.range 4).filter
        (fun p => decide ((pool_trace.PT p).pstate ≠ pid_state.FREE))).length ∧
    ((acquire_PCB pool_trace).2 = none ↔ pool_trace.process_count = 4)) :=
  ⟨⟨by decide, rfl⟩,
    pool_invariant 4 zero_Kernel pool_trace
      [pool_op.acquire, pool_op.acquire, pool_op.release 0, pool_op.acquire] (by decide) rfl⟩

/-! ## Hierarchy: the invariant -/

theorem hier_inv_congr (M : Nat) (s t : Kernel) (h : hier_inv M s)
    (hf : t.pcb_freelist = s.pcb_freelist)
    (hq : ∀ q, (t.PT q).pstate = (s.PT q).pstate ∧ (t.PT q).parent = (s.PT q).parent ∧
      (t.PT q).children_list = (s.PT q).children_list ∧
      (t.PT q).exited_list = (s.PT q).exited_list) :
    hier_inv M t := by
  refine ⟨h.two_le, ?_, ?_, ?_, ?_, ?_, ?_, ?_, ?_⟩
  · rw [(hq 0).1]; exact h.idle
  · rw [(hq 1).1]; exact h.init
  · intro q hq1; rw [(hq q).2.1]; exact h.roots q hq1
  · intro q hqM hq2 hnf
    rw [(hq q).1] at hnf
    obtain ⟨p, hp, hpar, hal, hne⟩ := h.parent q hqM hq2 hnf
    exact ⟨p, hp, by rw [(hq q).2.1]; exact hpar, by rw [(hq p).1]; exact hal, hne⟩
  · intro p q hp
    rw [(hq p).2.2.1, (hq q).1, (hq q).2.1]
    exact h.children p q hp
  · intro p hp
    rw [(hq p).2.2.1]; exact h.children_nodup p hp
  · intro p q hp
    rw [(hq p).2.2.2, (hq q).1, (hq q).2.1]
    exact h.exited p q hp
  · obtain ⟨L, hc, hnd, hL⟩ := h.pool
    refine ⟨L, ?_, hnd, ?_⟩
    · rw [hf]
      exact is_chain_congr s t L _ (fun p _ => (hq p).2.1) hc
    · intro x hx
      rw [(hq x).1]
      exact hL x hx

/-- The invariant is kept by a successful `Exec` of an ALIVE process. -/
theorem hier_inv_exec (M : Nat) (s t : Kernel) (cur n : Nat) (h : hier_inv M s)
    (hcur : cur < M) (hal : (s.PT cur).pstate = pid_state.ALIVE)
    (hfl : s.pcb_freelist = some n)
    (tfl : t.pcb_freelist = (s.PT n).parent)
    (tpar : ∀ q, (t.PT q).parent =
      if q = n then (if n ≤ 1 then none else some cur) else (s.PT q).parent)
    (tch : ∀ q, (t.PT q).children_list =
      if 2 ≤ n ∧ q = cur then n :: (s.PT q).children_list else (s.PT q).children_list)
    (tps : ∀ q, (t.PT q).pstate = if q = n then pid_state.ALIVE else (s.PT q).pstate)
    (tex : ∀ q, (t.PT q).exited_list = (s.PT q).exited_list) :
    hier_inv M t := by
  obtain ⟨L, hc, hnd, hL⟩ := h.pool
  rw [hfl] at hc
  cases L with
  | nil => simp [is_chain] at hc
  | cons m L =>
    simp only [is_chain] at hc
    obtain ⟨hnm, hc2⟩ := hc
    subst hnm
    obtain ⟨hnM, hn2, hnF⟩ := hL n (List.mem_cons_self _ _)
    have hnL : n ∉ L := (List.nodup_cons.mp hnd).1
    have hncur : cur ≠ n := by
      intro e; rw [e, hnF] at hal; cases hal
    have hn1 : ¬ n ≤ 1 := by omega
    have tpar1 : ∀ q, (t.PT q).parent = if q = n then some cur else (s.PT q).parent := by
      intro q; rw [tpar q]; simp only [hn1, if_false]
    have tch1 : ∀ q, (t.PT q).children_list =
        if q = cur then n :: (s.PT q).children_list else (s.PT q).children_list := by
      intro q; rw [tch q]; simp only [hn2, true_and]
    refine ⟨h.two_le, ?_, ?_, ?_, ?_, ?_, ?_, ?_, ?_⟩
    · rw [tps 0, if_neg (by omega)]; exact h.idle
    · rw [tps 1, if_neg (by omega)]; exact h.init
    · intro q hq1
      rw [tpar1 q, if_neg (by omega)]
      exact h.roots q hq1
    · intro q hqM hq2 hnf
      by_cases hqn : q = n
      · subst hqn
        refine ⟨cur, hcur, ?_, ?_, hncur⟩
        · rw [tpar1 q, if_pos rfl]
        · rw [tps cur, if_neg hncur]; exact hal
      · rw [tps q, if_neg hqn] at hnf
        obtain ⟨p, hp, hpar, hpal, hne⟩ := h.parent q hqM hq2 hnf
        have hpn : p ≠ n := by
          intro e; rw [e, hnF] at hpal; cases hpal
        refine ⟨p, hp, ?_, ?_, hne⟩
        · rw [tpar1 q, if_neg hqn]; exact hpar
        · rw [tps p, if_neg hpn]; exact hpal
    · intro p q hp
      rw [tch1 p, tps q, tpar1 q]
      by_cases hqn : q = n
      · subst hqn
        simp only [if_true]
        by_cases hpc : p = cur
        · subst hpc
          simp [hnM]
        · simp only [hpc, if_false]
          constructor
          · intro hm
            exact absurd hnF ((h.children p q hp).mp hm).2.1
          · intro hm
            exact absurd (Option.some.inj hm.2.2).symm hpc
      · simp only [hqn, if_false]
        by_cases hpc : p = cur
        · subst hpc
          simp only [if_true, List.mem_cons, hqn, false_or]
          exact h.children p q hp
        · simp only [hpc, if_false]
          exact h.children p q hp
    · intro p hp
      rw [tch1 p]
      by_cases hpc : p = cur
      · subst hpc
        simp only [if_true]
        refine List.nodup_cons.mpr ⟨?_, h.children_nodup p hp⟩
        intro hm
        exact absurd hnF ((h.children p n hp).mp hm).2.1
      · simp only [hpc, if_false]
        exact h.children_nodup p hp
    · intro p q hp
      rw [tex p, tps q, tpar1 q]
      by_cases hqn : q = n
      · subst hqn
        simp only [if_true]
        constructor
        · intro hm
          have := ((h.exited p q hp).mp hm).2.1
          rw [hnF] at this; cases this
        · intro hm
          cases hm.2.1
      · simp only [hqn, if_false]
        exact h.exited p q hp
    · refine ⟨L, ?_, (List.nodup_cons.mp hnd).2, ?_⟩
      · rw [tfl]
        apply is_chain_congr s t L _ _ hc2
        intro x hx
        have hxn : x ≠ n := fun e => hnL (e ▸ hx)
        rw [tpar1 x, if_neg hxn]
      · intro x hx
        have hxn : x ≠ n := fun e => hnL (e ▸ hx)
        rw [tps x, if_neg hxn]
        exact hL x (List.mem_cons_of_mem _ hx)

/-- The invariant is kept when a process reaps a ZOMBIE child. -/
theorem hier_inv_reap (M : Nat) (s : Kernel) (cur X : Nat) (st : Option Int)
    (h : hier_inv M s) (hX : X < M) (hZ : (s.PT X).pstate = pid_state.ZOMBIE)
    (hpar : (s.PT X).parent = some cur) :
    hier_inv M (cleanup_zombie s X st).1 := by
  have hX2 : 2 ≤ X := by
    by_contra hlt
    have := h.roots X (by omega)
    rw [this] at hpar; cases hpar
  have F := cleanup_zombie_fields s X st
  obtain ⟨L, hc, hnd, hL⟩ := h.pool
  have hXL : X ∉ L := by
    intro hm
    have := (hL X hm).2.2
    rw [hZ] at this; cases this
  have tps : ∀ q, ((cleanup_zombie s X st).1.PT q).pstate =
      if q = X then pid_state.FREE else (s.PT q).pstate := fun q => (F q).1
  have tpar : ∀ q, ((cleanup_zombie s X st).1.PT q).parent =
      if q = X then s.pcb_freelist else (s.PT q).parent := fun q => (F q).2.1
  have tch : ∀ q, ((cleanup_zombie s X st).1.PT q).children_list =
      rlist_remove (s.PT q).children_list X := fun q => (F q).2.2.1
  have tex : ∀ q, ((cleanup_zombie s X st).1.PT q).exited_list =
      rlist_remove (s.PT q).exited_list X := fun q => (F q).2.2.2.1
  have tfl : (cleanup_zombie s X st).1.pcb_freelist = some X := (F 0).2.2.2.2.2.1
  generalize (cleanup_zombie s X st).1 = t at tps tpar tch tex tfl
  refine ⟨h.two_le, ?_, ?_, ?_, ?_, ?_, ?_, ?_, ?_⟩
  · rw [tps 0, if_neg (by omega)]; exact h.idle
  · rw [tps 1, if_neg (by omega)]; exact h.init
  · intro q hq1
    rw [tpar q, if_neg (by omega)]
    exact h.roots q hq1
  · intro q hqM hq2 hnf
    by_cases hqX : q = X
    · rw [tps q, if_pos hqX] at hnf
      exact absurd rfl hnf
    · rw [tps q, if_neg hqX] at hnf
      obtain ⟨p, hp, hqp, hpal, hne⟩ := h.parent q hqM hq2 hnf
      have hpX : p ≠ X := by
        intro e; rw [e, hZ] at hpal; cases hpal
      refine ⟨p, hp, ?_, ?_, hne⟩
      · rw [tpar q, if_neg hqX]; exact hqp
      · rw [tps p, if_neg hpX]; exact hpal
  · intro p q hp
    rw [tch p, tps q, tpar q]
    simp only [rlist_remove, List.mem_filter, decide_eq_true_eq]
    by_cases hqX : q = X
    · simp [hqX]
    · simp only [hqX, if_false]
      rw [← h.children p q hp]
      exact ⟨fun hm => hm.1, fun hm => ⟨hm, hqX⟩⟩
  · intro p hp
    rw [tch p]
    exact (h.children_nodup p hp).filter _
  · intro p q hp
    rw [tex p, tps q, tpar q]
    simp only [rlist_remove, List.mem_filter, decide_eq_true_eq]
    by_cases hqX : q = X
    · simp [hqX]
    · simp only [hqX, if_false]
      rw [← h.exited p q hp]
      exact ⟨fun hm => hm.1, fun hm => ⟨hm, hqX⟩⟩
  · refine ⟨X :: L, ?_, List.nodup_cons.mpr ⟨hXL, hnd⟩, ?_⟩
    · rw [tfl]
      simp only [is_chain, true_and]
      rw [tpar X, if_pos rfl]
      apply is_chain_congr s t L _ _ hc
      intro x hx
      have hxX : x ≠ X := fun e => hXL (e ▸ hx)
      rw [tpar x, if_neg hxX]
    · intro x hx
      rcases List.mem_cons.mp hx with e | hx
      · subst e
        refine ⟨hX, hX2, ?_⟩
        rw [tps x, if_pos rfl]
      · have hxX : x ≠ X := fun e => hXL (e ▸ hx)
        rw [tps x, if_neg hxX]
        exact hL x hx

/-- What `WaitChild` does to the state: nothing, or the reaping of a ZOMBIE
child of the caller. -/
theorem WaitChild_effect (M : Nat) (s : Kernel) (cur : Nat) (cpid : Int) (st : Option Int)
    (h : hier_inv M s) (hcur : cur < M) (s1 : Kernel)
    (hs : (WaitChild M s cur cpid st).after = some s1) :
    s1 = s ∨ ∃ X, X < M ∧ (s.PT X).pstate = pid_state.ZOMBIE ∧
      (s.PT X).parent = some cur ∧ s1 = (cleanup_zombie s X st).1 := by
  unfold WaitChild at hs
  by_cases hc : cpid ≠ NOPROC
  · rw [if_pos hc] at hs
    unfold wait_for_specific_child at hs
    by_cases hr : cpid < 0 ∨ cpid ≥ (M : Int)
    · rw [if_pos hr] at hs
      simp only [Outcome.after, Option.some.injEq] at hs
      exact Or.inl hs.symm
    · rw [if_neg hr] at hs
      have hlt : cpid.toNat < M := by omega
      unfold get_pcb at hs
      by_cases hfree : (s.PT cpid.toNat).pstate = pid_state.FREE
      · rw [if_pos hfree] at hs
        simp only [Outcome.after, Option.some.injEq] at hs
        exact Or.inl hs.symm
      · rw [if_neg hfree] at hs
        simp only [] at hs
        by_cases hpar : (s.PT cpid.toNat).parent ≠ some cur
        · rw [if_pos hpar] at hs
          simp only [Outcome.after, Option.some.injEq] at hs
          exact Or.inl hs.symm
        · rw [if_neg hpar] at hs
          unfold wait_specific_loop at hs
          by_cases hal : (s.PT cpid.toNat).pstate = pid_state.ALIVE
          · rw [if_pos hal] at hs
            simp only [Outcome.after, Option.some.injEq] at hs
            exact Or.inl hs.symm
          · rw [if_neg hal] at hs
            simp only [Outcome.after, Option.some.injEq] at hs
            refine Or.inr ⟨cpid.toNat, hlt, ?_, not_not.mp hpar, hs.symm⟩
            cases hps : (s.PT cpid.toNat).pstate with
            | FREE => exact absurd hps hfree
            | ALIVE => exact absurd hps hal
            | ZOMBIE => rfl
  · rw [if_neg hc] at hs
    unfold wait_for_any_child at hs
    by_cases he : is_rlist_empty (s.PT cur).children_list = true
    · rw [if_pos he] at hs
      simp only [Outcome.after, Option.some.injEq] at hs
      exact Or.inl hs.symm
    · rw [if_neg he] at hs
      unfold wait_any_loop at hs
      cases hl : (s.PT cur).exited_list with
      | nil =>
        rw [hl] at hs
        simp only [Outcome.after, Option.some.injEq] at hs
        exact Or.inl hs.symm
      | cons child rest =>
        rw [hl] at hs
        simp only [] at hs
        have hmem : child ∈ (s.PT cur).exited_list := by rw [hl]; exact List.mem_cons_self _ _
        obtain ⟨hcM, hcZ, hcp⟩ := (h.exited cur child hcur).mp hmem
        rw [if_neg (not_not.mpr hcZ)] at hs
        simp only [Outcome.after, Option.some.injEq] at hs
        exact Or.inr ⟨child, hcM, hcZ, hcp, hs.symm⟩

theorem hier_inv_wait (M : Nat) (s : Kernel) (cur : Nat) (cpid : Int) (st : Option Int)
    (h : hier_inv M s) (hcur : cur < M) (s1 : Kernel)
    (hs : (WaitChild M s cur cpid st).after = some s1) :
    hier_inv M s1 ∧ ∀ q, (s.PT q).pstate = pid_state.ALIVE → (s1.PT q).pstate = pid_state.ALIVE := by
  rcases WaitChild_effect M s cur cpid st h hcur s1 hs with e | ⟨X, hX, hZ, hp, e⟩
  · subst e; exact ⟨h, fun _ hq => hq⟩
  · subst e
    refine ⟨hier_inv_reap M s cur X st h hX hZ hp, ?_⟩
    intro q hq
    rw [(cleanup_zombie_fields s X st q).1]
    have hqX : q ≠ X := by
      intro e; rw [e, hZ] at hq; cases hq
    rw [if_neg hqX]; exact hq

/-- The invariant is kept by the teardown of `Exit` in a process other than
init. -/
theorem hier_inv_teardown (M : Nat) (s t : Kernel) (X : Nat) (h : hier_inv M s)
    (hX : X < M) (hX1 : X ≠ 1) (hal : (s.PT X).pstate = pid_state.ALIVE)
    (tfl : t.pcb_freelist = s.pcb_freelist)
    (tpar : ∀ q, (t.PT q).parent =
      (if q ∈ (s.PT X).children_list then some 1 else (s.PT q).parent))
    (tch : ∀ q, (t.PT q).children_list =
      (if q = X then [] else if q = 1 then (s.PT X).children_list.reverse ++ (s.PT 1).children_list
        else (s.PT q).children_list))
    (tex0 : ∀ q, (t.PT q).exited_list =
      (if (if X ∈ (s.PT X).children_list then some 1 else (s.PT X).parent) = some q then
        X :: (if q = X then [] else if q = 1 then (s.PT 1).exited_list ++ (s.PT X).exited_list
          else (s.PT q).exited_list)
       else (if q = X then [] else if q = 1 then (s.PT 1).exited_list ++ (s.PT X).exited_list
          else (s.PT q).exited_list)))
    (tps : ∀ q, (t.PT q).pstate = (if q = X then pid_state.ZOMBIE else (s.PT q).pstate)) :
    hier_inv M t := by
  have h1M : 1 < M := h.two_le
  have hXX : X ∉ (s.PT X).children_list := by
    intro hm
    have hp := ((h.children X X hX).mp hm).2.2
    by_cases hX2 : 2 ≤ X
    · obtain ⟨p, _, hpp, _, hne⟩ := h.parent X hX hX2 (by rw [hal]; intro e; cases e)
      rw [hpp] at hp
      exact hne (Option.some.inj hp)
    · rw [h.roots X (by omega)] at hp; cases hp
  have tex : ∀ q, (t.PT q).exited_list =
      (if (s.PT X).parent = some q then
        X :: (if q = X then [] else if q = 1 then (s.PT 1).exited_list ++ (s.PT X).exited_list
          else (s.PT q).exited_list)
       else (if q = X then [] else if q = 1 then (s.PT 1).exited_list ++ (s.PT X).exited_list
          else (s.PT q).exited_list)) := by
    intro q; rw [tex0 q, if_neg hXX]
  have hnf : ∀ q, (t.PT q).pstate ≠ pid_state.FREE ↔ (s.PT q).pstate ≠ pid_state.FREE := by
    intro q
    rw [tps q]
    by_cases hq : q = X
    · subst hq; simp [hal]
    · simp [hq]
  have hpX : ∀ q, q < M → (s.PT q).pstate ≠ pid_state.FREE → (s.PT q).parent = some X →
      q ∈ (s.PT X).children_list := fun q h1 h2 h3 => (h.children X q hX).mpr ⟨h1, h2, h3⟩
  have hchX : ∀ q, q ∈ (s.PT X).children_list →
      q < M ∧ (s.PT q).pstate ≠ pid_state.FREE ∧ (s.PT q).parent = some X :=
    fun q hm => (h.children X q hX).mp hm
  have hparX : ∀ q, q < M → (s.PT q).pstate ≠ pid_state.FREE → (t.PT q).parent ≠ some X := by
    intro q h1 h2 h3
    rw [tpar q] at h3
    by_cases hq : q ∈ (s.PT X).children_list
    · rw [if_pos hq] at h3
      exact hX1 (Option.some.inj h3).symm
    · rw [if_neg hq] at h3
      exact hq (hpX q h1 h2 h3)
  have hexZ : ∀ p q, p < M → q ∈ (s.PT p).exited_list →
      q < M ∧ (s.PT q).pstate = pid_state.ZOMBIE ∧ (s.PT q).parent = some p :=
    fun p q hp hm => (h.exited p q hp).mp hm
  have hexX : ∀ p, p < M → X ∉ (s.PT p).exited_list := by
    intro p hp hm
    have := (hexZ p X hp hm).2.1
    rw [hal] at this; cases this
  refine ⟨h.two_le, ?_, ?_, ?_, ?_, ?_, ?_, ?_, ?_⟩
  · exact (hnf 0).mpr h.idle
  · rw [tps 1, if_neg (fun e => hX1 e.symm)]; exact h.init
  · intro q hq1
    have hq : q ∉ (s.PT X).children_list := by
      intro hm
      have := (hchX q hm).2.2
      rw [h.roots q hq1] at this; cases this
    rw [tpar q, if_neg hq]
    exact h.roots q hq1
  · intro q hqM hq2 hqnf
    have hqnf0 := (hnf q).mp hqnf
    by_cases hq : q ∈ (s.PT X).children_list
    · refine ⟨1, h1M, ?_, ?_, by omega⟩
      · rw [tpar q, if_pos hq]
      · rw [tps 1, if_neg (fun e => hX1 e.symm)]; exact h.init
    · obtain ⟨p, hp, hqp, hpal, hne⟩ := h.parent q hqM hq2 hqnf0
      have hpX1 : p ≠ X := by
        intro e; subst e
        exact hq (hpX q hqM hqnf0 hqp)
      refine ⟨p, hp, ?_, ?_, hne⟩
      · rw [tpar q, if_neg hq]; exact hqp
      · rw [tps p, if_neg hpX1]; exact hpal
  · intro p q hp
    rw [hnf q]
    by_cases hpX0 : p = X
    · subst hpX0
      rw [tch p, if_pos rfl]
      constructor
      · intro hm; cases hm
      · intro hm
        exact absurd hm.2.2 (hparX q hm.1 hm.2.1)
    · rw [tch p, if_neg hpX0, tpar q]
      by_cases hp1 : p = 1
      · subst hp1
        simp only [if_true, List.mem_append, List.mem_reverse]
        by_cases hq : q ∈ (s.PT X).children_list
        · simp only [hq, true_or, if_true, true_iff, and_true]
          exact ⟨(hchX q hq).1, (hchX q hq).2.1⟩
        · simp only [hq, false_or, if_false]
          exact h.children 1 q hp
      · simp only [hp1, if_false]
        by_cases hq : q ∈ (s.PT X).children_list
        · simp only [hq, if_true]
          constructor
          · intro hm
            have e1 := ((h.children p q hp).mp hm).2.2
            rw [(hchX q hq).2.2] at e1
            exact absurd (Option.some.inj e1).symm hpX0
          · intro hm
            exact absurd (Option.some.inj hm.2.2).symm hp1
        · simp only [hq, if_false]
          exact h.children p q hp
  · intro p hp
    rw [tch p]
    by_cases hpX0 : p = X
    · rw [if_pos hpX0]; exact List.nodup_nil
    · rw [if_neg hpX0]
      by_cases hp1 : p = 1
      · rw [if_pos hp1]
        refine List.Nodup.append (List.nodup_reverse.mpr (h.children_nodup X hX))
          (h.children_nodup 1 h1M) ?_
        intro x hx1 hx2
        have e1 := (hchX x (List.mem_reverse.mp hx1)).2.2
        have e2 := ((h.children 1 x h1M).mp hx2).2.2
        rw [e1] at e2
        exact hX1 (Option.some.inj e2)
      · rw [if_neg hp1]; exact h.children_nodup p hp
  · intro p q hp
    by_cases hqX : q = X
    · subst hqX
      rw [tps q, if_pos rfl, tpar q, if_neg hXX, tex p]
      have hbase : q ∉ (if p = q then [] else if p = 1 then
          (s.PT 1).exited_list ++ (s.PT q).exited_list else (s.PT p).exited_list) := by
        by_cases e1 : p = q
        · rw [if_pos e1]; exact List.not_mem_nil _
        · rw [if_neg e1]
          by_cases e2 : p = 1
          · rw [if_pos e2]
            intro hm
            rcases List.mem_append.mp hm with hm | hm
            · exact hexX 1 h1M hm
            · exact hexX q hX hm
          · rw [if_neg e2]; exact hexX p hp
      by_cases hpp : (s.PT q).parent = some p
      · rw [if_pos hpp]
        simp [hX, hpp]
      · rw [if_neg hpp]
        constructor
        · intro hm; exact absurd hm hbase
        · intro hm; exact absurd hm.2.2 hpp
    · rw [tps q, if_neg hqX, tpar q]
      have hL : q ∈ (t.PT p).exited_list ↔
          q ∈ (if p = X then [] else if p = 1 then
            (s.PT 1).exited_list ++ (s.PT X).exited_list else (s.PT p).exited_list) := by
        rw [tex p]
        by_cases hpp : (s.PT X).parent = some p
        · rw [if_pos hpp]
          simp only [List.mem_cons, hqX, false_or]
        · rw [if_neg hpp]
      rw [hL]
      by_cases hpX0 : p = X
      · subst hpX0
        rw [if_pos rfl]
        constructor
        · intro hm; cases hm
        · intro hm
          have hqnf : (s.PT q).pstate ≠ pid_state.FREE := by
            rw [hm.2.1]; intro e; cases e
          have := hparX q hm.1 hqnf
          rw [tpar q] at this
          exact absurd hm.2.2 this
      · rw [if_neg hpX0]
        by_cases hp1 : p = 1
        · subst hp1
          simp only [if_true, List.mem_append]
          by_cases hq : q ∈ (s.PT X).children_list
          · simp only [hq, if_true, and_true]
            constructor
            · intro hm
              rcases hm with hm | hm
              · exact ⟨(hexZ 1 q hp hm).1, (hexZ 1 q hp hm).2.1⟩
              · exact ⟨(hexZ X q hX hm).1, (hexZ X q hX hm).2.1⟩
            · intro hm
              exact Or.inr ((h.exited X q hX).mpr ⟨hm.1, hm.2, (hchX q hq).2.2⟩)
          · simp only [hq, if_false]
            constructor
            · intro hm
              rcases hm with hm | hm
              · exact hexZ 1 q hp hm
              · have hz := hexZ X q hX hm
                have hqnf : (s.PT q).pstate ≠ pid_state.FREE := by
                  rw [hz.2.1]; intro e; cases e
                exact absurd (hpX q hz.1 hqnf hz.2.2) hq
            · intro hm
              exact Or.inl ((h.exited 1 q hp).mpr hm)
        · simp only [hp1, if_false]
          by_cases hq : q ∈ (s.PT X).children_list
          · simp only [hq, if_true]
            constructor
            · intro hm
              have e1 := (hexZ p q hp hm).2.2
              rw [(hchX q hq).2.2] at e1
              exact absurd (Option.some.inj e1).symm hpX0
            · intro hm
              exact absurd (Option.some.inj hm.2.2).symm hp1
          · simp only [hq, if_false]
            exact h.exited p q hp
  · obtain ⟨L, hc, hnd, hL⟩ := h.pool
    have hLX : ∀ x, x ∈ L → x ∉ (s.PT X).children_list := by
      intro x hx hm
      exact (hchX x hm).2.1 (hL x hx).2.2
    refine ⟨L, ?_, hnd, ?_⟩
    · rw [tfl]
      apply is_chain_congr s t L _ _ hc
      intro x hx
      rw [tpar x, if_neg (hLX x hx)]
    · intro x hx
      have hxX : x ≠ X := by
        intro e
        have := (hL x hx).2.2
        rw [e, hal] at this; cases this
      rw [tps x, if_neg hxX]
      exact hL x hx

theorem Exit_teardown_after (F fuel : Nat) (s s1 : Kernel) (P T : Nat) (v : Int)
    (h : (Exit_teardown F fuel s P T v).after = some s1) :
    Exit_teardown F fuel s P T v = Outcome.exited s1 ∧
      (s1.PT P).pstate = pid_state.ZOMBIE := by
  have hz : ∀ s2, Exit_teardown F fuel s P T v = Outcome.exited s2 →
      (s2.PT P).pstate = pid_state.ZOMBIE := by
    intro s2 h2
    obtain ⟨t, e, _⟩ := (Exit_teardown_shape F fuel s P T v).1 s2 h2
    rw [e]
    simp [Exit_finish]
  have hnr : ∀ s2 u, Exit_teardown F fuel s P T v ≠ Outcome.ret s2 u := by
    intro s2 u
    unfold Exit_teardown
    simp only []
    cases reparent_children P
        (get_pcb (close_FIDT F P (free_own_args (reclaim_threads P T s) P T)) 1) fuel
        (close_FIDT F P (free_own_args (reclaim_threads P T s) P T)) with
    | ret s4 u4 =>
      simp only []
      cases splice_exited P
        (get_pcb (close_FIDT F P (free_own_args (reclaim_threads P T s) P T)) 1) s4 <;> simp
    | blocked s4 => simp
    | exited s4 => simp
    | fault f => simp
    | out_of_fuel => simp
  cases ho : Exit_teardown F fuel s P T v with
  | ret s2 u => exact absurd ho (hnr s2 u)
  | blocked s2 => exact absurd ho ((Exit_teardown_shape F fuel s P T v).2 s2)
  | exited s2 =>
    rw [ho] at h
    simp only [Outcome.after, Option.some.injEq] at h
    subst h
    exact ⟨rfl, hz s2 ho⟩
  | fault f => rw [ho] at h; simp [Outcome.after] at h
  | out_of_fuel => rw [ho] at h; simp [Outcome.after] at h

theorem hier_step_teardown (M F fuel : Nat) (s s1 : Kernel) (X T : Nat) (v : Int)
    (h : hier_inv M s) (hX : X < M) (hal : (s.PT X).pstate = pid_state.ALIVE)
    (hs : (Exit_teardown F fuel s X T v).after = some s1)
    (h1 : (s1.PT 1).pstate = pid_state.ALIVE) : hier_inv M s1 := by
  obtain ⟨he, hz⟩ := Exit_teardown_after F fuel s s1 X T v hs
  by_cases hX1 : X = 1
  · subst hX1
    rw [hz] at h1; cases h1
  · have Fq := Exit_teardown_fields F fuel s s1 X T v hX1 he
    exact hier_inv_teardown M s s1 X h hX hX1 hal (Fq 0).2.2.2.2.2.1
      (fun q => (Fq q).1) (fun q => (Fq q).2.1) (fun q => (Fq q).2.2.1)
      (fun q => (Fq q).2.2.2.1)

theorem hier_step_barrier (M F fuel : Nat) (s s1 : Kernel) (X T : Nat) (v : Int)
    (h : hier_inv M s) (hX : X < M) (hal : (s.PT X).pstate = pid_state.ALIVE)
    (hs : (Exit_barrier F fuel s X T v).after = some s1)
    (h1 : (s1.PT 1).pstate = pid_state.ALIVE) : hier_inv M s1 := by
  unfold Exit_barrier at hs
  by_cases hc : count_barrier s X T = 1
  · rw [if_pos hc] at hs
    exact hier_step_teardown M F fuel s s1 X T v h hX hal hs h1
  · rw [if_neg hc] at hs
    simp only [Outcome.after, Option.some.injEq] at hs
    subst hs
    exact h

theorem hier_step_drain (M F fuel : Nat) (X T : Nat) (v : Int) (hX : X < M) (s1 : Kernel)
    (h1 : (s1.PT 1).pstate = pid_state.ALIVE) :
    ∀ n s, hier_inv M s → (s.PT X).pstate = pid_state.ALIVE →
      (Exit_drain M F fuel X T v n s).after = some s1 → hier_inv M s1 := by
  intro n
  induction n with
  | zero =>
    intro s _ _ hs
    simp [Exit_drain, Outcome.after] at hs
  | succ n ih =>
    intro s h hal hs
    simp only [Exit_drain] at hs
    cases hw : WaitChild M s X NOPROC none with
    | ret s2 r =>
      rw [hw] at hs
      simp only [] at hs
      have hw2 : (WaitChild M s X NOPROC none).after = some s2 := by rw [hw]; rfl
      obtain ⟨hi2, hal2⟩ := hier_inv_wait M s X NOPROC none h hX s2 hw2
      by_cases hr : r.1 ≠ NOPROC
      · rw [if_pos hr] at hs
        exact ih s2 hi2 (hal2 X hal) hs
      · rw [if_neg hr] at hs
        exact hier_step_barrier M F fuel s2 s1 X T v hi2 hX (hal2 X hal) hs h1
    | blocked s2 =>
      rw [hw] at hs
      simp only [Outcome.after, Option.some.injEq] at hs
      subst hs
      have hw2 : (WaitChild M s X NOPROC none).after = some s2 := by rw [hw]; rfl
      exact (hier_inv_wait M s X NOPROC none h hX s2 hw2).1
    | exited s2 =>
      rw [hw] at hs
      simp only [Outcome.after, Option.some.injEq] at hs
      subst hs
      have hw2 : (WaitChild M s X NOPROC none).after = some s2 := by rw [hw]; rfl
      exact (hier_inv_wait M s X NOPROC none h hX s2 hw2).1
    | fault f => rw [hw] at hs; simp [Outcome.after] at hs
    | out_of_fuel => rw [hw] at hs; simp [Outcome.after] at hs

theorem Exit_flagged (M F : Nat) (X T : Nat) (v : Int) :
    ∀ fuel s, (s.PT X).exitflag = 1 →
      (Exit M F fuel s X T v = Outcome.out_of_fuel ∨
        Exit M F fuel s X T v = ThreadExit_body s T v) ∧
      (ThreadExit M F fuel s X T v = Outcome.out_of_fuel ∨
        ThreadExit M F fuel s X T v = ThreadExit_body s T v) := by
  intro fuel
  induction fuel with
  | zero =>
    intro s _
    exact ⟨Or.inl (by simp [Exit]), Or.inl (by simp [ThreadExit])⟩
  | succ n ih =>
    intro s hf
    constructor
    · have e : Exit M F (n + 1) s X T v = ThreadExit M F n s X T v := by
        simp [Exit, hf]
      rw [e]
      exact (ih s hf).2
    · by_cases hc : count_not_done s X = 1
      · have e : ThreadExit M F (n + 1) s X T v = Exit M F n s X T v := by
          simp [ThreadExit, hc]
        rw [e]
        exact (ih s hf).1
      · exact Or.inr (by simp [ThreadExit, hc])

theorem ThreadExit_body_after (s : Kernel) (T : Nat) (v : Int) :
    ∃ s1, (ThreadExit_body s T v).after = some s1 ∧ s1.PT = s.PT ∧
      s1.pcb_freelist = s.pcb_freelist := by
  unfold ThreadExit_body
  simp only [Outcome.after]
  refine ⟨_, rfl, ?_, ?_⟩
  · by_cases hj : (s.heap (s.owner_ptcb T)).joinable = 1 <;> simp [hj, set_ptcb]
  · by_cases hj : (s.heap (s.owner_ptcb T)).joinable = 1 <;> simp [hj, set_ptcb]

theorem hier_step_exit (M F fuel : Nat) (s s1 : Kernel) (X T : Nat) (v : Int)
    (h : hier_inv M s) (hX : X < M) (hal : (s.PT X).pstate = pid_state.ALIVE)
    (hs : (Exit M F fuel s X T v).after = some s1)
    (h1 : (s1.PT 1).pstate = pid_state.ALIVE) : hier_inv M s1 := by
  by_cases hf : (s.PT X).exitflag = 1
  · rcases (Exit_flagged M F X T v fuel s hf).1 with e | e
    · rw [e] at hs; simp [Outcome.after] at hs
    · rw [e] at hs
      obtain ⟨s2, e2, hPT, hfl⟩ := ThreadExit_body_after s T v
      rw [e2] at hs
      simp only [Option.some.injEq] at hs
      subst hs
      exact hier_inv_congr M s s2 h hfl (fun q => by rw [hPT]; exact ⟨rfl, rfl, rfl, rfl⟩)
  · cases fuel with
    | zero => simp [Exit, Outcome.after] at hs
    | succ fuel =>
      have e : Exit M F (fuel + 1) s X T v =
          Exit_body M F fuel (set_pcb s X { s.PT X with exitflag := 1 }) X T v := by
        simp [Exit, hf]
      rw [e] at hs
      obtain ⟨p1, p2, _, _⟩ :=
        Exit_publish_PT (set_pcb s X { s.PT X with exitflag := 1 }) T v
      have hi : hier_inv M (Exit_publish (set_pcb s X { s.PT X with exitflag := 1 }) T v) := by
        apply hier_inv_congr M s _ h
        · rw [p2]; rfl
        · intro q
          rw [p1]
          by_cases hq : q = X
          · subst hq; simp
          · simp [hq]
      have hal2 : ((Exit_publish (set_pcb s X { s.PT X with exitflag := 1 }) T v).PT X).pstate =
          pid_state.ALIVE := by
        rw [p1]; simpa using hal
      unfold Exit_body at hs
      by_cases hg : GetPid X = 1
      · rw [if_pos hg] at hs
        exact hier_step_drain M F fuel X T v hX s1 h1 fuel _ hi hal2 hs
      · rw [if_neg hg] at hs
        exact hier_step_barrier M F fuel _ s1 X T v hi hX hal2 hs h1

theorem Exec_exited_list (F : Nat) (s : Kernel) (cur : Nat) (call : Option Nat) (argl : Int)
    (args : Option Nat) (mt pt ap : Nat) (s1 : Kernel) (pid : Int)
    (h : Exec F s cur call argl args mt pt ap = Except.ok (s1, pid)) (q : Nat) :
    (s1.PT q).exited_list = (s.PT q).exited_list := by
  have hok := Exec_ok_args F s cur call argl args mt pt ap s1 pid h
  cases ha : s.pcb_freelist with
  | none =>
    rw [Exec_of_empty_freelist F s cur call argl args mt pt ap ha] at h
    cases h
  | some n =>
    rw [Exec_eq F s cur call argl args mt pt ap n ha hok] at h
    simp only [Except.ok.injEq, Prod.mk.injEq] at h
    rw [← h.1]
    rw [((Exec_spawn_fields _ n call argl args mt pt ap).2.2.2 q).2.2.1]
    rw [(Exec_link_fields F _ cur n).2.2.2.2.1 q]
    have e : ∀ p, ((acquire_PCB s).1.PT p).exited_list = (s.PT p).exited_list := by
      intro p
      unfold acquire_PCB
      cases hf : s.pcb_freelist with
      | none => rfl
      | some m => by_cases hp : p = m <;> simp [hp]
    by_cases hq : q = n
    · subst hq; simp [e]
    · simp [hq, e]

theorem hier_step_exec (M F : Nat) (s s1 : Kernel) (cur : Nat) (call : Option Nat)
    (argl : Int) (args : Option Nat) (mt pt ap : Nat) (pid : Int)
    (h : hier_inv M s) (hcur : cur < M) (hal : (s.PT cur).pstate = pid_state.ALIVE)
    (hs : Exec F s cur call argl args mt pt ap = Except.ok (s1, pid)) : hier_inv M s1 := by
  cases hf : s.pcb_freelist with
  | none =>
    rw [Exec_of_empty_freelist F s cur call argl args mt pt ap hf] at hs
    cases hs
  | some n =>
    obtain ⟨s2, e2, f1, f2, f3, f4, _, _⟩ := Exec_fields F s cur call argl args mt pt ap n hf
      (Exec_ok_args F s cur call argl args mt pt ap s1 pid hs)
    have hex := Exec_exited_list F s cur call argl args mt pt ap s1 pid hs
    rw [e2] at hs
    simp only [Except.ok.injEq, Prod.mk.injEq] at hs
    rw [← hs.1]
    rw [← hs.1] at hex
    exact hier_inv_exec M s s2 cur n h hcur hal hf f1 f2 f3 f4 hex

/-- Every step that leaves init ALIVE keeps the invariant. -/
theorem hier_inv_step (M F : Nat) (s s1 : Kernel) (c : sys_call) (h : hier_inv M s)
    (hs : sys_step M F s c = some s1) (h1 : (s1.PT 1).pstate = pid_state.ALIVE) :
    hier_inv M s1 := by
  cases c with
  | exec cur call argl args mt pt ap =>
    simp only [sys_step] at hs
    by_cases hg : cur < M ∧ (s.PT cur).pstate = pid_state.ALIVE
    · rw [if_pos hg] at hs
      cases he : Exec F s cur call argl args mt pt ap with
      | error f => rw [he] at hs; cases hs
      | ok r =>
        rw [he] at hs
        simp only [Option.some.injEq] at hs
        subst hs
        exact hier_step_exec M F s r.1 cur call argl args mt pt ap r.2 h hg.1 hg.2 he
    · rw [if_neg hg] at hs; cases hs
  | wait cur cpid st =>
    simp only [sys_step] at hs
    by_cases hg : cur < M ∧ (s.PT cur).pstate = pid_state.ALIVE
    · rw [if_pos hg] at hs
      exact (hier_inv_wait M s cur cpid st h hg.1 s1 hs).1
    · rw [if_neg hg] at hs; cases hs
  | exit cur T v fuel =>
    simp only [sys_step] at hs
    by_cases hg : cur < M ∧ (s.PT cur).pstate = pid_state.ALIVE
    · rw [if_pos hg] at hs
      exact hier_step_exit M F fuel s s1 cur T v h hg.1 hg.2 hs h1
    · rw [if_neg hg] at hs; cases hs
  | resume cur T v fuel =>
    simp only [sys_step] at hs
    by_cases hg : cur < M ∧ (s.PT cur).pstate = pid_state.ALIVE
    · rw [if_pos hg] at hs
      exact hier_step_barrier M F fuel s s1 cur T v h hg.1 hg.2 hs h1
    · rw [if_neg hg] at hs; cases hs

theorem hier_inv_run (M F : Nat) (cs : List sys_call) :
    ∀ s s1, hier_inv M s → sys_run M F cs s = some s1 → hier_inv M s1 := by
  induction cs with
  | nil =>
    intro s s1 h hr
    simp only [sys_run, Option.some.injEq] at hr
    rw [← hr]; exact h
  | cons c cs ih =>
    intro s s1 h hr
    simp only [sys_run] at hr
    cases hc : sys_step M F s c with
    | none => rw [hc] at hr; cases hr
    | some s2 =>
      rw [hc] at hr
      simp only [] at hr
      by_cases h1 : (s2.PT 1).pstate = pid_state.ALIVE
      · rw [if_pos h1] at hr
        exact ih s2 s1 (hier_inv_step M F s s2 c h hc h1) hr
      · rw [if_neg h1] at hr; cases hr

theorem init_PCBs_lists (n : Nat) (s : Kernel) (p : Nat) (hp : p < n) :
    ((init_PCBs n s).PT p).children_list = [] ∧ ((init_PCBs n s).PT p).exited_list = [] := by
  unfold init_PCBs
  induction n with
  | zero => omega
  | succ n ih =>
    simp only [List.range_succ, List.foldl_append, List.foldl_cons, List.foldl_nil, set_pcb_PT]
    by_cases h : p = n
    · simp [h, initialize_PCB]
    · simp only [h, if_false]
      exact ih (by omega)

theorem build_freelist_lists (k : Nat) (s : Kernel) (p : Nat) :
    ((build_freelist k s).PT p).children_list = (s.PT p).children_list ∧
    ((build_freelist k s).PT p).exited_list = (s.PT p).exited_list := by
  induction k generalizing s with
  | zero => simp [build_freelist]
  | succ k ih =>
    have h := ih { set_pcb s k { s.PT k with parent := s.pcb_freelist } with pcb_freelist := some k }
    simp only [build_freelist]
    rw [h.1, h.2]
    by_cases hpk : p = k <;> simp [hpk]

theorem initialize_pool_lists (M : Nat) (s0 : Kernel) (p : Nat) (hp : p < M) :
    ((initialize_pool M s0).PT p).children_list = [] ∧
    ((initialize_pool M s0).PT p).exited_list = [] := by
  have h := build_freelist_lists M { init_PCBs M s0 with pcb_freelist := none } p
  have h2 := init_PCBs_lists M s0 p hp
  simp only [initialize_pool]
  exact ⟨h.1.trans h2.1, h.2.trans h2.2⟩

/-- Boot establishes the invariant. -/
theorem hier_inv_boot (M F : Nat) (s0 : Kernel) (c0 : Nat) (call : Option Nat) (argl : Int)
    (args : Option Nat) (mt pt ap : Nat) (b : Kernel)
    (hb : boot M F s0 c0 call argl args mt pt ap = some b) : hier_inv M b := by
  obtain ⟨q1, q2, q3⟩ := initialize_pool_spec M s0
  have q4 := initialize_pool_lists M s0
  unfold boot initialize_processes at hb
  generalize initialize_pool M s0 = P at q1 q2 q3 q4 hb
  by_cases hM0 : M = 0
  · rw [if_pos hM0] at q1
    rw [Exec_of_empty_freelist F P c0 none 0 none 0 0 0 q1] at hb
    cases hb
  · rw [if_neg hM0] at q1
    obtain ⟨s1, e1, a1, a2, a3, a4, _, _⟩ :=
      Exec_fields F P c0 none 0 none 0 0 0 0 q1 (Or.inl rfl)
    have a5 := Exec_exited_list F P c0 none 0 none 0 0 0 s1 _ e1
    rw [e1] at hb
    simp only [Nat.cast_zero, ne_eq, not_true_eq_false, if_false] at hb
    rw [q2 0 (by omega)] at a1
    by_cases hM1 : 0 + 1 = M
    · rw [if_pos hM1] at a1
      rw [Exec_of_empty_freelist F s1 c0 call argl args mt pt ap a1] at hb
      cases hb
    · rw [if_neg hM1] at a1
      by_cases hok : call = none ∨ args = none ∨ 0 ≤ argl
      rotate_left
      · rw [Exec_args_fault F s1 c0 call argl args mt pt ap hok] at hb
        cases hb
      obtain ⟨s2, e2, b1, b2, b3, b4, _, _⟩ :=
        Exec_fields F s1 c0 call argl args mt pt ap 1 a1 hok
      have b5 := Exec_exited_list F s1 c0 call argl args mt pt ap s2 _ e2
      rw [e2] at hb
      simp only [Nat.cast_one, if_true, Option.some.injEq] at hb
      subst hb
      have hM2 : 2 ≤ M := by omega
      have tps : ∀ q, (s2.PT q).pstate =
          if q ≤ 1 then pid_state.ALIVE else (P.PT q).pstate := by
        intro q
        rw [b4 q, a4 q]
        by_cases h1 : q = 1
        · subst h1; simp
        · by_cases h0 : q = 0
          · subst h0; simp
          · have : ¬ q ≤ 1 := by omega
            simp [h1, h0, this]
      have tpar : ∀ q, (s2.PT q).parent = if q ≤ 1 then none else (P.PT q).parent := by
        intro q
        rw [b2 q, a2 q]
        by_cases h1 : q = 1
        · subst h1; simp
        · by_cases h0 : q = 0
          · subst h0; simp
          · have : ¬ q ≤ 1 := by omega
            simp [h1, h0, this]
      have tch : ∀ q, q < M → (s2.PT q).children_list = [] := by
        intro q hq
        rw [b3 q, a3 q]
        simp [(q4 q hq).1]
      have tex : ∀ q, q < M → (s2.PT q).exited_list = [] := by
        intro q hq
        rw [b5 q, a5 q]
        exact (q4 q hq).2
      have tfl : s2.pcb_freelist = if M - 2 = 0 then none else some 2 := by
        rw [b1, a2 1, if_neg (by omega), q2 1 (by omega)]
        by_cases h2 : 1 + 1 = M
        · have : M - 2 = 0 := by omega
          simp [h2, this]
        · have : ¬ (M - 2 = 0) := by omega
          simp [h2, this]
      have small : ∀ q, q < M → (s2.PT q).pstate ≠ pid_state.FREE → q ≤ 1 := by
        intro q hq hnf
        by_contra hlt
        rw [tps q, if_neg hlt] at hnf
        exact hnf (q3 q hq)
      refine ⟨hM2, ?_, ?_, ?_, ?_, ?_, ?_, ?_, ?_⟩
      · rw [tps 0]; simp
      · rw [tps 1]; simp
      · intro q hq1
        rw [tpar q, if_pos hq1]
      · intro q hqM hq2 hnf
        have := small q hqM hnf
        omega
      · intro p q hp
        rw [tch p hp]
        constructor
        · intro hm; cases hm
        · intro hm
          have hq1 := small q hm.1 hm.2.1
          have := hm.2.2
          rw [tpar q, if_pos hq1] at this
          cases this
      · intro p hp
        rw [tch p hp]; exact List.nodup_nil
      · intro p q hp
        rw [tex p hp]
        constructor
        · intro hm; cases hm
        · intro hm
          have hq1 := small q hm.1 (by rw [hm.2.1]; intro e; cases e)
          have := hm.2.2
          rw [tpar q, if_pos hq1] at this
          cases this
      · refine ⟨List.range' 2 (M - 2), ?_, List.nodup_range' 2 (M - 2), ?_⟩
        · rw [tfl]
          apply is_chain_congr P s2 _ _ _ (is_chain_initial M P q2 (M - 2) 2 (by omega))
          intro x hx
          have hx2 := (List.mem_range'_1.mp hx).1
          rw [tpar x, if_neg (by omega)]
        · intro x hx
          have hx2 := List.mem_range'_1.mp hx
          refine ⟨by omega, hx2.1, ?_⟩
          rw [tps x, if_neg (by omega)]
          exact q3 x (by omega)

/-- C16: in every state reached from boot (pid 0 created, then pid 1) by
`Exec`, `WaitChild` and `Exit` steps of ALIVE processes that leave init
(pid 1) ALIVE, a non-FREE process with pid 0 or 1 has no parent; a non-FREE
process with pid 2 or more has a parent, which is a non-FREE slot of the
table, whose children list holds the process exactly once (and no other
children list holds it), and it is in its parent's exited list (and in no
other) exactly when it is ZOMBIE; and every process other than the idle one
is ZOMBIE exactly when it has a parent whose exited list holds it. -/
theorem hierarchy_invariant (MAX_PROC MAX_FILEID : Nat) (s0 : Kernel) (c0 : Nat)
    (call : Option Nat) (argl : Int) (args : Option Nat) (mainthread ptcb argsptr : Nat)
    (b s : Kernel) (cs : List sys_call)
    (hb : boot MAX_PROC MAX_FILEID s0 c0 call argl args mainthread ptcb argsptr = some b)
    (hr : sys_run MAX_PROC MAX_FILEID cs b = some s) :
    (∀ q, q < MAX_PROC → (s.PT q).pstate ≠ pid_state.FREE → q ≤ 1 →
      (s.PT q).parent = none) ∧
    (∀ q, q < MAX_PROC → (s.PT q).pstate ≠ pid_state.FREE → 2 ≤ q →
      ∃ p, p < MAX_PROC ∧ (s.PT q).parent = some p ∧
        (s.PT p).pstate ≠ pid_state.FREE ∧
        (s.PT p).children_list.count q = 1 ∧
        (∀ p1, p1 < MAX_PROC → q ∈ (s.PT p1).children_list → p1 = p) ∧
        (q ∈ (s.PT p).exited_list ↔ (s.PT q).pstate = pid_state.ZOMBIE) ∧
        (∀ p1, p1 < MAX_PROC → q ∈ (s.PT p1).exited_list → p1 = p)) ∧
    (∀ q, q < MAX_PROC → 1 ≤ q →
      ((s.PT q).pstate = pid_state.ZOMBIE ↔
        ∃ p, p < MAX_PROC ∧ (s.PT q).parent = some p ∧ q ∈ (s.PT p).exited_list)) := by
  have h := hier_inv_run MAX_PROC MAX_FILEID cs b s
    (hier_inv_boot MAX_PROC MAX_FILEID s0 c0 call argl args mainthread ptcb argsptr b hb) hr
  refine ⟨?_, ?_, ?_⟩
  · intro q _ _ hq1
    exact h.roots q hq1
  · intro q hqM hnf hq2
    obtain ⟨p, hp, hqp, hpal, _⟩ := h.parent q hqM hq2 hnf
    refine ⟨p, hp, hqp, ?_, ?_, ?_, ?_, ?_⟩
    · rw [hpal]; intro e; cases e
    · exact List.count_eq_one_of_mem (h.children_nodup p hp)
        ((h.children p q hp).mpr ⟨hqM, hnf, hqp⟩)
    · intro p1 hp1 hm
      have e := ((h.children p1 q hp1).mp hm).2.2
      rw [hqp] at e
      exact (Option.some.inj e).symm
    · constructor
      · intro hm; exact ((h.exited p q hp).mp hm).2.1
      · intro hz; exact (h.exited p q hp).mpr ⟨hqM, hz, hqp⟩
    · intro p1 hp1 hm
      have e := ((h.exited p1 q hp1).mp hm).2.2
      rw [hqp] at e
      exact (Option.some.inj e).symm
  · intro q hqM hq1
    constructor
    · intro hz
      have hq2 : 2 ≤ q := by
        by_contra hlt
        have e : q = 1 := by omega
        rw [e, h.init] at hz; cases hz
      obtain ⟨p, hp, hqp, _, _⟩ := h.parent q hqM hq2 (by rw [hz]; intro e; cases e)
      exact ⟨p, hp, hqp, (h.exited p q hp).mpr ⟨hqM, hz, hqp⟩⟩
    · rintro ⟨p, hp, _, hm⟩
      exact ((h.exited p q hp).mp hm).2.1

theorem hierarchy_invariant_witness :
    (boot 4 2 zero_Kernel 0 (some 1) 0 none 101 201 301 = some boot_init ∧
      sys_run 4 2
        [sys_call.exec 1 (some 1) 0 none 102 202 302,
         sys_call.exec 2 (some 1) 0 none 103 203 303,
         sys_call.exit 2 102 7 5] boot_init = some orphan_adopted) ∧
    ((∀ q, q < 4 → (orphan_adopted.PT q).pstate ≠ pid_state.FREE → q ≤ 1 →
      (orphan_adopted.PT q).parent = none) ∧
    (∀ q, q < 4 → (orphan_adopted.PT q).pstate ≠ pid_state.FREE → 2 ≤ q →
      ∃ p, p < 4 ∧ (orphan_adopted.PT q).parent = some p ∧
        (orphan_adopted.PT p).pstate ≠ pid_state.FREE ∧
        (orphan_adopted.PT p).children_list.count q = 1 ∧
        (∀ p1, p1 < 4 → q ∈ (orphan_adopted.PT p1).children_list → p1 = p) ∧
        (q ∈ (orphan_adopted.PT p).exited_list ↔
          (orphan_adopted.PT q).pstate = pid_state.ZOMBIE) ∧
        (∀ p1, p1 < 4 → q ∈ (orphan_adopted.PT p1).exited_list → p1 = p)) ∧
    (∀ q, q < 4 → 1 ≤ q →
      ((orphan_adopted.PT q).pstate = pid_state.ZOMBIE ↔
        ∃ p, p < 4 ∧ (orphan_adopted.PT q).parent = some p ∧
          q ∈ (orphan_adopted.PT p).exited_list))) :=
  ⟨⟨rfl, rfl⟩,
    hierarchy_invariant 4 2 zero_Kernel 0 (some 1) 0 none 101 201 301 boot_init orphan_adopted
      [sys_call.exec 1 (some 1) 0 none 102 202 302,
       sys_call.exec 2 (some 1) 0 none 103 203 303,
       sys_call.exit 2 102 7 5] rfl rfl⟩

end TinyOS
